import Mathlib

/-!
# A verification development for the `green` bytecode compiler and VM

This file gives a shallow embedding, in Lean 4, of the core of the `green`
scripting-language toolchain (a bytecode compiler in `src/compiler` and a
stack-based virtual machine in `src/vm`), together with theorems about the
embedded definitions.

Modelling conventions, used uniformly below:

* Rust `f64` numbers are modelled as `ℚ`.  None of the properties proved here
  depends on floating-point-specific behaviour (rounding, NaN, infinities):
  every statement either concerns the *shape* of values (type dispatch) or
  holds for an arbitrary ordered field carrier.
* Rust `Vec<T>` is `List T`, with index `0` the bottom/front; `push` appends
  at the end, `pop` removes the last element, `truncate` is `List.take`.
* Machine integers (`u8`, `u16`, `usize`) are `Nat` with explicit `% 256` /
  `% 65536` at the places where the source converts or wraps; `isize` is
  `Int`.  A `usize` subtraction that would overflow in Rust is modelled as an
  explicit error (Rust panics there).
* Fallible code returns `Except`.  Rust `panic!` / `todo!` / out-of-bounds
  indexing aborts the program; in this embedding each panic site is a
  distinguished error constructor, which aborts the enclosing computation
  exactly as an error return does.  Each such constructor is annotated with
  the panic message from the source.
* `HashMap<String, Value>` (the VM's globals, and instance fields) is an
  association list with insert-replaces-existing-key semantics.
* The VM's `println!` output is collected in an explicit `output` log field.
* `Gc<T>` (from `src/vm/obj.rs`, whose source file is not present under
  `src/`) is a never-reclaimed shared heap handle; it is modelled inline
  (`Gc α := α`).  No theorem below depends on sharing of `Closure`,
  `Function` or `Class` objects; see the note at `VM.set_property` for the
  one handler where inline modelling is visible.
-/

namespace Green

/-! ## Value model (src/src/compiler/value.rs, object.rs, chunk.rs) -/

/-- `Chunk` (src/src/compiler/chunk.rs), parameterised by the value type to
break the `Chunk`/`Value` recursion: a byte buffer `code`, a constant pool
`constants`, and a per-instruction line table `lines`. -/
structure ChunkG (V : Type) where
  name : Option String
  code : List Nat
  constants : List V
  lines : List Nat

/-- `GreenFunction` (src/src/compiler/object.rs): name, chunk, arity. -/
structure GreenFunctionG (V : Type) where
  name : String
  chunk : ChunkG V
  arity : Nat

/-- `GreenClosure` (src/src/compiler/object.rs): wraps a `Gc<GreenFunction>`
(1:1 with the function; the `Gc` is modelled inline). -/
structure GreenClosureG (V : Type) where
  function : GreenFunctionG V

/-- `Class` (src/src/compiler/object.rs). -/
structure ClassObj where
  name : String
deriving DecidableEq

/-- `Instance` (src/src/compiler/object.rs): a `Gc<Class>` reference plus a
field map. -/
structure InstanceG (V : Type) where
  cls : ClassObj
  fields : List (String × V)

/-- `Value` (src/src/compiler/value.rs): the closed tagged union of runtime
and constant values.  `Number` carries `ℚ` standing in for `f64`. -/
inductive Value where
  | number (n : ℚ)
  | vtrue
  | vfalse
  | nil
  | string (s : String)
  | array (elems : List Value)
  | closure (c : GreenClosureG Value)
  | function (f : GreenFunctionG Value)
  | cls (c : ClassObj)
  | inst (i : InstanceG Value)

abbrev Chunk := ChunkG Value
abbrev GreenFunction := GreenFunctionG Value
abbrev GreenClosure := GreenClosureG Value
abbrev Instance := InstanceG Value

/-- `impl From<&Value> for bool` (value.rs): `False` and `Nil` are falsy,
everything else is truthy. -/
def Value.truthy : Value → Bool
  | .vfalse => false
  | .nil => false
  | _ => true

/-- `impl Into<Value> for bool` (value.rs). -/
def boolToValue (b : Bool) : Value :=
  if b then .vtrue else .vfalse

/-- Shape tests used by the VM (`is_instance` is from value.rs; the others
mirror the `match` arms of `call_value`). -/
def Value.isNumber : Value → Bool
  | .number _ => true
  | _ => false

def Value.isClosure : Value → Bool
  | .closure _ => true
  | _ => false

def Value.isClass : Value → Bool
  | .cls _ => true
  | _ => false

def Value.is_instance : Value → Bool
  | .inst _ => true
  | _ => false

/-- `RuntimeError` (src/src/vm/errors.rs), extended with one constructor per
Rust panic site in the VM/value code (a panic aborts execution just as an
error return does in this embedding). -/
inductive RuntimeError where
  | argumentTypes
  | stackEmpty
  | badStackIndex (wanted len : Nat)
  | undefinedGlobal (name : String)
  | undefinedProperty (name : String)
  | returnFromTopLevel
  /-- value.rs arithmetic/comparison impls: panic "Operand must be a number." -/
  | operandMustBeNumber
  /-- vm.rs `call_value`: panic "Can only call functions" -/
  | canOnlyCallFunctions
  /-- vm.rs `call`: panic "Expected .. arguments but got ..". -/
  | arityMismatch (expected got : Nat)
  /-- vm.rs `get_property`: panic "Only instances have properties." -/
  | onlyInstancesHaveProperties
  /-- `todo!()` sites (vm.rs `closure`/`get_property`, value.rs `Neg`). -/
  | notImplemented
  /-- value.rs `as_string`/`as_number`/`as_array`: panic "TODO". -/
  | valueCastPanic
  /-- Rust `Vec` indexing out of bounds (a panic). -/
  | vecIndexOutOfBounds
  /-- opcode.rs `From<u8>`: panic "No opcode for byte: ..". -/
  | noOpcodeForByte (b : Nat)
  /-- vm.rs `frame()` / `frame_mut()`: `.expect("frames to be nonempty")`. -/
  | noActiveFrame
  /-- Rust `usize` subtraction overflow (a panic in the source). -/
  | usizeUnderflow
deriving DecidableEq

/-- `impl Add for Value` (value.rs): defined only when both operands are
`Number`, otherwise panic "Operand must be a number.".  (The source binds
`self`'s payload as `b` and `other`'s as `a` and returns `b + a`.) -/
def valueAdd : Value → Value → Except RuntimeError Value
  | .number b, .number a => .ok (.number (b + a))
  | _, _ => .error .operandMustBeNumber

/-- `impl Sub for Value` (value.rs). -/
def valueSub : Value → Value → Except RuntimeError Value
  | .number b, .number a => .ok (.number (b - a))
  | _, _ => .error .operandMustBeNumber

/-- `impl Mul for Value` (value.rs). -/
def valueMul : Value → Value → Except RuntimeError Value
  | .number b, .number a => .ok (.number (b * a))
  | _, _ => .error .operandMustBeNumber

/-- `impl Div for Value` (value.rs).  (`ℚ` division by zero yields `0` where
`f64` yields an infinity; no theorem below touches that case.) -/
def valueDiv : Value → Value → Except RuntimeError Value
  | .number b, .number a => .ok (.number (b / a))
  | _, _ => .error .operandMustBeNumber

/-- `impl PartialEq for Value` (value.rs): equality is defined *only* between
two `Number`s; every other combination panics "Operand must be a number.". -/
def valueEq : Value → Value → Except RuntimeError Bool
  | .number b, .number a => .ok (decide (b = a))
  | _, _ => .error .operandMustBeNumber

/-- `a > b` via `impl PartialOrd for Value` (value.rs): defined only between
two `Number`s. -/
def valueGt : Value → Value → Except RuntimeError Bool
  | .number b, .number a => .ok (decide (b > a))
  | _, _ => .error .operandMustBeNumber

/-- `a < b` via `impl PartialOrd for Value` (value.rs). -/
def valueLt : Value → Value → Except RuntimeError Bool
  | .number b, .number a => .ok (decide (b < a))
  | _, _ => .error .operandMustBeNumber

/-- `impl Neg for Value` (value.rs): `Number` negates, anything else is
`todo!()`. -/
def valueNeg : Value → Except RuntimeError Value
  | .number a => .ok (.number (-a))
  | _ => .error .notImplemented

/-- `Value::as_number` followed by `as usize` (vm.rs subscript handlers).
The `f64 → usize` cast truncates toward zero and saturates at `0` for
negative inputs; `Rat.floor.toNat` agrees with that on every rational the
theorems below use. -/
def ratToUsize (q : ℚ) : Nat := q.floor.toNat

/-! ## Opcodes (src/src/compiler/opcode.rs) -/

/-- `Opcode` (opcode.rs): the closed instruction set.  `ret` is the source's
`Return`, `classOp` its `Class`; other names are the source names in
lowerCamel. -/
inductive Opcode where
  | ret
  | constant
  | add
  | subtract
  | multiply
  | divide
  | print
  | equal
  | greater
  | less
  | not
  | negate
  | defineGlobal
  | getGlobal
  | setGlobal
  | jumpIfFalse
  | jump
  | pop
  | getLocal
  | setLocal
  | nil
  | call
  | closure
  | loop
  | newArray
  | indexSubscript
  | storeSubscript
  | classOp
  | getProperty
  | setProperty
deriving DecidableEq

/-- The `#[repr(u8)]` discriminant of each opcode (declaration order in the
source enum, starting at 0; agrees with the `From<u8>` table). -/
def Opcode.toByte : Opcode → Nat
  | .ret => 0
  | .constant => 1
  | .add => 2
  | .subtract => 3
  | .multiply => 4
  | .divide => 5
  | .print => 6
  | .equal => 7
  | .greater => 8
  | .less => 9
  | .not => 10
  | .negate => 11
  | .defineGlobal => 12
  | .getGlobal => 13
  | .setGlobal => 14
  | .jumpIfFalse => 15
  | .jump => 16
  | .pop => 17
  | .getLocal => 18
  | .setLocal => 19
  | .nil => 20
  | .call => 21
  | .closure => 22
  | .loop => 23
  | .newArray => 24
  | .indexSubscript => 25
  | .storeSubscript => 26
  | .classOp => 27
  | .getProperty => 28
  | .setProperty => 29

/-- `impl From<u8> for Opcode` (opcode.rs); an unknown byte panics
("No opcode for byte: .."), modelled as `none`. -/
def Opcode.ofByte? (b : Nat) : Option Opcode :=
  if b = 0 then some .ret
  else if b = 1 then some .constant
  else if b = 2 then some .add
  else if b = 3 then some .subtract
  else if b = 4 then some .multiply
  else if b = 5 then some .divide
  else if b = 6 then some .print
  else if b = 7 then some .equal
  else if b = 8 then some .greater
  else if b = 9 then some .less
  else if b = 10 then some .not
  else if b = 11 then some .negate
  else if b = 12 then some .defineGlobal
  else if b = 13 then some .getGlobal
  else if b = 14 then some .setGlobal
  else if b = 15 then some .jumpIfFalse
  else if b = 16 then some .jump
  else if b = 17 then some .pop
  else if b = 18 then some .getLocal
  else if b = 19 then some .setLocal
  else if b = 20 then some .nil
  else if b = 21 then some .call
  else if b = 22 then some .closure
  else if b = 23 then some .loop
  else if b = 24 then some .newArray
  else if b = 25 then some .indexSubscript
  else if b = 26 then some .storeSubscript
  else if b = 27 then some .classOp
  else if b = 28 then some .getProperty
  else if b = 29 then some .setProperty
  else none

/-! ## Association lists for `HashMap<String, Value>` -/

/-- `HashMap::get` on the association-list model. -/
def assocGet (m : List (String × Value)) (k : String) : Option Value :=
  match m with
  | [] => none
  | (k2, v) :: rest => if k2 = k then some v else assocGet rest k

/-- `HashMap::insert` on the association-list model (replaces an existing
binding for the key, else appends). -/
def assocInsert (m : List (String × Value)) (k : String) (v : Value) :
    List (String × Value) :=
  match m with
  | [] => [(k, v)]
  | (k2, v2) :: rest =>
    if k2 = k then (k, v) :: rest else (k2, v2) :: assocInsert rest k v

/-- `HashMap::contains_key`. -/
def assocContains (m : List (String × Value)) (k : String) : Bool :=
  (assocGet m k).isSome

/-! ## VM state (src/src/vm/mod.rs, callframe.rs) -/

/-- `CallFrame` (src/src/vm/callframe.rs): executing closure, instruction
pointer into its chunk, and the base offset of this invocation's stack
window. -/
structure CallFrame where
  closure : GreenClosure
  ip : Nat
  stack_start : Nat

/-- `CallFrame::new` (callframe.rs): `ip` starts at 0. -/
def CallFrame.new (closure : GreenClosure) (stack_start : Nat) : CallFrame :=
  { closure := closure, ip := 0, stack_start := stack_start }

/-- `VM` (src/src/vm/mod.rs): value stack (bottom at index 0), call-frame
stack (active frame last), global table; plus an `output` log standing in for
`println!`. -/
structure VM where
  stack : List Value
  frames : List CallFrame
  globals : List (String × Value)
  output : List Value

abbrev RunResult (α : Type) := Except RuntimeError α

/-- `VM::push` (vm.rs). -/
def VM.push (vm : VM) (v : Value) : VM :=
  { vm with stack := vm.stack ++ [v] }

/-- `VM::pop` (vm.rs): `stack.pop().ok_or(StackEmpty)`. -/
def VM.pop (vm : VM) : RunResult (Value × VM) :=
  match vm.stack.getLast? with
  | some v => .ok (v, { vm with stack := vm.stack.dropLast })
  | none => .error .stackEmpty

/-- `VM::peek` (vm.rs): `stack.last().ok_or(StackEmpty)`. -/
def VM.peek (vm : VM) : RunResult Value :=
  match vm.stack.getLast? with
  | some v => .ok v
  | none => .error .stackEmpty

/-- `VM::frame` (vm.rs): the active (last) frame; `.expect` panics when there
is none. -/
def VM.frame? (vm : VM) : Option CallFrame :=
  vm.frames.getLast?

/-- Replace the active (last) frame. -/
def VM.setFrame (vm : VM) (f : CallFrame) : VM :=
  { vm with frames := vm.frames.dropLast ++ [f] }

/-- `VM::is_at_end` (vm.rs): the frame stack is empty. -/
def VM.is_at_end (vm : VM) : Bool :=
  vm.frames.isEmpty

/-- `VM::read_byte` (vm.rs): fetch `code[ip]` from the active frame's chunk
and advance `ip` (Rust `Vec` indexing panics out of bounds). -/
def VM.read_byte (vm : VM) : RunResult (Nat × VM) :=
  match vm.frame? with
  | none => .error .noActiveFrame
  | some f =>
    match f.closure.function.chunk.code[f.ip]? with
    | none => .error .vecIndexOutOfBounds
    | some b => .ok (b, vm.setFrame { f with ip := f.ip + 1 })

/-- `VM::read_short` (vm.rs): advance `ip` by 2, then combine the two operand
bytes as `(first <<< 8) ||| second` (the first operand byte is the high
byte). -/
def VM.read_short (vm : VM) : RunResult (Nat × VM) :=
  match vm.frame? with
  | none => .error .noActiveFrame
  | some f =>
    match f.closure.function.chunk.code[f.ip]?,
          f.closure.function.chunk.code[f.ip + 1]? with
    | some b0, some b1 =>
      .ok ((b0 <<< 8) ||| b1, vm.setFrame { f with ip := f.ip + 2 })
    | _, _ => .error .vecIndexOutOfBounds

/-- `Chunk::read_constant`.  Modelled from the spec: the method is called by
the VM (src/src/vm/vm.rs) but `chunk.rs` under `src/` does not define it; per
the spec's bytecode table a 1-byte operand indexes `constants` (Rust `Vec`
indexing panics out of bounds). -/
def ChunkG.read_constant (ch : Chunk) (i : Nat) : RunResult Value :=
  match ch.constants[i]? with
  | some v => .ok v
  | none => .error .vecIndexOutOfBounds

/-- `VM::read_constant` (vm.rs): read an index byte, then fetch that
constant. -/
def VM.read_constant (vm : VM) : RunResult (Value × VM) := do
  let (i, vm) ← vm.read_byte
  match vm.frame? with
  | none => .error .noActiveFrame
  | some f => do
    let v ← f.closure.function.chunk.read_constant i
    .ok (v, vm)

/-- `VM::read_string` (vm.rs): `read_constant().as_string()` (panics when the
constant is not a string). -/
def VM.read_string (vm : VM) : RunResult (String × VM) := do
  let (v, vm) ← vm.read_constant
  match v with
  | .string s => .ok (s, vm)
  | _ => .error .valueCastPanic

/-! ## Instruction handlers (src/src/vm/vm.rs), one per source method -/

/-- `VM::constant`. -/
def VM.constant (vm : VM) : RunResult VM := do
  let (v, vm) ← vm.read_constant
  .ok (vm.push v)

/-- `VM::add`: pop `b`, pop `a`, push `a + b`. -/
def VM.add (vm : VM) : RunResult VM := do
  let (b, vm) ← vm.pop
  let (a, vm) ← vm.pop
  let v ← valueAdd a b
  .ok (vm.push v)

/-- `VM::subtract`. -/
def VM.subtract (vm : VM) : RunResult VM := do
  let (b, vm) ← vm.pop
  let (a, vm) ← vm.pop
  let v ← valueSub a b
  .ok (vm.push v)

/-- `VM::multiply`. -/
def VM.multiply (vm : VM) : RunResult VM := do
  let (b, vm) ← vm.pop
  let (a, vm) ← vm.pop
  let v ← valueMul a b
  .ok (vm.push v)

/-- `VM::divide`. -/
def VM.divide (vm : VM) : RunResult VM := do
  let (b, vm) ← vm.pop
  let (a, vm) ← vm.pop
  let v ← valueDiv a b
  .ok (vm.push v)

/-- `VM::equal`: push `(a == b).into()`. -/
def VM.equal (vm : VM) : RunResult VM := do
  let (b, vm) ← vm.pop
  let (a, vm) ← vm.pop
  let r ← valueEq a b
  .ok (vm.push (boolToValue r))

/-- `VM::greater`. -/
def VM.greater (vm : VM) : RunResult VM := do
  let (b, vm) ← vm.pop
  let (a, vm) ← vm.pop
  let r ← valueGt a b
  .ok (vm.push (boolToValue r))

/-- `VM::less`. -/
def VM.less (vm : VM) : RunResult VM := do
  let (b, vm) ← vm.pop
  let (a, vm) ← vm.pop
  let r ← valueLt a b
  .ok (vm.push (boolToValue r))

/-- `VM::not`: push the negated truthiness of the popped value. -/
def VM.notOp (vm : VM) : RunResult VM := do
  let (a, vm) ← vm.pop
  .ok (vm.push (boolToValue (!a.truthy)))

/-- `VM::negate`. -/
def VM.negate (vm : VM) : RunResult VM := do
  let (a, vm) ← vm.pop
  let v ← valueNeg a
  .ok (vm.push v)

/-- `VM::ret`: pop the frame; pop the return value; truncate the stack to the
popped frame's `stack_start`; push the return value back. -/
def VM.ret (vm : VM) : RunResult VM :=
  match vm.frames.getLast? with
  | some frame => do
    let vm := { vm with frames := vm.frames.dropLast }
    let (result, vm) ← vm.pop
    let vm := { vm with stack := vm.stack.take frame.stack_start }
    .ok (vm.push result)
  | none => .error .returnFromTopLevel

/-- `VM::define_global`: pop the value, read the name constant, insert. -/
def VM.define_global (vm : VM) : RunResult VM := do
  let (value, vm) ← vm.pop
  let (name, vm) ← vm.read_string
  .ok { vm with globals := assocInsert vm.globals name value }

/-- `VM::get_global`. -/
def VM.get_global (vm : VM) : RunResult VM := do
  let (name, vm) ← vm.read_string
  match assocGet vm.globals name with
  | some v => .ok (vm.push v)
  | none => .error (.undefinedGlobal name)

/-- `VM::set_global`: only an existing key may be assigned; the value is
*peeked*, not popped. -/
def VM.set_global (vm : VM) : RunResult VM := do
  let (name, vm) ← vm.read_string
  if assocContains vm.globals name then do
    let value ← vm.peek
    .ok { vm with globals := assocInsert vm.globals name value }
  else .error (.undefinedGlobal name)

/-- `VM::jump_if_false`: read the 2-byte offset; if the *peeked* top of stack
is falsy, add the offset to `ip`. -/
def VM.jump_if_false (vm : VM) : RunResult VM := do
  let (offset, vm) ← vm.read_short
  let v ← vm.peek
  if v.truthy then .ok vm
  else
    match vm.frame? with
    | some f => .ok (vm.setFrame { f with ip := f.ip + offset })
    | none => .error .noActiveFrame

/-- `VM::jump`. -/
def VM.jump (vm : VM) : RunResult VM := do
  let (offset, vm) ← vm.read_short
  match vm.frame? with
  | some f => .ok (vm.setFrame { f with ip := f.ip + offset })
  | none => .error .noActiveFrame

/-- `VM::loop_`: subtract the offset from `ip` (usize underflow panics). -/
def VM.loop_ (vm : VM) : RunResult VM := do
  let (offset, vm) ← vm.read_short
  match vm.frame? with
  | some f =>
    if offset ≤ f.ip then .ok (vm.setFrame { f with ip := f.ip - offset })
    else .error .usizeUnderflow
  | none => .error .noActiveFrame

/-- `VM::print`: pop and write (the written value goes to the output log). -/
def VM.print (vm : VM) : RunResult VM := do
  let (popped, vm) ← vm.pop
  .ok { vm with output := vm.output ++ [popped] }

/-- `VM::nil`. -/
def VM.nilOp (vm : VM) : RunResult VM :=
  .ok (vm.push .nil)

/-- `VM::get_local`: push `stack[stack_start + slot]` (clone). -/
def VM.get_local (vm : VM) : RunResult VM := do
  match vm.frame? with
  | none => .error .noActiveFrame
  | some f => do
    let (slot, vm) ← vm.read_byte
    let index := f.stack_start + slot
    match vm.stack[index]? with
    | some v => .ok { vm with stack := vm.stack ++ [v] }
    | none => .error (.badStackIndex index vm.stack.length)

/-- `VM::set_local`: peek the value and write it to
`stack[stack_start + slot]` (Rust index assignment panics out of bounds). -/
def VM.set_local (vm : VM) : RunResult VM := do
  let value ← vm.peek
  match vm.frame? with
  | none => .error .noActiveFrame
  | some f => do
    let (slot, vm) ← vm.read_byte
    if f.stack_start + slot < vm.stack.length then
      .ok { vm with stack := vm.stack.set (f.stack_start + slot) value }
    else .error .vecIndexOutOfBounds

/-- `VM::call` (the closure path): arity mismatch panics before any frame is
pushed; otherwise push a frame whose `stack_start` is
`stack.len() - (arity + 1)`. -/
def VM.call (vm : VM) (closure : GreenClosure) (arity : Nat) : RunResult VM :=
  if arity ≠ closure.function.arity then
    .error (.arityMismatch closure.function.arity arity)
  else
    let last := vm.stack.length
    if arity + 1 ≤ last then
      .ok { vm with
            frames := vm.frames ++ [CallFrame.new closure (last - (arity + 1))] }
    else .error .usizeUnderflow

/-- `VM::call_value`: the callee sits `arity + 1` slots below the top; a
`Closure` is called, a `Class` is replaced in place by a fresh `Instance`,
anything else panics "Can only call functions". -/
def VM.call_value (vm : VM) (arity : Nat) : RunResult VM :=
  if arity + 1 ≤ vm.stack.length then
    let frame_start := vm.stack.length - (arity + 1)
    match vm.stack[frame_start]? with
    | some (.closure c) => vm.call c arity
    | some (.cls k) =>
      let instanceV := Value.inst { cls := k, fields := [] }
      .ok { vm with stack := vm.stack.set (vm.stack.length - arity - 1) instanceV }
    | some _ => .error .canOnlyCallFunctions
    | none => .error .vecIndexOutOfBounds
  else .error .usizeUnderflow

/-- `VM::call_instruction`. -/
def VM.call_instruction (vm : VM) : RunResult VM := do
  let (arity, vm) ← vm.read_byte
  vm.call_value arity

/-- `VM::closure`: wrap a `Function` constant as a `Closure` and push it
(any other constant is `todo!()`). -/
def VM.closureOp (vm : VM) : RunResult VM := do
  let (v, vm) ← vm.read_constant
  match v with
  | .function f => .ok (vm.push (.closure { function := f }))
  | _ => .error .notImplemented

/-- Pop `n` values (list in pop order, i.e. top first). -/
def VM.popN : Nat → VM → RunResult (List Value × VM)
  | 0, vm => .ok ([], vm)
  | n + 1, vm => do
    let (v, vm) ← vm.pop
    let (vs, vm) ← VM.popN n vm
    .ok (v :: vs, vm)

/-- `VM::new_array`: pop `count` items, reverse them, push the array. -/
def VM.new_array (vm : VM) : RunResult VM := do
  let (count, vm) ← vm.read_byte
  let (items, vm) ← VM.popN count vm
  .ok (vm.push (.array items.reverse))

/-- `VM::index_subscript`: pop index (`as_number`), pop array (`as_array`),
push the element (Rust `Vec` indexing panics out of bounds). -/
def VM.index_subscript (vm : VM) : RunResult VM := do
  let (indexV, vm) ← vm.pop
  match indexV with
  | .number q =>
    match (← vm.pop) with
    | (.array elems, vm) =>
      match elems[ratToUsize q]? with
      | some v => .ok (vm.push v)
      | none => .error .vecIndexOutOfBounds
    | _ => .error .valueCastPanic
  | _ => .error .valueCastPanic

/-- `VM::store_subscript`: pop item, pop index, pop array; overwrite the
element; push the *updated array* (the source's stale comment claims the item
is pushed, but the code pushes `Value::Array(result)`). -/
def VM.store_subscript (vm : VM) : RunResult VM := do
  let (item, vm) ← vm.pop
  let (indexV, vm) ← vm.pop
  match indexV with
  | .number q =>
    match (← vm.pop) with
    | (.array elems, vm) =>
      if ratToUsize q < elems.length then
        .ok (vm.push (.array (elems.set (ratToUsize q) item)))
      else .error .vecIndexOutOfBounds
    | _ => .error .valueCastPanic
  | _ => .error .valueCastPanic

/-- `VM::class`: read the name constant (`as_string`), push a fresh class. -/
def VM.classInstr (vm : VM) : RunResult VM := do
  let (name, vm) ← vm.read_string
  .ok (vm.push (.cls { name := name }))

/-- `VM::get_property`: peeked non-instance panics; otherwise pop the
instance, read the property name, push the field or error. -/
def VM.get_property (vm : VM) : RunResult VM := do
  let v ← vm.peek
  if !v.is_instance then .error .onlyInstancesHaveProperties
  else
    match vm.stack.getLast? with
    | some (.inst i) => do
      let vm := { vm with stack := vm.stack.dropLast }
      let (name, vm) ← vm.read_string
      match assocGet i.fields name with
      | some value => .ok (vm.push value)
      | none => .error (.undefinedProperty name)
    | _ => .error .notImplemented

/-- `VM::set_property`: pop value, pop instance (`as_instance`), insert the
field, push the value back.  (In the source the insert mutates a shared
`Gc<Instance>`; here the instance is inline, so the popped copy is simply
discarded — no theorem below depends on instance sharing.) -/
def VM.set_property (vm : VM) : RunResult VM := do
  let (value, vm) ← vm.pop
  let (instV, vm) ← vm.pop
  match instV with
  | .inst _ => do
    let (_, vm) ← vm.read_string
    .ok (vm.push value)
  | _ => .error .argumentTypes

/-- One iteration of `VM::run` (vm.rs): fetch the opcode byte at the active
frame's `ip`, decode, dispatch. -/
def VM.step (vm : VM) : RunResult VM := do
  let (b, vm) ← vm.read_byte
  match Opcode.ofByte? b with
  | none => .error (.noOpcodeForByte b)
  | some op =>
    match op with
    | .constant => vm.constant
    | .add => vm.add
    | .subtract => vm.subtract
    | .multiply => vm.multiply
    | .divide => vm.divide
    | .greater => vm.greater
    | .less => vm.less
    | .equal => vm.equal
    | .not => vm.notOp
    | .negate => vm.negate
    | .defineGlobal => vm.define_global
    | .getGlobal => vm.get_global
    | .setGlobal => vm.set_global
    | .getLocal => vm.get_local
    | .setLocal => vm.set_local
    | .getProperty => vm.get_property
    | .setProperty => vm.set_property
    | .classOp => vm.classInstr
    | .closure => vm.closureOp
    | .jumpIfFalse => vm.jump_if_false
    | .jump => vm.jump
    | .loop => vm.loop_
    | .call => vm.call_instruction
    | .newArray => vm.new_array
    | .indexSubscript => vm.index_subscript
    | .storeSubscript => vm.store_subscript
    | .ret => vm.ret
    | .print => vm.print
    | .pop => do
      let (_, vm) ← vm.pop
      .ok vm
    | .nil => vm.nilOp

/-- `VM::run` (vm.rs): loop until the frame stack is empty.  The `fuel`
argument is an artifact of the embedding (the source loops unboundedly);
every theorem below supplies enough fuel. -/
def VM.run : Nat → VM → RunResult VM
  | 0, vm => .ok vm
  | fuel + 1, vm =>
    if vm.is_at_end then .ok vm
    else do
      let vm ← vm.step
      VM.run fuel vm

/-- Iterate `VM.step` a fixed number of times (used to execute a bytecode
segment "in isolation"). -/
def VM.stepsN : Nat → VM → RunResult VM
  | 0, vm => .ok vm
  | n + 1, vm => do
    let vm ← vm.step
    VM.stepsN n vm

/-! ## Compiler state (src/src/compiler/local.rs, instance.rs) -/

/-- `Local` (src/src/compiler/local.rs): a name and a declaration depth
(`-1` = declared but not yet initialised). -/
structure Local where
  name : String
  depth : Int
deriving DecidableEq

/-- `GreenFunctionType` (object.rs). -/
inductive GreenFunctionType where
  | closure
  | function
  | script
deriving DecidableEq

/-- The non-recursive fields of `CompilerInstance` (instance.rs). -/
structure CompilerInstanceData where
  function : GreenFunction
  function_type : GreenFunctionType
  locals : List Local
  scope_depth : Int

/-- `CompilerInstance` (instance.rs): the data plus the
`Box<Option<CompilerInstance>>` link to the enclosing instance. -/
inductive CompilerInstance where
  | mk (data : CompilerInstanceData) (enclosing : Option CompilerInstance)

def CompilerInstance.data : CompilerInstance → CompilerInstanceData
  | .mk d _ => d

def CompilerInstance.enclosing : CompilerInstance → Option CompilerInstance
  | .mk _ e => e

/-- Update the non-recursive fields, keeping the enclosing link. -/
def CompilerInstance.withData (ci : CompilerInstance) (d : CompilerInstanceData) :
    CompilerInstance :=
  .mk d ci.enclosing

/-- `Chunk::new` (chunk.rs). -/
def Chunk.new : Chunk :=
  { name := none, code := [], constants := [], lines := [] }

/-- `GreenFunction::new` (object.rs). -/
def GreenFunction.new : GreenFunction :=
  { name := "", chunk := Chunk.new, arity := 0 }

/-- `CompilerInstance::new` (instance.rs): a fresh instance starts with one
sentinel `Local("", 0)` in its locals list. -/
def CompilerInstance.new (ft : GreenFunctionType) : CompilerInstance :=
  .mk { function := GreenFunction.new
        function_type := ft
        locals := [{ name := "", depth := 0 }]
        scope_depth := 0 } none

/-- `Compiler` (compiler.rs): the currently active instance. -/
structure Compiler where
  current : CompilerInstance

/-- `Compiler::new` (compiler.rs). -/
def Compiler.new : Compiler :=
  { current := CompilerInstance.new .script }

/-! ## Chunk emission (src/src/compiler/chunk.rs) -/

/-- `Chunk::write_byte`. -/
def ChunkG.write_byte (ch : Chunk) (b : Nat) : Chunk :=
  { ch with code := ch.code ++ [b] }

/-- `Chunk::write`: record the line, then write the opcode byte. -/
def ChunkG.write (ch : Chunk) (op : Opcode) (line : Nat) : Chunk :=
  ({ ch with lines := ch.lines ++ [line] }).write_byte op.toByte

/-- `Chunk::add_constant` (chunk.rs): push the constant and return
`constants.len() as u8 - 1`.  The `as u8` cast wraps the length modulo 256
and the subtraction is u8 arithmetic, so the returned index is
`(len % 256 + 255) % 256`; nothing is rejected.  (When `len ≡ 0 (mod 256)` a
debug build would panic on the u8 subtraction instead of wrapping; no theorem
below relies on that one residue.) -/
def ChunkG.add_constant (ch : Chunk) (v : Value) : Nat × Chunk :=
  let constants := ch.constants ++ [v]
  ((constants.length % 256 + 255) % 256, { ch with constants := constants })

/-! ## Compiler helpers (src/src/compiler/compiler.rs) -/

/-- The chunk of the currently active instance (`Compiler::current_chunk`). -/
def Compiler.current_chunk (c : Compiler) : Chunk :=
  c.current.data.function.chunk

/-- Apply an update to the current chunk. -/
def Compiler.updateChunk (c : Compiler) (f : Chunk → Chunk) : Compiler :=
  { current := c.current.withData
      { c.current.data with
        function := { c.current.data.function with
                      chunk := f c.current.data.function.chunk } } }

/-- The current chunk's code bytes. -/
def Compiler.currentCode (c : Compiler) : List Nat :=
  c.current_chunk.code

/-- The current chunk's constant pool. -/
def Compiler.currentConstants (c : Compiler) : List Value :=
  c.current_chunk.constants

/-- `Compiler::emit` (the source passes a placeholder line 123). -/
def Compiler.emit (c : Compiler) (op : Opcode) : Compiler :=
  c.updateChunk (fun ch => ch.write op 123)

/-- `Compiler::emit_byte`. -/
def Compiler.emit_byte (c : Compiler) (b : Nat) : Compiler :=
  c.updateChunk (fun ch => ch.write_byte b)

/-- `add_constant` on the current chunk. -/
def Compiler.add_constant (c : Compiler) (v : Value) : Nat × Compiler :=
  let (i, ch) := c.current_chunk.add_constant v
  (i, c.updateChunk (fun _ => ch))

/-- `Compiler::emit_constant`: add the constant, emit `Constant`, emit the
index byte. -/
def Compiler.emit_constant (c : Compiler) (v : Value) : Compiler :=
  let (constant, c) := c.add_constant v
  (c.emit .constant).emit_byte constant

/-- `Compiler::emit_return`: `Nil; Return`. -/
def Compiler.emit_return (c : Compiler) : Compiler :=
  (c.emit .nil).emit .ret

/-- `Compiler::emit_jump`: emit the opcode and a `0xff 0xff` placeholder;
return the placeholder's byte position (`code.len() - 2` after emitting). -/
def Compiler.emit_jump (c : Compiler) (op : Opcode) : Compiler × Nat :=
  let c := ((c.emit op).emit_byte 0xff).emit_byte 0xff
  (c, c.currentCode.length - 2)

/-- `Compiler::patch_jump`: overwrite the placeholder at `offset` with
`code.len() - offset - 2`, high byte first.  The distance is truncated to 16
bits by the `& 0xff` masks; nothing is rejected. -/
def Compiler.patch_jump (c : Compiler) (offset : Nat) : Compiler :=
  let jump := c.currentCode.length - offset - 2
  c.updateChunk (fun ch =>
    let patched := (ch.code.set offset ((jump >>> 8) &&& 0xff)).set (offset + 1) (jump &&& 0xff)
    { ch with code := patched })

/-- `Compiler::emit_loop`: emit `Loop`, then the backward distance
`code.len() - loop_start + 2` (measured after the `Loop` byte, before its two
operand bytes), high byte first. -/
def Compiler.emit_loop (c : Compiler) (loop_start : Nat) : Compiler :=
  let c := c.emit .loop
  let sub := c.currentCode.length - loop_start + 2
  (c.emit_byte ((sub >>> 8) &&& 0xff)).emit_byte (sub &&& 0xff)

/-- `Compiler::begin_scope`. -/
def Compiler.begin_scope (c : Compiler) : Compiler :=
  { current := c.current.withData
      { c.current.data with scope_depth := c.current.data.scope_depth + 1 } }

/-- `Compiler::add_local`: append a `Local` with depth `-1` (no capacity
check). -/
def Compiler.add_local (c : Compiler) (name : String) : Compiler :=
  { current := c.current.withData
      { c.current.data with
        locals := c.current.data.locals ++ [{ name := name, depth := -1 }] } }

/-- `Compiler::mark_initialized`: outside any scope do nothing; otherwise set
the last local's depth to the current scope depth.  (With an empty locals
list the source's `len - 1` index would panic; the list always holds the
sentinel, so the `none` arm is unreachable.) -/
def Compiler.mark_initialized (c : Compiler) : Compiler :=
  if c.current.data.scope_depth = 0 then c
  else
    match c.current.data.locals.getLast? with
    | none => c
    | some l =>
      { current := c.current.withData
          { c.current.data with
            locals := c.current.data.locals.dropLast ++
              [{ l with depth := c.current.data.scope_depth }] } }

/-- The `while` loop of `Compiler::end_scope`, acting on the reversed locals
list: drop trailing locals whose depth exceeds the new scope depth, counting
the `Pop`s to emit. -/
def popLocalsRev : List Local → Int → List Local × Nat
  | [], _ => ([], 0)
  | l :: rest, sd =>
    if l.depth > sd then
      let (r, n) := popLocalsRev rest sd
      (r, n + 1)
    else (l :: rest, 0)

/-- Emit `n` `Pop` instructions. -/
def Compiler.emitPops : Compiler → Nat → Compiler
  | c, 0 => c
  | c, n + 1 => (c.emit .pop).emitPops n

/-- `Compiler::end_scope`: decrement the scope depth, then emit one `Pop` per
local whose depth exceeds it, removing those locals last-declared-first. -/
def Compiler.end_scope (c : Compiler) : Compiler :=
  let sd := c.current.data.scope_depth - 1
  let (keptRev, n) := popLocalsRev c.current.data.locals.reverse sd
  let d := { c.current.data with scope_depth := sd, locals := keptRev.reverse }
  let c := { current := c.current.withData d : Compiler }
  c.emitPops n

/-- `CompileError`: the compile-time panic sites of compiler.rs (each is an
immediate, fatal `panic!` in the source). -/
inductive CompileError where
  /-- `compile_call`: `panic!()` when an argument list exceeds 8. -/
  | tooManyArguments
  /-- `compile_return`: panic "Can't return from top level code." -/
  | returnFromTopLevelCode
  /-- `compile_declare_var`: panic "Already a variable called .. in this scope." -/
  | duplicateLocal (name : String)
  /-- `resolve_local`: panic "Can't read local variable .. in it's own initializer." -/
  | readOwnInitializer (name : String)
  /-- `compile_literal`: `todo!()` for the `Nil` literal. -/
  | nilLiteralUnimplemented
deriving DecidableEq

/-- The scan of `Compiler::resolve_local` (compiler.rs): iterate the locals
list *forward from index 0* (`.iter().enumerate()`); at the first name match
either panic (depth `-1`) or return that index; return `-1` if no local
matches. -/
def resolve_local_scan : List Local → String → Nat → Except CompileError Int
  | [], _, _ => .ok (-1)
  | l :: rest, name, i =>
    if name = l.name then
      if l.depth = -1 then .error (.readOwnInitializer name)
      else .ok (Int.ofNat i)
    else resolve_local_scan rest name (i + 1)

/-- `Compiler::resolve_local`. -/
def Compiler.resolve_local (c : Compiler) (name : String) : Except CompileError Int :=
  resolve_local_scan c.current.data.locals name 0

/-- The duplicate-declaration scan of `Compiler::compile_declare_var`:
iterate the locals list *forward from index 0*; stop ("break") at the first
local with depth ≠ -1 and depth < the current scope depth; panic on a name
match before that point. -/
def duplicate_scan : List Local → Int → String → Except CompileError Unit
  | [], _, _ => .ok ()
  | l :: rest, sd, name =>
    if l.depth ≠ -1 ∧ l.depth < sd then .ok ()
    else if name = l.name then .error (.duplicateLocal name)
    else duplicate_scan rest sd name

/-- `Compiler::compile_declare_var`: at scope depth 0 do nothing; otherwise
run the duplicate scan, then `add_local` and `mark_initialized`. -/
def Compiler.compile_declare_var (c : Compiler) (name : String) :
    Except CompileError Compiler :=
  if c.current.data.scope_depth = 0 then .ok c
  else do
    duplicate_scan c.current.data.locals c.current.data.scope_depth name
    .ok ((c.add_local name).mark_initialized)

/-- `Compiler::compile_define_var`: inside a scope just mark the local
initialised; at depth 0 emit `DefineGlobal` with the name as a string
constant. -/
def Compiler.compile_define_var (c : Compiler) (name : String) : Compiler :=
  if c.current.data.scope_depth > 0 then c.mark_initialized
  else
    let c := c.emit .defineGlobal
    let (constant_id, c) := c.add_constant (.string name)
    c.emit_byte constant_id

/-- `Compiler::end_compiler`: append the implicit `Nil; Return`, take a copy
of the finished function, and restore the enclosing instance (when there is
one). -/
def Compiler.end_compiler (c : Compiler) : GreenFunction × Compiler :=
  let c := c.emit_return
  let fun_copy := c.current.data.function
  match c.current.enclosing with
  | some enclosing => (fun_copy, { current := enclosing })
  | none => (fun_copy, c)

/-! ## AST (src/src/syntax/expr.rs, as consumed by compiler.rs) -/

/-- `LiteralExpr` (expr.rs). -/
inductive LiteralExpr where
  | number (n : ℚ)
  | string (s : String)
  | ltrue
  | lfalse
  | lnil
deriving DecidableEq

/-- `BinaryOperator` (expr.rs). -/
inductive BinaryOperator where
  | equal
  | bangEqual
  | greaterThan
  | greaterThanEqual
  | lessThan
  | lessThanEqual
  | subtract
  | add
  | divide
  | multiply
deriving DecidableEq

/-- `UnaryOperator` (expr.rs). -/
inductive UnaryOperator where
  | negate
  | not
deriving DecidableEq

/-- `Expr`/`ExprKind` (expr.rs), restricted to the node kinds whose emission
rules live in compiler.rs and are exercised by the claims.  `Variable` is
inlined as the name string.  Omitted: `Import` (delegates to the external
module resolver), `For` (an unfinished stub in the source), and the
class/property/array node kinds (their opcode handlers are embedded above,
but no claim concerns their emission rules). -/
inductive Expr where
  | literal (l : LiteralExpr)
  | binary (lhs rhs : Expr) (op : BinaryOperator)
  | unary (e : Expr) (op : UnaryOperator)
  | block (exprs : List Expr)
  | printE (e : Expr)
  | grouping (e : Expr)
  | varAssign (name : String) (init : Expr)
  | varSet (name : String) (init : Expr)
  | varGet (name : String)
  | ifE (cond : Expr) (thenClause : List Expr)
  | ifElse (cond : Expr) (thenClause : List Expr) (elseClause : List Expr)
  | functionE (name : String) (params : List String) (body : List Expr)
  | callE (callee : Expr) (args : List Expr)
  | returnE (e : Option Expr)
  | whileE (cond : Expr) (body : Expr)

/-- `compile_binary`'s operator table (compiler.rs): the opcode sequence
emitted after both operands.  `!=`, `>=`, `<=` have no opcode of their own
and lower to `Equal;Not`, `Less;Not`, `Greater;Not`. -/
def binaryOpcodes : BinaryOperator → List Opcode
  | .add => [.add]
  | .subtract => [.subtract]
  | .multiply => [.multiply]
  | .divide => [.divide]
  | .equal => [.equal]
  | .bangEqual => [.equal, .not]
  | .greaterThan => [.greater]
  | .greaterThanEqual => [.less, .not]
  | .lessThan => [.less]
  | .lessThanEqual => [.greater, .not]

/-- Emit a list of opcodes in order. -/
def Compiler.emitAll (c : Compiler) : List Opcode → Compiler
  | [] => c
  | op :: ops => (c.emit op).emitAll ops

/-- `compile_literal` (compiler.rs): numbers/strings/booleans become
constants; the `Nil` literal is `todo!()`. -/
def compile_literal (l : LiteralExpr) (c : Compiler) : Except CompileError Compiler :=
  match l with
  | .number n => .ok (c.emit_constant (.number n))
  | .string s => .ok (c.emit_constant (.string s))
  | .ltrue => .ok (c.emit_constant .vtrue)
  | .lfalse => .ok (c.emit_constant .vfalse)
  | .lnil => .error .nilLiteralUnimplemented

/-- `compile_unary`'s operator mapping (`From<UnaryOperator> for Opcode`). -/
def unaryOpcode : UnaryOperator → Opcode
  | .negate => .negate
  | .not => .not

/-- `*arity_mut() += 1` on the current function. -/
def Compiler.incArity (c : Compiler) : Compiler :=
  { current := c.current.withData
      { c.current.data with
        function := { c.current.data.function with
                      arity := c.current.data.function.arity + 1 } } }

/-- `compile_set_var`'s emission once the initializer is compiled
(compiler.rs): a resolved local becomes `SetLocal idx` (`idx as u8`), an
unresolved name becomes `SetGlobal` with a string constant. -/
def Compiler.emit_set_var (c : Compiler) (name : String) :
    Except CompileError Compiler := do
  let arg ← c.resolve_local name
  if arg ≠ -1 then
    .ok ((c.emit .setLocal).emit_byte (arg.toNat % 256))
  else
    let c := c.emit .setGlobal
    let (constant_id, c) := c.add_constant (.string name)
    .ok (c.emit_byte constant_id)

/-- `compile_get_var` (compiler.rs). -/
def Compiler.compile_get_var (c : Compiler) (name : String) :
    Except CompileError Compiler := do
  let arg ← c.resolve_local name
  if arg ≠ -1 then
    .ok ((c.emit .getLocal).emit_byte (arg.toNat % 256))
  else
    let c := c.emit .getGlobal
    let (constant_id, c) := c.add_constant (.string name)
    .ok (c.emit_byte constant_id)

/-- The parameter loop of `compile_function` (compiler.rs): for each
parameter increment the arity, then declare it as a local. -/
def compile_params : List String → Compiler → Except CompileError Compiler
  | [], c => .ok c
  | p :: ps, c => do
    let c := c.incArity
    let c ← c.compile_declare_var p
    compile_params ps c

/-- The fresh `CompilerInstance` set up at the start of `compile_function`:
a `Function`-kind instance whose function and chunk carry the declared name,
linked to the suspended enclosing instance. -/
def functionInstance (name : String) (enclosing : CompilerInstance) :
    CompilerInstance :=
  let ci := CompilerInstance.new .function
  let fn := { ci.data.function with
              name := name
              chunk := { ci.data.function.chunk with name := some name } }
  .mk { ci.data with function := fn } (some enclosing)

mutual

/-- `Compiler::compile_expr` (compiler.rs): the single dispatch over AST node
kinds. -/
def compile_expr : Expr → Compiler → Except CompileError Compiler
  | .literal l, c => compile_literal l c
  | .binary lhs rhs op, c => do
    let c ← compile_expr lhs c
    let c ← compile_expr rhs c
    .ok (c.emitAll (binaryOpcodes op))
  | .unary e op, c => do
    let c ← compile_expr e c
    .ok (c.emit (unaryOpcode op))
  | .block exprs, c => do
    let c ← compile_expr_list exprs c.begin_scope
    .ok c.end_scope
  | .printE e, c => do
    let c ← compile_expr e c
    .ok (c.emit .print)
  | .grouping e, c => compile_expr e c
  | .varAssign name init, c => do
    let c ← compile_expr init c
    if c.current.data.scope_depth > 0 then c.compile_declare_var name
    else .ok (c.compile_define_var name)
  | .varSet name init, c => do
    let c ← compile_expr init c
    c.emit_set_var name
  | .varGet name, c => c.compile_get_var name
  | .ifE cond thenClause, c => do
    let c ← compile_expr cond c
    let (c, then_jump) := c.emit_jump .jumpIfFalse
    let c := c.emit .pop
    let c ← compile_expr_list thenClause c
    let (c, else_jump) := c.emit_jump .jump
    let c := c.patch_jump then_jump
    let c := c.emit .pop
    .ok (c.patch_jump else_jump)
  | .ifElse cond thenClause elseClause, c => do
    let c ← compile_expr cond c
    let (c, then_jump) := c.emit_jump .jumpIfFalse
    let c := c.emit .pop
    let c ← compile_expr_list thenClause c
    let (c, else_jump) := c.emit_jump .jump
    let c := c.patch_jump then_jump
    let c := c.emit .pop
    let c ← compile_expr_list elseClause c
    .ok (c.patch_jump else_jump)
  | .functionE name params body, c => do
    let c1 : Compiler := { current := functionInstance name c.current }
    let c1 := c1.begin_scope
    let c1 ← compile_params params c1
    let c1 := c1.begin_scope
    let c1 ← compile_expr_list body c1
    let c1 := c1.end_scope
    let (fn, c2) := c1.end_compiler
    let c2 := c2.emit .closure
    let (constant_id, c2) := c2.add_constant (.function fn)
    let c2 := c2.emit_byte constant_id
    .ok (c2.compile_define_var name)
  | .callE callee args, c =>
    if args.length > 8 then .error .tooManyArguments
    else do
      let c ← compile_expr callee c
      let c ← compile_expr_list args c
      .ok ((c.emit .call).emit_byte (args.length % 256))
  | .returnE e, c =>
    if c.current.data.function_type = .script then .error .returnFromTopLevelCode
    else
      match e with
      | some ex => do
        let c ← compile_expr ex c
        .ok (c.emit .ret)
      | none => .ok c.emit_return
  | .whileE cond body, c => do
    let loop_start := c.currentCode.length
    let c ← compile_expr cond c
    let (c, exit_jump) := c.emit_jump .jumpIfFalse
    let c := c.emit .pop
    let c ← compile_expr body c
    let c := c.emit_loop loop_start
    let c := c.patch_jump exit_jump
    .ok (c.emit .pop)

/-- Sequential compilation of an expression list (the `for expr in ..` loops
of compiler.rs: block bodies, if/else arms, call arguments, module
top-level). -/
def compile_expr_list : List Expr → Compiler → Except CompileError Compiler
  | [], c => .ok c
  | e :: es, c => do
    let c ← compile_expr e c
    compile_expr_list es c

end

/-- `Compiler::compile_module` (compiler.rs): compile each top-level
expression with a fresh script compiler, then `end_compiler`. -/
def compile_module (exprs : List Expr) : Except CompileError GreenFunction := do
  let c ← compile_expr_list exprs Compiler.new
  .ok (c.end_compiler).1

/-- `VM::interpret` (src/src/vm/mod.rs), after parsing: compile the module,
wrap the function in a closure, push it, `call_value 0`, and run. -/
def interpret (exprs : List Expr) (fuel : Nat) :
    Except CompileError (RunResult VM) := do
  let fn ← compile_module exprs
  let vm0 : VM := { stack := [], frames := [], globals := [], output := [] }
  let vm1 := vm0.push (.closure { function := fn })
  .ok (do
    let vm2 ← vm1.call_value 0
    vm2.run fuel)

/-! ## Basic lemmas about the embedding -/

@[simp]
theorem CompilerInstance.data_mk (d : CompilerInstanceData)
    (e : Option CompilerInstance) : (CompilerInstance.mk d e).data = d := rfl

@[simp]
theorem CompilerInstance.enclosing_mk (d : CompilerInstanceData)
    (e : Option CompilerInstance) : (CompilerInstance.mk d e).enclosing = e := rfl

@[simp]
theorem CompilerInstance.data_withData (ci : CompilerInstance)
    (d : CompilerInstanceData) : (ci.withData d).data = d := by
  cases ci
  rfl

@[simp]
theorem CompilerInstance.enclosing_withData (ci : CompilerInstance)
    (d : CompilerInstanceData) : (ci.withData d).enclosing = ci.enclosing := by
  cases ci
  rfl

/-- `>>>` distributes over `|||` on `Nat`. -/
theorem shiftRight_lor_distrib (a b k : Nat) :
    (a ||| b) >>> k = (a >>> k) ||| (b >>> k) := by
  apply Nat.eq_of_testBit_eq
  intro i
  simp [Nat.testBit_lor, Nat.testBit_shiftRight]

/-- Decoding the two bytes written by `patch_jump`/`emit_loop` (the way
`VM::read_short` combines them) recovers the distance whenever it fits in 16
bits. -/
theorem byte_roundtrip (j : Nat) (h : j < 65536) :
    ((((j >>> 8) &&& 0xff) <<< 8) ||| (j &&& 0xff)) = j := by
  have hmaskd : ∀ x : Nat, x &&& 0xff = x % 256 := fun x => Nat.and_pow_two_sub_one_eq_mod x 8
  have hdivd : ∀ x : Nat, x >>> 8 = x / 256 := fun x => Nat.shiftRight_eq_div_pow x 8
  set q := (j >>> 8) &&& 0xff with hq
  set r := j &&& 0xff with hr
  have hqv : q = j / 256 := by
    rw [hq, hmaskd, hdivd, Nat.mod_eq_of_lt (by omega)]
  have hrv : r = j % 256 := by rw [hr, hmaskd]
  have hx : (q <<< 8) ||| r = 256 * (((q <<< 8) ||| r) / 256) + ((q <<< 8) ||| r) % 256 :=
    (Nat.div_add_mod _ 256).symm
  have hmod : ((q <<< 8) ||| r) % 256 = r := by
    rw [← hmaskd, Nat.and_distrib_right, hmaskd, hmaskd, Nat.shiftLeft_eq]
    have hz : q * 2 ^ 8 % 256 = 0 := by
      have hdvd : (256 : Nat) ∣ q * 2 ^ 8 := ⟨q, by ring⟩
      omega
    rw [hz, Nat.zero_or, Nat.mod_eq_of_lt (by omega)]
  have hdiv : ((q <<< 8) ||| r) / 256 = q := by
    rw [← hdivd, shiftRight_lor_distrib, Nat.shiftLeft_eq, hdivd, hdivd]
    have h1 : q * 2 ^ 8 / 256 = q := by
      have h28 : q * 2 ^ 8 = q * 256 := by norm_num
      rw [h28, Nat.mul_div_cancel _ (by norm_num)]
    have h2 : r / 256 = 0 := by omega
    rw [h1, h2, Nat.or_zero]
  rw [hx, hmod, hdiv]
  omega

/-- Writing into the suffix of an appended list. -/
theorem set_append_right (a b : List Nat) (i x : Nat) (h : a.length ≤ i) :
    (a ++ b).set i x = a ++ b.set (i - a.length) x := by
  induction a generalizing i with
  | nil => simp
  | cons hd tl ih =>
    cases i with
    | zero => simp at h
    | succ n =>
      simp only [List.cons_append, List.set_cons_succ]
      rw [ih n (by simpa using h)]
      have hidx : n + 1 - (hd :: tl).length = n - tl.length := by
        simp only [List.length_cons]
        omega
      rw [hidx]

/-! ### Effect lemmas for the compiler's emission helpers -/

@[simp]
theorem Compiler.current_chunk_updateChunk (c : Compiler) (f : Chunk → Chunk) :
    (c.updateChunk f).current_chunk = f c.current_chunk := by
  simp [Compiler.updateChunk, Compiler.current_chunk]

@[simp]
theorem Compiler.enclosing_updateChunk (c : Compiler) (f : Chunk → Chunk) :
    (c.updateChunk f).current.enclosing = c.current.enclosing := by
  simp [Compiler.updateChunk]

@[simp]
theorem Compiler.currentCode_emit (c : Compiler) (op : Opcode) :
    (c.emit op).currentCode = c.currentCode ++ [op.toByte] := by
  simp [Compiler.emit, ChunkG.write, ChunkG.write_byte, Compiler.currentCode]

@[simp]
theorem Compiler.currentConstants_emit (c : Compiler) (op : Opcode) :
    (c.emit op).currentConstants = c.currentConstants := by
  simp [Compiler.emit, ChunkG.write, ChunkG.write_byte, Compiler.currentConstants]

@[simp]
theorem Compiler.enclosing_emit (c : Compiler) (op : Opcode) :
    (c.emit op).current.enclosing = c.current.enclosing := by
  simp [Compiler.emit]

@[simp]
theorem Compiler.currentCode_emit_byte (c : Compiler) (b : Nat) :
    (c.emit_byte b).currentCode = c.currentCode ++ [b] := by
  simp [Compiler.emit_byte, ChunkG.write_byte, Compiler.currentCode]

@[simp]
theorem Compiler.currentConstants_emit_byte (c : Compiler) (b : Nat) :
    (c.emit_byte b).currentConstants = c.currentConstants := by
  simp [Compiler.emit_byte, ChunkG.write_byte, Compiler.currentConstants]

@[simp]
theorem Compiler.enclosing_emit_byte (c : Compiler) (b : Nat) :
    (c.emit_byte b).current.enclosing = c.current.enclosing := by
  simp [Compiler.emit_byte]

@[simp]
theorem Compiler.currentCode_add_constant (c : Compiler) (v : Value) :
    (c.add_constant v).2.currentCode = c.currentCode := by
  simp [Compiler.add_constant, ChunkG.add_constant, Compiler.currentCode]

@[simp]
theorem Compiler.currentConstants_add_constant (c : Compiler) (v : Value) :
    (c.add_constant v).2.currentConstants = c.currentConstants ++ [v] := by
  simp [Compiler.add_constant, ChunkG.add_constant, Compiler.currentConstants]

@[simp]
theorem Compiler.enclosing_add_constant (c : Compiler) (v : Value) :
    (c.add_constant v).2.current.enclosing = c.current.enclosing := by
  simp [Compiler.add_constant]

@[simp]
theorem Compiler.currentCode_emit_constant (c : Compiler) (v : Value) :
    (c.emit_constant v).currentCode =
      c.currentCode ++ [1, (c.add_constant v).1] := by
  simp [Compiler.emit_constant]
  rfl

@[simp]
theorem Compiler.currentConstants_emit_constant (c : Compiler) (v : Value) :
    (c.emit_constant v).currentConstants = c.currentConstants ++ [v] := by
  simp [Compiler.emit_constant]

@[simp]
theorem Compiler.enclosing_emit_constant (c : Compiler) (v : Value) :
    (c.emit_constant v).current.enclosing = c.current.enclosing := by
  simp [Compiler.emit_constant]

@[simp]
theorem Compiler.currentCode_begin_scope (c : Compiler) :
    c.begin_scope.currentCode = c.currentCode := by
  simp [Compiler.begin_scope, Compiler.currentCode, Compiler.current_chunk]

@[simp]
theorem Compiler.currentConstants_begin_scope (c : Compiler) :
    c.begin_scope.currentConstants = c.currentConstants := by
  simp [Compiler.begin_scope, Compiler.currentConstants, Compiler.current_chunk]

@[simp]
theorem Compiler.enclosing_begin_scope (c : Compiler) :
    c.begin_scope.current.enclosing = c.current.enclosing := by
  simp [Compiler.begin_scope]

@[simp]
theorem Compiler.currentCode_add_local (c : Compiler) (name : String) :
    (c.add_local name).currentCode = c.currentCode := by
  simp [Compiler.add_local, Compiler.currentCode, Compiler.current_chunk]

@[simp]
theorem Compiler.currentConstants_add_local (c : Compiler) (name : String) :
    (c.add_local name).currentConstants = c.currentConstants := by
  simp [Compiler.add_local, Compiler.currentConstants, Compiler.current_chunk]

@[simp]
theorem Compiler.enclosing_add_local (c : Compiler) (name : String) :
    (c.add_local name).current.enclosing = c.current.enclosing := by
  simp [Compiler.add_local]

@[simp]
theorem Compiler.currentCode_mark_initialized (c : Compiler) :
    c.mark_initialized.currentCode = c.currentCode := by
  unfold Compiler.mark_initialized
  split
  · rfl
  · split <;> simp [Compiler.currentCode, Compiler.current_chunk]

@[simp]
theorem Compiler.currentConstants_mark_initialized (c : Compiler) :
    c.mark_initialized.currentConstants = c.currentConstants := by
  unfold Compiler.mark_initialized
  split
  · rfl
  · split <;> simp [Compiler.currentConstants, Compiler.current_chunk]

@[simp]
theorem Compiler.enclosing_mark_initialized (c : Compiler) :
    c.mark_initialized.current.enclosing = c.current.enclosing := by
  unfold Compiler.mark_initialized
  split
  · rfl
  · split <;> simp

@[simp]
theorem Compiler.currentCode_incArity (c : Compiler) :
    c.incArity.currentCode = c.currentCode := by
  simp [Compiler.incArity, Compiler.currentCode, Compiler.current_chunk]

@[simp]
theorem Compiler.currentConstants_incArity (c : Compiler) :
    c.incArity.currentConstants = c.currentConstants := by
  simp [Compiler.incArity, Compiler.currentConstants, Compiler.current_chunk]

@[simp]
theorem Compiler.enclosing_incArity (c : Compiler) :
    c.incArity.current.enclosing = c.current.enclosing := by
  simp [Compiler.incArity]

theorem Compiler.emitPops_spec (c : Compiler) (n : Nat) :
    (c.emitPops n).currentCode = c.currentCode ++ List.replicate n 17 ∧
      (c.emitPops n).currentConstants = c.currentConstants ∧
      (c.emitPops n).current.enclosing = c.current.enclosing := by
  induction n generalizing c with
  | zero => simp [Compiler.emitPops]
  | succ m ih =>
    have h := ih (c.emit .pop)
    simp only [Compiler.emitPops] at h ⊢
    refine ⟨?_, ?_, ?_⟩
    · rw [h.1]
      simp [List.replicate_succ, Opcode.toByte]
    · rw [h.2.1]
      simp
    · rw [h.2.2]
      simp

theorem Compiler.patch_jump_spec (c : Compiler) (offset : Nat) :
    (c.patch_jump offset).currentCode =
      (c.currentCode.set offset
        (((c.currentCode.length - offset - 2) >>> 8) &&& 0xff)).set (offset + 1)
        ((c.currentCode.length - offset - 2) &&& 0xff) ∧
      (c.patch_jump offset).currentConstants = c.currentConstants ∧
      (c.patch_jump offset).current.enclosing = c.current.enclosing := by
  refine ⟨?_, ?_, ?_⟩ <;>
    simp [Compiler.patch_jump, Compiler.currentCode, Compiler.currentConstants]

theorem Compiler.emit_jump_spec (c : Compiler) (op : Opcode) :
    (c.emit_jump op).1.currentCode = c.currentCode ++ [op.toByte, 255, 255] ∧
      (c.emit_jump op).2 = c.currentCode.length + 1 ∧
      (c.emit_jump op).1.currentConstants = c.currentConstants ∧
      (c.emit_jump op).1.current.enclosing = c.current.enclosing := by
  refine ⟨?_, ?_, ?_, ?_⟩ <;> simp [Compiler.emit_jump]

theorem Compiler.emit_loop_spec (c : Compiler) (loop_start : Nat) :
    (c.emit_loop loop_start).currentCode =
      c.currentCode ++ [23,
        (((c.currentCode.length + 1) - loop_start + 2) >>> 8) &&& 0xff,
        ((c.currentCode.length + 1) - loop_start + 2) &&& 0xff] ∧
      (c.emit_loop loop_start).currentConstants = c.currentConstants ∧
      (c.emit_loop loop_start).current.enclosing = c.current.enclosing := by
  refine ⟨?_, ?_, ?_⟩ <;> simp [Compiler.emit_loop, Opcode.toByte]

theorem Compiler.emit_return_spec (c : Compiler) :
    c.emit_return.currentCode = c.currentCode ++ [20, 0] ∧
      c.emit_return.currentConstants = c.currentConstants ∧
      c.emit_return.current.enclosing = c.current.enclosing := by
  refine ⟨?_, ?_, ?_⟩ <;> simp [Compiler.emit_return, Opcode.toByte]

theorem Compiler.emitAll_spec (c : Compiler) (ops : List Opcode) :
    (c.emitAll ops).currentCode = c.currentCode ++ ops.map Opcode.toByte ∧
      (c.emitAll ops).currentConstants = c.currentConstants ∧
      (c.emitAll ops).current.enclosing = c.current.enclosing := by
  induction ops generalizing c with
  | nil => simp [Compiler.emitAll]
  | cons op rest ih =>
    have h := ih (c.emit op)
    simp only [Compiler.emitAll] at h ⊢
    refine ⟨?_, ?_, ?_⟩
    · rw [h.1]; simp
    · rw [h.2.1]; simp
    · rw [h.2.2]; simp

theorem Compiler.end_scope_spec (c : Compiler) :
    c.end_scope.currentCode =
      c.currentCode ++
        List.replicate (popLocalsRev c.current.data.locals.reverse
          (c.current.data.scope_depth - 1)).2 17 ∧
      c.end_scope.currentConstants = c.currentConstants ∧
      c.end_scope.current.enclosing = c.current.enclosing := by
  unfold Compiler.end_scope
  have h := Compiler.emitPops_spec
    { current := c.current.withData
        { c.current.data with
          scope_depth := c.current.data.scope_depth - 1
          locals := (popLocalsRev c.current.data.locals.reverse
            (c.current.data.scope_depth - 1)).1.reverse } }
    (popLocalsRev c.current.data.locals.reverse (c.current.data.scope_depth - 1)).2
  refine ⟨?_, ?_, ?_⟩
  · rw [h.1]
    simp [Compiler.currentCode, Compiler.current_chunk]
  · rw [h.2.1]
    simp [Compiler.currentConstants, Compiler.current_chunk]
  · rw [h.2.2]
    simp

@[simp]
theorem ok_bind {α β ε : Type} (a : α) (f : α → Except ε β) :
    (Except.ok a >>= f) = f a := rfl

@[simp]
theorem error_bind {α β ε : Type} (e : ε) (f : α → Except ε β) :
    ((Except.error e : Except ε α) >>= f) = Except.error e := rfl

/-- `compile_declare_var` never emits code or constants and keeps the
enclosing link. -/
theorem Compiler.compile_declare_var_effect (c : Compiler) (name : String)
    (c' : Compiler) (h : c.compile_declare_var name = .ok c') :
    c'.currentCode = c.currentCode ∧
      c'.currentConstants = c.currentConstants ∧
      c'.current.enclosing = c.current.enclosing := by
  unfold Compiler.compile_declare_var at h
  split at h
  · cases h
    exact ⟨rfl, rfl, rfl⟩
  · cases hscan : duplicate_scan c.current.data.locals c.current.data.scope_depth name with
    | error e => rw [hscan] at h; cases h
    | ok u =>
      rw [hscan] at h
      cases u
      cases h
      refine ⟨?_, ?_, ?_⟩ <;> simp

theorem Compiler.compile_define_var_effect (c : Compiler) (name : String) :
    (∃ t, (c.compile_define_var name).currentCode = c.currentCode ++ t) ∧
      (∃ u, (c.compile_define_var name).currentConstants = c.currentConstants ++ u) ∧
      (c.compile_define_var name).current.enclosing = c.current.enclosing := by
  unfold Compiler.compile_define_var
  split
  · exact ⟨⟨[], by simp⟩, ⟨[], by simp⟩, by simp⟩
  · refine ⟨?_, ?_, ?_⟩ <;> simp

theorem Compiler.emit_set_var_effect (c : Compiler) (name : String)
    (c' : Compiler) (h : c.emit_set_var name = .ok c') :
    (∃ t, c'.currentCode = c.currentCode ++ t) ∧
      (∃ u, c'.currentConstants = c.currentConstants ++ u) ∧
      c'.current.enclosing = c.current.enclosing := by
  unfold Compiler.emit_set_var at h
  cases hres : c.resolve_local name with
  | error e => rw [hres] at h; cases h
  | ok arg =>
    rw [hres] at h
    simp only [ok_bind] at h
    split at h <;> cases h <;> refine ⟨?_, ?_, ?_⟩ <;> simp

theorem Compiler.compile_get_var_effect (c : Compiler) (name : String)
    (c' : Compiler) (h : c.compile_get_var name = .ok c') :
    (∃ t, c'.currentCode = c.currentCode ++ t) ∧
      (∃ u, c'.currentConstants = c.currentConstants ++ u) ∧
      c'.current.enclosing = c.current.enclosing := by
  unfold Compiler.compile_get_var at h
  cases hres : c.resolve_local name with
  | error e => rw [hres] at h; cases h
  | ok arg =>
    rw [hres] at h
    simp only [ok_bind] at h
    split at h <;> cases h <;> refine ⟨?_, ?_, ?_⟩ <;> simp

theorem bind_ok_elim {α β : Type} {ε : Type} {x : Except ε α} {f : α → Except ε β}
    {b : β} (h : (x >>= f) = .ok b) : ∃ a, x = .ok a ∧ f a = .ok b := by
  cases x with
  | error e => simp only [error_bind] at h; cases h
  | ok a => exact ⟨a, rfl, by simpa only [ok_bind] using h⟩

/-- "Compilation only extends the current chunk": the enclosing link is
unchanged, and the code and constant pool of the active chunk grow by a
suffix. -/
def CExt (c c' : Compiler) : Prop :=
  c'.current.enclosing = c.current.enclosing ∧
  (∃ t, c'.currentCode = c.currentCode ++ t) ∧
  (∃ u, c'.currentConstants = c.currentConstants ++ u)

theorem CExt.refl (c : Compiler) : CExt c c :=
  ⟨rfl, ⟨[], by simp⟩, ⟨[], by simp⟩⟩

theorem CExt.trans {a b c : Compiler} (h1 : CExt a b) (h2 : CExt b c) :
    CExt a c := by
  obtain ⟨e1, ⟨t1, ht1⟩, ⟨u1, hu1⟩⟩ := h1
  obtain ⟨e2, ⟨t2, ht2⟩, ⟨u2, hu2⟩⟩ := h2
  refine ⟨e2.trans e1, ⟨t1 ++ t2, ?_⟩, ⟨u1 ++ u2, ?_⟩⟩
  · rw [ht2, ht1, List.append_assoc]
  · rw [hu2, hu1, List.append_assoc]

theorem CExt.len_le {a b : Compiler} (h : CExt a b) :
    a.currentCode.length ≤ b.currentCode.length := by
  obtain ⟨-, ⟨t, ht⟩, -⟩ := h
  simp [ht]

theorem CExt_emit (c : Compiler) (op : Opcode) : CExt c (c.emit op) :=
  ⟨by simp, ⟨[op.toByte], by simp⟩, ⟨[], by simp⟩⟩

theorem CExt_emit_byte (c : Compiler) (b : Nat) : CExt c (c.emit_byte b) :=
  ⟨by simp, ⟨[b], by simp⟩, ⟨[], by simp⟩⟩

theorem CExt_add_constant (c : Compiler) (v : Value) :
    CExt c (c.add_constant v).2 :=
  ⟨by simp, ⟨[], by simp⟩, ⟨[v], by simp⟩⟩

theorem CExt_emit_constant (c : Compiler) (v : Value) :
    CExt c (c.emit_constant v) :=
  ⟨by simp, ⟨[1, (c.add_constant v).1], by simp⟩, ⟨[v], by simp⟩⟩

theorem CExt_begin_scope (c : Compiler) : CExt c c.begin_scope :=
  ⟨by simp, ⟨[], by simp⟩, ⟨[], by simp⟩⟩

theorem CExt_mark_initialized (c : Compiler) : CExt c c.mark_initialized :=
  ⟨by simp, ⟨[], by simp⟩, ⟨[], by simp⟩⟩

theorem CExt_emit_return (c : Compiler) : CExt c c.emit_return := by
  have h := Compiler.emit_return_spec c
  exact ⟨h.2.2, ⟨[20, 0], h.1⟩, ⟨[], by simp [h.2.1]⟩⟩

theorem CExt_emitAll (c : Compiler) (ops : List Opcode) :
    CExt c (c.emitAll ops) := by
  have h := Compiler.emitAll_spec c ops
  exact ⟨h.2.2, ⟨ops.map Opcode.toByte, h.1⟩, ⟨[], by simp [h.2.1]⟩⟩

theorem CExt_end_scope (c : Compiler) : CExt c c.end_scope := by
  have h := Compiler.end_scope_spec c
  exact ⟨h.2.2, ⟨_, h.1⟩, ⟨[], by simp [h.2.1]⟩⟩

theorem CExt_emit_loop (c : Compiler) (loop_start : Nat) :
    CExt c (c.emit_loop loop_start) := by
  have h := Compiler.emit_loop_spec c loop_start
  exact ⟨h.2.2, ⟨_, h.1⟩, ⟨[], by simp [h.2.1]⟩⟩

theorem CExt_emit_jump (c : Compiler) (op : Opcode) :
    CExt c (c.emit_jump op).1 := by
  have h := Compiler.emit_jump_spec c op
  exact ⟨h.2.2.2, ⟨[op.toByte, 255, 255], h.1⟩, ⟨[], by simp [h.2.2.1]⟩⟩

theorem CExt_define_var (c : Compiler) (name : String) :
    CExt c (c.compile_define_var name) := by
  obtain ⟨⟨t, ht⟩, ⟨u, hu⟩, he⟩ := Compiler.compile_define_var_effect c name
  exact ⟨he, ⟨t, ht⟩, ⟨u, hu⟩⟩

theorem CExt_declare_var {c c' : Compiler} {name : String}
    (h : c.compile_declare_var name = .ok c') : CExt c c' := by
  obtain ⟨h1, h2, h3⟩ := Compiler.compile_declare_var_effect c name c' h
  exact ⟨h3, ⟨[], by simp [h1]⟩, ⟨[], by simp [h2]⟩⟩

theorem CExt_set_var {c c' : Compiler} {name : String}
    (h : c.emit_set_var name = .ok c') : CExt c c' := by
  obtain ⟨⟨t, ht⟩, ⟨u, hu⟩, he⟩ := Compiler.emit_set_var_effect c name c' h
  exact ⟨he, ⟨t, ht⟩, ⟨u, hu⟩⟩

theorem CExt_get_var {c c' : Compiler} {name : String}
    (h : c.compile_get_var name = .ok c') : CExt c c' := by
  obtain ⟨⟨t, ht⟩, ⟨u, hu⟩, he⟩ := Compiler.compile_get_var_effect c name c' h
  exact ⟨he, ⟨t, ht⟩, ⟨u, hu⟩⟩

/-- Patching at an offset at or beyond a prefix keeps that prefix intact. -/
theorem CExt_patch {c0 c : Compiler} (offset : Nat) (h : CExt c0 c)
    (hoff : c0.currentCode.length ≤ offset) : CExt c0 (c.patch_jump offset) := by
  obtain ⟨he, ⟨t, ht⟩, ⟨u, hu⟩⟩ := h
  have hp := Compiler.patch_jump_spec c offset
  refine ⟨hp.2.2.trans he, ⟨?_, ?_⟩, ⟨u, hp.2.1.trans hu⟩⟩
  · exact (t.set (offset - c0.currentCode.length)
      (((c.currentCode.length - offset - 2) >>> 8) &&& 0xff)).set
      (offset + 1 - c0.currentCode.length)
      ((c.currentCode.length - offset - 2) &&& 0xff)
  · rw [hp.1, ht, set_append_right _ _ _ _ hoff,
      set_append_right _ _ _ _ (by omega)]

theorem compile_params_effect (ps : List String) (c c' : Compiler)
    (h : compile_params ps c = .ok c') :
    c'.currentCode = c.currentCode ∧
      c'.currentConstants = c.currentConstants ∧
      c'.current.enclosing = c.current.enclosing := by
  induction ps generalizing c with
  | nil =>
    simp only [compile_params] at h
    cases h
    exact ⟨rfl, rfl, rfl⟩
  | cons p rest ih =>
    simp only [compile_params] at h
    cases hdec : (Compiler.incArity c).compile_declare_var p with
    | error e => rw [hdec] at h; cases h
    | ok c1 =>
      rw [hdec] at h
      simp only [ok_bind] at h
      have h1 := Compiler.compile_declare_var_effect _ _ _ hdec
      have h2 := ih c1 h
      refine ⟨?_, ?_, ?_⟩
      · rw [h2.1, h1.1]; simp
      · rw [h2.2.1, h1.2.1]; simp
      · rw [h2.2.2, h1.2.2]; simp

/-- The central structural fact: a successful `compile_expr` only extends the
active chunk (code and constants grow by a suffix — back-patching only ever
writes inside the newly emitted region) and preserves the enclosing-compiler
link. -/
theorem compile_expr_extends :
    ∀ (e : Expr) (c : Compiler), ∀ c', compile_expr e c = .ok c' → CExt c c' := by
  refine compile_expr.induct
    (fun e c => ∀ c', compile_expr e c = .ok c' → CExt c c')
    (fun es c => ∀ c', compile_expr_list es c = .ok c' → CExt c c')
    ?_ ?_ ?_ ?_ ?_ ?_ ?_ ?_ ?_ ?_ ?_ ?_ ?_ ?_ ?_ ?_ ?_ ?_ ?_ ?_
  · -- literal
    intro l c c' h
    simp only [compile_expr] at h
    cases l <;> simp only [compile_literal] at h <;> cases h <;>
      exact CExt_emit_constant _ _
  · -- binary
    intro lhs rhs op c ih1 ih2 c' h
    simp only [compile_expr] at h
    obtain ⟨c1, h1, h2⟩ := bind_ok_elim h
    obtain ⟨c2, h3, h4⟩ := bind_ok_elim h2
    cases h4
    exact ((ih1 c1 h1).trans (ih2 c1 c2 h3)).trans (CExt_emitAll _ _)
  · -- unary
    intro e op c ih c' h
    simp only [compile_expr] at h
    obtain ⟨c1, h1, h2⟩ := bind_ok_elim h
    cases h2
    exact (ih c1 h1).trans (CExt_emit _ _)
  · -- block
    intro exprs c ih c' h
    simp only [compile_expr] at h
    obtain ⟨c1, h1, h2⟩ := bind_ok_elim h
    cases h2
    exact ((CExt_begin_scope c).trans (ih c1 h1)).trans (CExt_end_scope _)
  · -- printE
    intro e c ih c' h
    simp only [compile_expr] at h
    obtain ⟨c1, h1, h2⟩ := bind_ok_elim h
    cases h2
    exact (ih c1 h1).trans (CExt_emit _ _)
  · -- grouping
    intro e c ih c' h
    simp only [compile_expr] at h
    exact ih c' h
  · -- varAssign
    intro name init c ih c' h
    simp only [compile_expr] at h
    obtain ⟨c1, h1, h2⟩ := bind_ok_elim h
    split at h2
    · exact (ih c1 h1).trans (CExt_declare_var h2)
    · cases h2
      exact (ih c1 h1).trans (CExt_define_var _ _)
  · -- varSet
    intro name init c ih c' h
    simp only [compile_expr] at h
    obtain ⟨c1, h1, h2⟩ := bind_ok_elim h
    exact (ih c1 h1).trans (CExt_set_var h2)
  · -- varGet
    intro name c c' h
    simp only [compile_expr] at h
    exact CExt_get_var h
  · -- ifE
    intro cond thenClause c ihc ihthen c' h
    simp only [compile_expr, Compiler.emit_jump] at h
    obtain ⟨c1, h1, h2⟩ := bind_ok_elim h
    obtain ⟨c2, h3, h4⟩ := bind_ok_elim h2
    cases h4
    have e1 : CExt c c1 := ihc c1 h1
    have e2 : CExt c c2 :=
      ((e1.trans (CExt_emit_jump c1 .jumpIfFalse)).trans (CExt_emit _ .pop)).trans
        (ihthen ((c1.emit_jump .jumpIfFalse).1) c2 h3)
    have e3 : CExt c ((c2.emit_jump .jump).1) := e2.trans (CExt_emit_jump c2 .jump)
    have hoff : c.currentCode.length ≤ (c1.emit_jump .jumpIfFalse).2 := by
      have := e1.len_le
      have hj := Compiler.emit_jump_spec c1 Opcode.jumpIfFalse
      omega
    refine CExt_patch _ ((CExt_patch _ e3 ?_).trans (CExt_emit _ .pop)) ?_
    · simpa [Compiler.emit_jump] using hoff
    · have := e2.len_le
      have hj2 := Compiler.emit_jump_spec c2 Opcode.jump
      simp only [Compiler.emit_jump] at hj2 ⊢
      omega
  · -- ifElse
    intro cond thenClause elseClause c ihc ihthen ihelse c' h
    simp only [compile_expr, Compiler.emit_jump] at h
    obtain ⟨c1, h1, h2⟩ := bind_ok_elim h
    obtain ⟨c2, h3, h4⟩ := bind_ok_elim h2
    obtain ⟨c3, h5, h6⟩ := bind_ok_elim h4
    cases h6
    have e1 : CExt c c1 := ihc c1 h1
    have e2 : CExt c c2 :=
      ((e1.trans (CExt_emit_jump c1 .jumpIfFalse)).trans (CExt_emit _ .pop)).trans
        (ihthen ((c1.emit_jump .jumpIfFalse).1) c2 h3)
    have hoff : c.currentCode.length ≤ (c1.emit_jump .jumpIfFalse).2 := by
      have := e1.len_le
      have hj := Compiler.emit_jump_spec c1 Opcode.jumpIfFalse
      omega
    have e3 : CExt c c3 := by
      refine ((CExt_patch _ (e2.trans (CExt_emit_jump c2 .jump)) ?_).trans
        (CExt_emit _ .pop)).trans (ihelse (c1.emit_jump .jumpIfFalse).2
          ((c2.emit_jump .jump).1) c3 h5)
      simpa [Compiler.emit_jump] using hoff
    refine CExt_patch _ e3 ?_
    have := e2.len_le
    have hj2 := Compiler.emit_jump_spec c2 Opcode.jump
    simp only [Compiler.emit_jump] at hj2 ⊢
    omega
  · -- functionE
    intro name params body c ihbody c' h
    simp only [compile_expr] at h
    obtain ⟨cp, hp, h2⟩ := bind_ok_elim h
    obtain ⟨cb, hb, h3⟩ := bind_ok_elim h2
    have hpe := compile_params_effect params _ cp hp
    have hbe : CExt cp.begin_scope cb := ihbody cp cb hb
    have henc : cb.end_scope.emit_return.current.enclosing = some c.current := by
      have h0 : ({ current := functionInstance name c.current } :
          Compiler).begin_scope.current.enclosing = some c.current := by
        simp [functionInstance]
      have h4 := hpe.2.2
      have h5 := hbe.1
      have h6 := (Compiler.end_scope_spec cb).2.2
      have h7 := (Compiler.emit_return_spec cb.end_scope).2.2
      rw [h7, h6, h5]
      simpa [h0] using h4
    rw [show cb.end_scope.end_compiler =
        (cb.end_scope.emit_return.current.data.function,
          ({ current := c.current } : Compiler)) from ?_] at h3
    · cases h3
      exact (((CExt_emit c .closure).trans (CExt_add_constant _ _)).trans
        (CExt_emit_byte _ _)).trans (CExt_define_var _ _)
    · simp only [Compiler.end_compiler, henc]
  · -- callE, overflowing arguments
    intro callee args c hgt c' h
    simp only [compile_expr] at h
    rw [if_pos hgt] at h
    cases h
  · -- callE
    intro callee args c hle ihc iha c' h
    simp only [compile_expr] at h
    rw [if_neg hle] at h
    obtain ⟨c1, h1, h2⟩ := bind_ok_elim h
    obtain ⟨c2, h3, h4⟩ := bind_ok_elim h2
    cases h4
    exact (((ihc c1 h1).trans (iha c1 c2 h3)).trans (CExt_emit _ .call)).trans
      (CExt_emit_byte _ _)
  · -- returnE at script level
    intro e c hscript c' h
    cases e <;> simp only [compile_expr] at h <;> split at h
    · cases h
    · rename_i hne
      exact absurd hscript hne
    · cases h
    · rename_i hne
      exact absurd hscript hne
  · -- returnE with a value
    intro c hns ex ih c' h
    simp only [compile_expr] at h
    split at h
    · rename_i hs
      exact absurd hs hns
    · obtain ⟨c1, h1, h2⟩ := bind_ok_elim h
      cases h2
      exact (ih c1 h1).trans (CExt_emit _ .ret)
  · -- returnE without a value
    intro c hns c' h
    simp only [compile_expr] at h
    split at h
    · rename_i hs
      exact absurd hs hns
    · cases h
      exact CExt_emit_return _
  · -- whileE
    intro cond body c ihc ihb c' h
    simp only [compile_expr, Compiler.emit_jump] at h
    obtain ⟨c1, h1, h2⟩ := bind_ok_elim h
    obtain ⟨c2, h3, h4⟩ := bind_ok_elim h2
    cases h4
    have e1 : CExt c c1 := ihc c1 h1
    have e2 : CExt c c2 :=
      ((e1.trans (CExt_emit_jump c1 .jumpIfFalse)).trans (CExt_emit _ .pop)).trans
        (ihb ((c1.emit_jump .jumpIfFalse).1) c2 h3)
    have e3 : CExt c (c2.emit_loop c.currentCode.length) :=
      e2.trans (CExt_emit_loop _ _)
    have hoff : c.currentCode.length ≤ (c1.emit_jump .jumpIfFalse).2 := by
      have := e1.len_le
      have hj := Compiler.emit_jump_spec c1 Opcode.jumpIfFalse
      omega
    refine (CExt_patch _ e3 ?_).trans (CExt_emit _ .pop)
    simpa [Compiler.emit_jump] using hoff
  · -- empty list
    intro c c' h
    simp only [compile_expr_list] at h
    cases h
    exact CExt.refl _
  · -- cons list
    intro e es c ih1 ih2 c' h
    simp only [compile_expr_list] at h
    obtain ⟨c1, h1, h2⟩ := bind_ok_elim h
    exact (ih1 c1 h1).trans (ih2 c1 c' h2)

/-- The list version of `compile_expr_extends`. -/
theorem compile_expr_list_extends :
    ∀ (es : List Expr) (c c' : Compiler),
      compile_expr_list es c = .ok c' → CExt c c' := by
  intro es
  induction es with
  | nil =>
    intro c c' h
    simp only [compile_expr_list] at h
    cases h
    exact CExt.refl _
  | cons e rest ih =>
    intro c c' h
    simp only [compile_expr_list] at h
    obtain ⟨c1, h1, h2⟩ := bind_ok_elim h
    exact (compile_expr_extends e c c1 h1).trans (ih c1 c' h2)

/-! ## Executing a bytecode segment in isolation -/

/-- A VM with a single frame over chunk `ch` at instruction pointer `ip`,
window base `start` — the configuration for executing a chunk's code "in
isolation". -/
def isoVM (ch : Chunk) (start ip : Nat) (stack : List Value)
    (globals : List (String × Value)) : VM :=
  { stack := stack
    frames := [{ closure := { function := { name := "", chunk := ch, arity := 0 } }
                 ip := ip, stack_start := start }]
    globals := globals
    output := [] }

theorem VM.stepsN_add (m n : Nat) (vm : VM) :
    VM.stepsN (m + n) vm = VM.stepsN m vm >>= VM.stepsN n := by
  induction m generalizing vm with
  | zero => simp [VM.stepsN]
  | succ k ih =>
    have : k + 1 + n = (k + n) + 1 := by omega
    rw [this]
    simp only [VM.stepsN]
    cases hs : vm.step with
    | error e => simp [error_bind]
    | ok vm1 => simp only [ok_bind]; exact ih vm1

theorem VM.stepsN_error {m n : Nat} {vm : VM} {e : RuntimeError}
    (h : VM.stepsN m vm = .error e) : VM.stepsN (m + n) vm = .error e := by
  rw [VM.stepsN_add, h]
  rfl

@[simp]
theorem isoVM_frame (ch : Chunk) (start ip : Nat) (s : List Value)
    (g : List (String × Value)) :
    (isoVM ch start ip s g).frame? =
      some { closure := { function := { name := "", chunk := ch, arity := 0 } }
             ip := ip, stack_start := start } := by
  simp [isoVM, VM.frame?]

@[simp]
theorem isoVM_setFrame (ch : Chunk) (start ip : Nat) (s : List Value)
    (g : List (String × Value)) (f : CallFrame) :
    (isoVM ch start ip s g).setFrame f =
      { stack := s, frames := [f], globals := g, output := [] } := by
  simp [isoVM, VM.setFrame]

/-- `step` at a `Constant` instruction. -/
theorem step_constant (ch : Chunk) (start ip : Nat) (s : List Value)
    (g : List (String × Value)) (k : Nat) (v : Value)
    (h1 : ch.code[ip]? = some 1) (h2 : ch.code[ip + 1]? = some k)
    (h3 : ch.constants[k]? = some v) :
    (isoVM ch start ip s g).step = .ok (isoVM ch start (ip + 2) (s ++ [v]) g) := by
  simp [VM.step, VM.read_byte, VM.frame?, VM.setFrame, h1, Opcode.ofByte?,
    VM.constant, VM.read_constant, ChunkG.read_constant, h2, h3, VM.push, isoVM]

/-- `step` at an `Add` instruction with two operands on top. -/
theorem step_add (ch : Chunk) (start ip : Nat) (s : List Value)
    (g : List (String × Value)) (a b : Value)
    (h1 : ch.code[ip]? = some 2) :
    (isoVM ch start ip ((s ++ [a]) ++ [b]) g).step =
      (valueAdd a b).map (fun v => isoVM ch start (ip + 1) (s ++ [v]) g) := by
  have e1 : ((s ++ [a]) ++ [b]).getLast? = some b := List.getLast?_concat _
  have e2 : ((s ++ [a]) ++ [b]).dropLast = s ++ [a] := List.dropLast_concat
  have e3 : (s ++ [a]).getLast? = some a := List.getLast?_concat _
  have e4 : (s ++ [a]).dropLast = s := List.dropLast_concat
  cases hv : valueAdd a b <;>
    simp [VM.step, VM.read_byte, h1, Opcode.ofByte?, VM.add, VM.pop, VM.push,
      e1, e2, e3, e4, hv, isoVM, VM.frame?, VM.setFrame, Except.map,
      -List.append_assoc]

/-- `step` at a `Subtract` instruction. -/
theorem step_subtract (ch : Chunk) (start ip : Nat) (s : List Value)
    (g : List (String × Value)) (a b : Value)
    (h1 : ch.code[ip]? = some 3) :
    (isoVM ch start ip ((s ++ [a]) ++ [b]) g).step =
      (valueSub a b).map (fun v => isoVM ch start (ip + 1) (s ++ [v]) g) := by
  have e1 : ((s ++ [a]) ++ [b]).getLast? = some b := List.getLast?_concat _
  have e2 : ((s ++ [a]) ++ [b]).dropLast = s ++ [a] := List.dropLast_concat
  have e3 : (s ++ [a]).getLast? = some a := List.getLast?_concat _
  have e4 : (s ++ [a]).dropLast = s := List.dropLast_concat
  cases hv : valueSub a b <;>
    simp [VM.step, VM.read_byte, h1, Opcode.ofByte?, VM.subtract, VM.pop, VM.push,
      e1, e2, e3, e4, hv, isoVM, VM.frame?, VM.setFrame, Except.map,
      -List.append_assoc]

/-- `step` at a `Multiply` instruction. -/
theorem step_multiply (ch : Chunk) (start ip : Nat) (s : List Value)
    (g : List (String × Value)) (a b : Value)
    (h1 : ch.code[ip]? = some 4) :
    (isoVM ch start ip ((s ++ [a]) ++ [b]) g).step =
      (valueMul a b).map (fun v => isoVM ch start (ip + 1) (s ++ [v]) g) := by
  have e1 : ((s ++ [a]) ++ [b]).getLast? = some b := List.getLast?_concat _
  have e2 : ((s ++ [a]) ++ [b]).dropLast = s ++ [a] := List.dropLast_concat
  have e3 : (s ++ [a]).getLast? = some a := List.getLast?_concat _
  have e4 : (s ++ [a]).dropLast = s := List.dropLast_concat
  cases hv : valueMul a b <;>
    simp [VM.step, VM.read_byte, h1, Opcode.ofByte?, VM.multiply, VM.pop, VM.push,
      e1, e2, e3, e4, hv, isoVM, VM.frame?, VM.setFrame, Except.map,
      -List.append_assoc]

/-- `step` at a `Divide` instruction. -/
theorem step_divide (ch : Chunk) (start ip : Nat) (s : List Value)
    (g : List (String × Value)) (a b : Value)
    (h1 : ch.code[ip]? = some 5) :
    (isoVM ch start ip ((s ++ [a]) ++ [b]) g).step =
      (valueDiv a b).map (fun v => isoVM ch start (ip + 1) (s ++ [v]) g) := by
  have e1 : ((s ++ [a]) ++ [b]).getLast? = some b := List.getLast?_concat _
  have e2 : ((s ++ [a]) ++ [b]).dropLast = s ++ [a] := List.dropLast_concat
  have e3 : (s ++ [a]).getLast? = some a := List.getLast?_concat _
  have e4 : (s ++ [a]).dropLast = s := List.dropLast_concat
  cases hv : valueDiv a b <;>
    simp [VM.step, VM.read_byte, h1, Opcode.ofByte?, VM.divide, VM.pop, VM.push,
      e1, e2, e3, e4, hv, isoVM, VM.frame?, VM.setFrame, Except.map,
      -List.append_assoc]

/-- `step` at an `Equal` instruction. -/
theorem step_equal (ch : Chunk) (start ip : Nat) (s : List Value)
    (g : List (String × Value)) (a b : Value)
    (h1 : ch.code[ip]? = some 7) :
    (isoVM ch start ip ((s ++ [a]) ++ [b]) g).step =
      (valueEq a b).map (fun r => isoVM ch start (ip + 1) (s ++ [boolToValue r]) g) := by
  have e1 : ((s ++ [a]) ++ [b]).getLast? = some b := List.getLast?_concat _
  have e2 : ((s ++ [a]) ++ [b]).dropLast = s ++ [a] := List.dropLast_concat
  have e3 : (s ++ [a]).getLast? = some a := List.getLast?_concat _
  have e4 : (s ++ [a]).dropLast = s := List.dropLast_concat
  cases hv : valueEq a b <;>
    simp [VM.step, VM.read_byte, h1, Opcode.ofByte?, VM.equal, VM.pop, VM.push,
      e1, e2, e3, e4, hv, isoVM, VM.frame?, VM.setFrame, Except.map,
      -List.append_assoc]

/-- `step` at a `Greater` instruction. -/
theorem step_greater (ch : Chunk) (start ip : Nat) (s : List Value)
    (g : List (String × Value)) (a b : Value)
    (h1 : ch.code[ip]? = some 8) :
    (isoVM ch start ip ((s ++ [a]) ++ [b]) g).step =
      (valueGt a b).map (fun r => isoVM ch start (ip + 1) (s ++ [boolToValue r]) g) := by
  have e1 : ((s ++ [a]) ++ [b]).getLast? = some b := List.getLast?_concat _
  have e2 : ((s ++ [a]) ++ [b]).dropLast = s ++ [a] := List.dropLast_concat
  have e3 : (s ++ [a]).getLast? = some a := List.getLast?_concat _
  have e4 : (s ++ [a]).dropLast = s := List.dropLast_concat
  cases hv : valueGt a b <;>
    simp [VM.step, VM.read_byte, h1, Opcode.ofByte?, VM.greater, VM.pop, VM.push,
      e1, e2, e3, e4, hv, isoVM, VM.frame?, VM.setFrame, Except.map,
      -List.append_assoc]

/-- `step` at a `Less` instruction. -/
theorem step_less (ch : Chunk) (start ip : Nat) (s : List Value)
    (g : List (String × Value)) (a b : Value)
    (h1 : ch.code[ip]? = some 9) :
    (isoVM ch start ip ((s ++ [a]) ++ [b]) g).step =
      (valueLt a b).map (fun r => isoVM ch start (ip + 1) (s ++ [boolToValue r]) g) := by
  have e1 : ((s ++ [a]) ++ [b]).getLast? = some b := List.getLast?_concat _
  have e2 : ((s ++ [a]) ++ [b]).dropLast = s ++ [a] := List.dropLast_concat
  have e3 : (s ++ [a]).getLast? = some a := List.getLast?_concat _
  have e4 : (s ++ [a]).dropLast = s := List.dropLast_concat
  cases hv : valueLt a b <;>
    simp [VM.step, VM.read_byte, h1, Opcode.ofByte?, VM.less, VM.pop, VM.push,
      e1, e2, e3, e4, hv, isoVM, VM.frame?, VM.setFrame, Except.map,
      -List.append_assoc]

/-- `step` at a `Not` instruction. -/
theorem step_not (ch : Chunk) (start ip : Nat) (s : List Value)
    (g : List (String × Value)) (a : Value)
    (h1 : ch.code[ip]? = some 10) :
    (isoVM ch start ip (s ++ [a]) g).step =
      .ok (isoVM ch start (ip + 1) (s ++ [boolToValue (!a.truthy)]) g) := by
  simp [VM.step, VM.read_byte, VM.frame?, VM.setFrame, h1, Opcode.ofByte?,
    VM.notOp, VM.pop, VM.push, isoVM]

/-- `step` at a `Negate` instruction. -/
theorem step_negate (ch : Chunk) (start ip : Nat) (s : List Value)
    (g : List (String × Value)) (a : Value)
    (h1 : ch.code[ip]? = some 11) :
    (isoVM ch start ip (s ++ [a]) g).step =
      (valueNeg a).map (fun v => isoVM ch start (ip + 1) (s ++ [v]) g) := by
  cases hv : valueNeg a <;>
    simp [VM.step, VM.read_byte, VM.frame?, VM.setFrame, h1, Opcode.ofByte?,
      VM.negate, VM.pop, hv, VM.push, isoVM, Except.map]

/-- `step` at a `Pop` instruction. -/
theorem step_pop (ch : Chunk) (start ip : Nat) (s : List Value)
    (g : List (String × Value)) (a : Value)
    (h1 : ch.code[ip]? = some 17) :
    (isoVM ch start ip (s ++ [a]) g).step = .ok (isoVM ch start (ip + 1) s g) := by
  simp [VM.step, VM.read_byte, VM.frame?, VM.setFrame, h1, Opcode.ofByte?,
    VM.pop, isoVM]

/-- `step` at a `GetLocal` instruction. -/
theorem step_getLocal (ch : Chunk) (start ip : Nat) (s : List Value)
    (g : List (String × Value)) (slot : Nat)
    (h1 : ch.code[ip]? = some 18) (h2 : ch.code[ip + 1]? = some slot) :
    (isoVM ch start ip s g).step =
      match s[start + slot]? with
      | some v => .ok (isoVM ch start (ip + 2) (s ++ [v]) g)
      | none => .error (.badStackIndex (start + slot) s.length) := by
  cases hv : s[start + slot]? <;>
    simp [VM.step, VM.read_byte, VM.frame?, VM.setFrame, h1, Opcode.ofByte?,
      VM.get_local, h2, hv, isoVM]

/-- `step` at a `SetLocal` instruction (the stack is nonempty). -/
theorem step_setLocal (ch : Chunk) (start ip : Nat) (s : List Value)
    (g : List (String × Value)) (a : Value) (slot : Nat)
    (h1 : ch.code[ip]? = some 19) (h2 : ch.code[ip + 1]? = some slot) :
    (isoVM ch start ip (s ++ [a]) g).step =
      if start + slot < (s ++ [a]).length then
        .ok (isoVM ch start (ip + 2) ((s ++ [a]).set (start + slot) a) g)
      else .error .vecIndexOutOfBounds := by
  by_cases hlt : start + slot < (s ++ [a]).length <;>
    simp [VM.step, VM.read_byte, VM.frame?, VM.setFrame, h1, Opcode.ofByte?,
      VM.set_local, VM.peek, h2, hlt, isoVM]

/-- `step` at a `GetGlobal` instruction: either a runtime error or a single
push. -/
theorem step_getGlobal_shape (ch : Chunk) (start ip : Nat) (s : List Value)
    (g : List (String × Value)) (k : Nat)
    (h1 : ch.code[ip]? = some 13) (h2 : ch.code[ip + 1]? = some k) :
    (∃ e, (isoVM ch start ip s g).step = .error e) ∨
    (∃ v, (isoVM ch start ip s g).step =
      .ok (isoVM ch start (ip + 2) (s ++ [v]) g)) := by
  cases hk : ch.constants[k]? with
  | none =>
    exact Or.inl ⟨.vecIndexOutOfBounds, by
      simp [VM.step, VM.read_byte, VM.frame?, VM.setFrame, h1, Opcode.ofByte?,
        VM.get_global, VM.read_string, VM.read_constant, ChunkG.read_constant,
        h2, hk, isoVM]⟩
  | some v =>
    match v with
    | .string name =>
      cases hg : assocGet g name with
      | none =>
        exact Or.inl ⟨.undefinedGlobal name, by
          simp [VM.step, VM.read_byte, VM.frame?, VM.setFrame, h1, Opcode.ofByte?,
            VM.get_global, VM.read_string, VM.read_constant, ChunkG.read_constant,
            h2, hk, hg, isoVM]⟩
      | some w =>
        exact Or.inr ⟨w, by
          simp [VM.step, VM.read_byte, VM.frame?, VM.setFrame, h1, Opcode.ofByte?,
            VM.get_global, VM.read_string, VM.read_constant, ChunkG.read_constant,
            h2, hk, hg, VM.push, isoVM]⟩
    | .number n =>
      exact Or.inl ⟨.valueCastPanic, by
        simp [VM.step, VM.read_byte, VM.frame?, VM.setFrame, h1, Opcode.ofByte?,
          VM.get_global, VM.read_string, VM.read_constant, ChunkG.read_constant,
          h2, hk, isoVM]⟩
    | .vtrue =>
      exact Or.inl ⟨.valueCastPanic, by
        simp [VM.step, VM.read_byte, VM.frame?, VM.setFrame, h1, Opcode.ofByte?,
          VM.get_global, VM.read_string, VM.read_constant, ChunkG.read_constant,
          h2, hk, isoVM]⟩
    | .vfalse =>
      exact Or.inl ⟨.valueCastPanic, by
        simp [VM.step, VM.read_byte, VM.frame?, VM.setFrame, h1, Opcode.ofByte?,
          VM.get_global, VM.read_string, VM.read_constant, ChunkG.read_constant,
          h2, hk, isoVM]⟩
    | .nil =>
      exact Or.inl ⟨.valueCastPanic, by
        simp [VM.step, VM.read_byte, VM.frame?, VM.setFrame, h1, Opcode.ofByte?,
          VM.get_global, VM.read_string, VM.read_constant, ChunkG.read_constant,
          h2, hk, isoVM]⟩
    | .array xs =>
      exact Or.inl ⟨.valueCastPanic, by
        simp [VM.step, VM.read_byte, VM.frame?, VM.setFrame, h1, Opcode.ofByte?,
          VM.get_global, VM.read_string, VM.read_constant, ChunkG.read_constant,
          h2, hk, isoVM]⟩
    | .closure c =>
      exact Or.inl ⟨.valueCastPanic, by
        simp [VM.step, VM.read_byte, VM.frame?, VM.setFrame, h1, Opcode.ofByte?,
          VM.get_global, VM.read_string, VM.read_constant, ChunkG.read_constant,
          h2, hk, isoVM]⟩
    | .function f =>
      exact Or.inl ⟨.valueCastPanic, by
        simp [VM.step, VM.read_byte, VM.frame?, VM.setFrame, h1, Opcode.ofByte?,
          VM.get_global, VM.read_string, VM.read_constant, ChunkG.read_constant,
          h2, hk, isoVM]⟩
    | .cls c =>
      exact Or.inl ⟨.valueCastPanic, by
        simp [VM.step, VM.read_byte, VM.frame?, VM.setFrame, h1, Opcode.ofByte?,
          VM.get_global, VM.read_string, VM.read_constant, ChunkG.read_constant,
          h2, hk, isoVM]⟩
    | .inst i =>
      exact Or.inl ⟨.valueCastPanic, by
        simp [VM.step, VM.read_byte, VM.frame?, VM.setFrame, h1, Opcode.ofByte?,
          VM.get_global, VM.read_string, VM.read_constant, ChunkG.read_constant,
          h2, hk, isoVM]⟩

/-- `step` at a `SetGlobal` instruction: either a runtime error, or the stack
is unchanged (the value is peeked) and only the globals change. -/
theorem step_setGlobal_shape (ch : Chunk) (start ip : Nat) (s : List Value)
    (g : List (String × Value)) (k : Nat)
    (h1 : ch.code[ip]? = some 14) (h2 : ch.code[ip + 1]? = some k) :
    (∃ e, (isoVM ch start ip s g).step = .error e) ∨
    (∃ g2, (isoVM ch start ip s g).step =
      .ok (isoVM ch start (ip + 2) s g2)) := by
  cases hk : ch.constants[k]? with
  | none =>
    exact Or.inl ⟨.vecIndexOutOfBounds, by
      simp [VM.step, VM.read_byte, VM.frame?, VM.setFrame, h1, Opcode.ofByte?,
        VM.set_global, VM.read_string, VM.read_constant, ChunkG.read_constant,
        h2, hk, isoVM]⟩
  | some v =>
    match v with
    | .string name =>
      by_cases hc : assocContains g name
      · cases hs : s.getLast? with
        | none =>
          exact Or.inl ⟨.stackEmpty, by
            simp [VM.step, VM.read_byte, VM.frame?, VM.setFrame, h1, Opcode.ofByte?,
              VM.set_global, VM.read_string, VM.read_constant, ChunkG.read_constant,
              VM.peek, h2, hk, hc, hs, isoVM]⟩
        | some a =>
          exact Or.inr ⟨assocInsert g name a, by
            simp [VM.step, VM.read_byte, VM.frame?, VM.setFrame, h1, Opcode.ofByte?,
              VM.set_global, VM.read_string, VM.read_constant, ChunkG.read_constant,
              VM.peek, h2, hk, hc, hs, isoVM]⟩
      · exact Or.inl ⟨.undefinedGlobal name, by
          simp [VM.step, VM.read_byte, VM.frame?, VM.setFrame, h1, Opcode.ofByte?,
            VM.set_global, VM.read_string, VM.read_constant, ChunkG.read_constant,
            h2, hk, hc, isoVM]⟩
    | .number n =>
      exact Or.inl ⟨.valueCastPanic, by
        simp [VM.step, VM.read_byte, VM.frame?, VM.setFrame, h1, Opcode.ofByte?,
          VM.set_global, VM.read_string, VM.read_constant, ChunkG.read_constant,
          h2, hk, isoVM]⟩
    | .vtrue =>
      exact Or.inl ⟨.valueCastPanic, by
        simp [VM.step, VM.read_byte, VM.frame?, VM.setFrame, h1, Opcode.ofByte?,
          VM.set_global, VM.read_string, VM.read_constant, ChunkG.read_constant,
          h2, hk, isoVM]⟩
    | .vfalse =>
      exact Or.inl ⟨.valueCastPanic, by
        simp [VM.step, VM.read_byte, VM.frame?, VM.setFrame, h1, Opcode.ofByte?,
          VM.set_global, VM.read_string, VM.read_constant, ChunkG.read_constant,
          h2, hk, isoVM]⟩
    | .nil =>
      exact Or.inl ⟨.valueCastPanic, by
        simp [VM.step, VM.read_byte, VM.frame?, VM.setFrame, h1, Opcode.ofByte?,
          VM.set_global, VM.read_string, VM.read_constant, ChunkG.read_constant,
          h2, hk, isoVM]⟩
    | .array xs =>
      exact Or.inl ⟨.valueCastPanic, by
        simp [VM.step, VM.read_byte, VM.frame?, VM.setFrame, h1, Opcode.ofByte?,
          VM.set_global, VM.read_string, VM.read_constant, ChunkG.read_constant,
          h2, hk, isoVM]⟩
    | .closure c =>
      exact Or.inl ⟨.valueCastPanic, by
        simp [VM.step, VM.read_byte, VM.frame?, VM.setFrame, h1, Opcode.ofByte?,
          VM.set_global, VM.read_string, VM.read_constant, ChunkG.read_constant,
          h2, hk, isoVM]⟩
    | .function f =>
      exact Or.inl ⟨.valueCastPanic, by
        simp [VM.step, VM.read_byte, VM.frame?, VM.setFrame, h1, Opcode.ofByte?,
          VM.set_global, VM.read_string, VM.read_constant, ChunkG.read_constant,
          h2, hk, isoVM]⟩
    | .cls c =>
      exact Or.inl ⟨.valueCastPanic, by
        simp [VM.step, VM.read_byte, VM.frame?, VM.setFrame, h1, Opcode.ofByte?,
          VM.set_global, VM.read_string, VM.read_constant, ChunkG.read_constant,
          h2, hk, isoVM]⟩
    | .inst i =>
      exact Or.inl ⟨.valueCastPanic, by
        simp [VM.step, VM.read_byte, VM.frame?, VM.setFrame, h1, Opcode.ofByte?,
          VM.set_global, VM.read_string, VM.read_constant, ChunkG.read_constant,
          h2, hk, isoVM]⟩

@[simp]
theorem VM.frame_setFrame_frame (vm : VM) (f : CallFrame) :
    (vm.setFrame f).frame? = some f := by
  simp [VM.setFrame, VM.frame?]

@[simp]
theorem VM.setFrame_setFrame (vm : VM) (f f2 : CallFrame) :
    (vm.setFrame f).setFrame f2 = vm.setFrame f2 := by
  simp [VM.setFrame]

@[simp]
theorem VM.stack_setFrame (vm : VM) (f : CallFrame) :
    (vm.setFrame f).stack = vm.stack := rfl

/-- `step` at a `JumpIfFalse` instruction: the ip advances past the operands
and then jumps by the decoded offset exactly when the *peeked* top of stack
is falsy; the stack is unchanged. -/
theorem step_jumpIfFalse (vm : VM) (f : CallFrame) (hi lo : Nat) (v : Value)
    (hf : vm.frame? = some f)
    (h1 : f.closure.function.chunk.code[f.ip]? = some 15)
    (h2 : f.closure.function.chunk.code[f.ip + 1]? = some hi)
    (h3 : f.closure.function.chunk.code[f.ip + 2]? = some lo)
    (hv : vm.stack.getLast? = some v) :
    vm.step = .ok (vm.setFrame { f with
      ip := f.ip + 3 + (if v.truthy then 0 else ((hi <<< 8) ||| lo)) }) := by
  by_cases ht : v.truthy = true <;>
    simp [VM.step, VM.read_byte, hf, h1, Opcode.ofByte?, VM.jump_if_false,
      VM.read_short, h2, h3, VM.peek, hv, ht]

/-- `step` at a `Jump` instruction. -/
theorem step_jump (vm : VM) (f : CallFrame) (hi lo : Nat)
    (hf : vm.frame? = some f)
    (h1 : f.closure.function.chunk.code[f.ip]? = some 16)
    (h2 : f.closure.function.chunk.code[f.ip + 1]? = some hi)
    (h3 : f.closure.function.chunk.code[f.ip + 2]? = some lo) :
    vm.step = .ok (vm.setFrame { f with ip := f.ip + 3 + ((hi <<< 8) ||| lo) }) := by
  simp [VM.step, VM.read_byte, hf, h1, Opcode.ofByte?, VM.jump,
    VM.read_short, h2, h3]

/-- `step` at a `Loop` instruction: the ip moves backward by the decoded
offset (measured from just past the operand bytes). -/
theorem step_loop (vm : VM) (f : CallFrame) (hi lo : Nat)
    (hf : vm.frame? = some f)
    (h1 : f.closure.function.chunk.code[f.ip]? = some 23)
    (h2 : f.closure.function.chunk.code[f.ip + 1]? = some hi)
    (h3 : f.closure.function.chunk.code[f.ip + 2]? = some lo)
    (hle : ((hi <<< 8) ||| lo) ≤ f.ip + 3) :
    vm.step = .ok (vm.setFrame { f with ip := f.ip + 3 - ((hi <<< 8) ||| lo) }) := by
  have hc : ((hi <<< 8) ||| lo) ≤ f.ip + 1 + 2 := by omega
  simp [VM.step, VM.read_byte, hf, h1, Opcode.ofByte?, VM.loop_,
    VM.read_short, h2, h3, hc]

/-! ## Claims -/

theorem ratToUsize_natCast (n : Nat) : ratToUsize (n : ℚ) = n := rfl

/-- C2: an executed `Call` that pushes a frame gives it
`stack_start = stack.length - (n + 1)`; an executed `Return` pops the frame,
pops the return value, truncates the stack to the frame's `stack_start`
(leaving every slot below it unchanged) and pushes the value back, so the
callee-plus-arguments window collapses to exactly the single result. -/
theorem c2_call_ret :
    (∀ (vm : VM) (closure : GreenClosure) (n : Nat),
      n + 1 ≤ vm.stack.length →
      vm.stack[vm.stack.length - (n + 1)]? = some (.closure closure) →
      closure.function.arity = n →
      vm.call_value n =
        .ok { vm with frames :=
          vm.frames ++ [CallFrame.new closure (vm.stack.length - (n + 1))] }) ∧
    (∀ (vm : VM) (f : CallFrame) (fs : List CallFrame) (result : Value),
      vm.frames = fs ++ [f] →
      f.stack_start < vm.stack.length →
      vm.stack.getLast? = some result →
      vm.ret = .ok { vm with
        frames := fs
        stack := vm.stack.take f.stack_start ++ [result] } ∧
      (vm.stack.take f.stack_start ++ [result]).length = f.stack_start + 1 ∧
      ∀ i, i < f.stack_start →
        (vm.stack.take f.stack_start ++ [result])[i]? = vm.stack[i]?) := by
  constructor
  · intro vm closure n hlen hslot harity
    unfold VM.call_value
    rw [if_pos hlen]
    simp only [hslot]
    unfold VM.call
    rw [harity, if_neg (by simp), if_pos hlen]
  · intro vm f fs result hframes hstart hlast
    have hgl : vm.frames.getLast? = some f := by
      rw [hframes, List.getLast?_concat]
    have hdl : vm.frames.dropLast = fs := by
      rw [hframes, List.dropLast_concat]
    have htake : vm.stack.dropLast.take f.stack_start =
        vm.stack.take f.stack_start := by
      rw [List.dropLast_eq_take, List.take_take]
      congr 1
      omega
    refine ⟨?_, ?_, ?_⟩
    · unfold VM.ret
      rw [hgl]
      simp only [VM.pop, hdl]
      rw [show ({ vm with frames := fs } : VM).stack = vm.stack from rfl, hlast]
      simp only [ok_bind, VM.push]
      rw [htake]
    · simp only [List.length_append, List.length_take, List.length_singleton]
      omega
    · intro i hi
      rw [List.getElem?_append_left (by simp; omega)]
      exact List.getElem?_take_of_lt hi

/-- C2 witness: the call and return clauses evaluated at concrete states. -/
theorem c2_call_ret_witness :
    (let cw : GreenClosure := { function := GreenFunction.new }
     let vm0 : VM := { stack := [.closure cw], frames := [], globals := [], output := [] }
     vm0.call_value 0 =
       .ok { vm0 with frames := [CallFrame.new cw 0] }) ∧
    (let cw : GreenClosure := { function := GreenFunction.new }
     let f : CallFrame := { closure := cw, ip := 5, stack_start := 1 }
     let vmr : VM := { stack := [.number 1, .number 2], frames := [f],
                       globals := [], output := [] }
     vmr.ret = .ok { vmr with frames := [], stack := [.number 1, .number 2] } ∧
       ([Value.number 1].take 1 ++ [Value.number 2]).length = 2) := by
  constructor
  · exact c2_call_ret.1 _ _ 0 (by decide) rfl rfl
  · have h := c2_call_ret.2
      { stack := [.number 1, .number 2],
        frames := [{ closure := { function := GreenFunction.new }, ip := 5, stack_start := 1 }],
        globals := [], output := [] }
      { closure := { function := GreenFunction.new }, ip := 5, stack_start := 1 }
      [] (.number 2) rfl (by decide) rfl
    exact ⟨h.1, rfl⟩

/-- C3: `Call` on a callee that is neither a Closure nor a Class is a fatal
runtime error ("Can only call functions", a panic in the source); a Closure
callee with mismatched arity is a fatal error raised before any frame is
pushed; a Class callee is replaced in its slot by a fresh Instance.  The last
clause records that a failing step aborts the run loop, surfacing the error. -/
theorem c3_call_validation :
    (∀ (vm : VM) (n : Nat) (v : Value),
      n + 1 ≤ vm.stack.length →
      vm.stack[vm.stack.length - (n + 1)]? = some v →
      v.isClosure = false → v.isClass = false →
      vm.call_value n = .error .canOnlyCallFunctions) ∧
    (∀ (vm : VM) (n : Nat) (closure : GreenClosure),
      n + 1 ≤ vm.stack.length →
      vm.stack[vm.stack.length - (n + 1)]? = some (.closure closure) →
      closure.function.arity ≠ n →
      vm.call_value n = .error (.arityMismatch closure.function.arity n)) ∧
    (∀ (vm : VM) (n : Nat) (k : ClassObj),
      n + 1 ≤ vm.stack.length →
      vm.stack[vm.stack.length - (n + 1)]? = some (.cls k) →
      vm.call_value n = .ok { vm with
        stack := vm.stack.set (vm.stack.length - n - 1)
          (.inst { cls := k, fields := [] }) }) ∧
    (∀ (vm : VM) (fuel : Nat) (e : RuntimeError),
      vm.is_at_end = false → vm.step = .error e →
      vm.run (fuel + 1) = .error e) := by
  refine ⟨?_, ?_, ?_, ?_⟩
  · intro vm n v hlen hslot hnc hncl
    unfold VM.call_value
    rw [if_pos hlen]
    simp only [hslot]
    cases v <;> simp_all [Value.isClosure, Value.isClass]
  · intro vm n closure hlen hslot hne
    unfold VM.call_value
    rw [if_pos hlen]
    simp only [hslot]
    unfold VM.call
    rw [if_pos (by omega)]
  · intro vm n k hlen hslot
    unfold VM.call_value
    rw [if_pos hlen]
    simp only [hslot]
  · intro vm fuel e hend hstep
    unfold VM.run
    rw [if_neg (by simp [hend]), hstep]
    rfl

/-- C3 witness: concrete non-callable, arity-mismatch and class-call states. -/
theorem c3_call_validation_witness :
    (let vm : VM := { stack := [.number 7], frames := [], globals := [], output := [] }
     vm.call_value 0 = .error .canOnlyCallFunctions) ∧
    (let cw : GreenClosure := { function := { name := "f", chunk := Chunk.new, arity := 2 } }
     let vm : VM := { stack := [.closure cw, .nil], frames := [], globals := [], output := [] }
     vm.call_value 1 = .error (.arityMismatch 2 1)) ∧
    (let vm : VM := { stack := [.cls { name := "P" }], frames := [], globals := [], output := [] }
     vm.call_value 0 =
       .ok { stack := [.inst { cls := { name := "P" }, fields := [] }],
             frames := [], globals := [], output := [] }) := by
  refine ⟨?_, ?_, ?_⟩
  · exact c3_call_validation.1 _ 0 (.number 7) (by decide) rfl rfl rfl
  · exact c3_call_validation.2.1 _ 1
      { function := { name := "f", chunk := Chunk.new, arity := 2 } }
      (by decide) rfl (by decide)
  · exact c3_call_validation.2.2.1 _ 0 { name := "P" } (by decide) rfl

/-- C10: `StoreSubscript` with `[array, index, item]` on top pops all three
and pushes the *updated array* (not the stored item); arrays are inline
values, so any other copy of the array — e.g. one sitting in a lower stack
slot it was read from — is untouched by the store. -/
theorem c10_store_subscript :
    ∀ (vm : VM) (s : List Value) (xs : List Value) (n : Nat) (item : Value),
      vm.stack = (s ++ [.array xs] ++ [.number (n : ℚ)]) ++ [item] →
      n < xs.length →
      vm.store_subscript =
        .ok { vm with stack := s ++ [.array (xs.set n item)] } ∧
      (∀ k, k < s.length → s[k]? = some (Value.array xs) →
        (s ++ [Value.array (xs.set n item)])[k]? = some (Value.array xs)) ∧
      (s ++ [Value.array (xs.set n item)]).getLast? =
        some (Value.array (xs.set n item)) := by
  intro vm s xs n item hstack hlt
  refine ⟨?_, ?_, List.getLast?_concat _⟩
  · unfold VM.store_subscript
    simp only [VM.pop, hstack, List.getLast?_concat, List.dropLast_concat, ok_bind]
    rw [ratToUsize_natCast, if_pos hlt]
    simp [VM.push]
  · intro k hk hkv
    rw [List.getElem?_append_left hk]
    exact hkv

theorem truthy_boolToValue (b : Bool) : (boolToValue b).truthy = b := by
  cases b <;> rfl

/-- Helper for C6: all seven `Number`-only value operations fail on any
operand pair that is not two numbers. -/
theorem valueOps_nonNumber_error (a b : Value)
    (hab : ¬(a.isNumber = true ∧ b.isNumber = true)) :
    valueAdd a b = .error .operandMustBeNumber ∧
    valueSub a b = .error .operandMustBeNumber ∧
    valueMul a b = .error .operandMustBeNumber ∧
    valueDiv a b = .error .operandMustBeNumber ∧
    valueEq a b = .error .operandMustBeNumber ∧
    valueGt a b = .error .operandMustBeNumber ∧
    valueLt a b = .error .operandMustBeNumber := by
  cases a <;> cases b <;>
    simp_all [Value.isNumber, valueAdd, valueSub, valueMul, valueDiv,
      valueEq, valueGt, valueLt]

/-- C6: every arithmetic (`Add`/`Subtract`/`Multiply`/`Divide`), comparison
(`Greater`/`Less`) and `Equal` operation whose two operands are not both
`Number` is a fatal runtime error (the source's panic "Operand must be a
number.", modelled as `RuntimeError.operandMustBeNumber`), never a silent
coercion; and running the whole program `true + 1` through
compile-then-interpret ends in exactly that error. -/
theorem c6_arithmetic_type_safety :
    (∀ a b : Value, ¬(a.isNumber = true ∧ b.isNumber = true) →
      valueAdd a b = .error .operandMustBeNumber ∧
      valueSub a b = .error .operandMustBeNumber ∧
      valueMul a b = .error .operandMustBeNumber ∧
      valueDiv a b = .error .operandMustBeNumber ∧
      valueEq a b = .error .operandMustBeNumber ∧
      valueGt a b = .error .operandMustBeNumber ∧
      valueLt a b = .error .operandMustBeNumber) ∧
    (∀ (vm : VM) (s : List Value) (a b : Value),
      vm.stack = (s ++ [a]) ++ [b] → ¬(a.isNumber = true ∧ b.isNumber = true) →
      vm.add = .error .operandMustBeNumber) ∧
    interpret [.binary (.literal .ltrue) (.literal (.number 1)) .add] 10 =
      .ok (.error .operandMustBeNumber) := by
  refine ⟨?_, ?_, rfl⟩
  · exact valueOps_nonNumber_error
  · intro vm s a b hstack hab
    have h1 := (valueOps_nonNumber_error a b hab).1
    unfold VM.add
    simp only [VM.pop, hstack, List.getLast?_concat, List.dropLast_concat,
      ok_bind, h1, error_bind]

/-- C6 witness: `true + 1` at the value level. -/
theorem c6_arithmetic_type_safety_witness :
    valueAdd .vtrue (.number 1) = .error .operandMustBeNumber ∧
    ({ stack := [.vtrue, .number 1], frames := [], globals := [],
       output := [] } : VM).add = .error .operandMustBeNumber := by
  constructor
  · exact ((c6_arithmetic_type_safety.1 .vtrue (.number 1)) (by decide)).1
  · exact c6_arithmetic_type_safety.2.1 _ [] .vtrue (.number 1) rfl (by decide)

/-- C9: `!=`, `>=`, `<=` lower to `Equal;Not`, `Less;Not`, `Greater;Not` —
they have no opcodes of their own — and on two numbers the lowered pair
computes exactly the boolean negation of the primitive comparison. -/
theorem c9_comparison_lowering :
    (binaryOpcodes .bangEqual = [.equal, .not] ∧
     binaryOpcodes .greaterThanEqual = [.less, .not] ∧
     binaryOpcodes .lessThanEqual = [.greater, .not]) ∧
    (∀ (lhs rhs : Expr) (c c1 c2 : Compiler),
      compile_expr lhs c = .ok c1 → compile_expr rhs c1 = .ok c2 →
      (compile_expr (.binary lhs rhs .bangEqual) c =
          .ok (c2.emitAll [.equal, .not]) ∧
        (c2.emitAll [.equal, .not]).currentCode = c2.currentCode ++ [7, 10]) ∧
      (compile_expr (.binary lhs rhs .greaterThanEqual) c =
          .ok (c2.emitAll [.less, .not]) ∧
        (c2.emitAll [.less, .not]).currentCode = c2.currentCode ++ [9, 10]) ∧
      (compile_expr (.binary lhs rhs .lessThanEqual) c =
          .ok (c2.emitAll [.greater, .not]) ∧
        (c2.emitAll [.greater, .not]).currentCode = c2.currentCode ++ [8, 10])) ∧
    (∀ (vm : VM) (s : List Value) (x y : ℚ),
      vm.stack = (s ++ [.number x]) ++ [.number y] →
      vm.equal = .ok { vm with stack := s ++ [boolToValue (decide (x = y))] } ∧
      vm.greater = .ok { vm with stack := s ++ [boolToValue (decide (x > y))] } ∧
      vm.less = .ok { vm with stack := s ++ [boolToValue (decide (x < y))] } ∧
      (∀ (vm2 : VM) (b : Bool), vm2.stack = s ++ [boolToValue b] →
        vm2.notOp = .ok { vm2 with stack := s ++ [boolToValue (!b)] })) ∧
    (∀ x y : ℚ, (!decide (x = y)) = decide (x ≠ y) ∧
      (!decide (x < y)) = decide (x ≥ y) ∧
      (!decide (x > y)) = decide (x ≤ y)) := by
  refine ⟨⟨rfl, rfl, rfl⟩, ?_, ?_, ?_⟩
  · intro lhs rhs c c1 c2 h1 h2
    refine ⟨⟨?_, ?_⟩, ⟨?_, ?_⟩, ⟨?_, ?_⟩⟩ <;>
      first
      | (simp only [compile_expr, h1, h2, ok_bind, binaryOpcodes])
      | (exact (Compiler.emitAll_spec _ _).1)
  · intro vm s x y hstack
    refine ⟨?_, ?_, ?_, ?_⟩
    · unfold VM.equal
      simp [VM.pop, hstack, List.getLast?_concat, List.dropLast_concat,
        valueEq, VM.push, -List.append_assoc]
    · unfold VM.greater
      simp [VM.pop, hstack, List.getLast?_concat, List.dropLast_concat,
        valueGt, VM.push, -List.append_assoc]
    · unfold VM.less
      simp [VM.pop, hstack, List.getLast?_concat, List.dropLast_concat,
        valueLt, VM.push, -List.append_assoc]
    · intro vm2 b hb
      unfold VM.notOp
      simp [VM.pop, hb, List.getLast?_concat, List.dropLast_concat,
        truthy_boolToValue, VM.push, -List.append_assoc]
  · intro x y
    refine ⟨?_, ?_, ?_⟩
    · simp [decide_not]
    · rw [← decide_not]
      exact decide_eq_decide.mpr not_lt
    · rw [← decide_not]
      exact decide_eq_decide.mpr not_lt

/-- C9 witness: the lowering evaluated on literals `2` and `3`. -/
theorem c9_comparison_lowering_witness :
    (compile_expr (.binary (.literal (.number 2)) (.literal (.number 3))
        .greaterThanEqual) Compiler.new =
      .ok (((Compiler.new.emit_constant (.number 2)).emit_constant
        (.number 3)).emitAll [.less, .not])) ∧
    (({ stack := [.number 2, .number 3], frames := [], globals := [],
        output := [] } : VM).less =
      .ok { stack := [boolToValue (decide ((2 : ℚ) < 3))], frames := [],
            globals := [], output := [] }) := by
  constructor
  · exact ((c9_comparison_lowering.2.1 (.literal (.number 2))
      (.literal (.number 3)) Compiler.new _ _ rfl rfl).2.1).1
  · exact (c9_comparison_lowering.2.2.1 _ [] 2 3 rfl).2.2.1

/-- Decoding the two bytes `patch_jump` writes recovers the distance *modulo
2^16* — the `& 0xff` masks silently truncate anything larger. -/
theorem byte_roundtrip_mod (j : Nat) :
    ((((j >>> 8) &&& 0xff) <<< 8) ||| (j &&& 0xff)) = j % 65536 := by
  have hmask : ∀ x : Nat, x &&& 0xff = x % 256 :=
    fun x => Nat.and_pow_two_sub_one_eq_mod x 8
  have hdivd : ∀ x : Nat, x >>> 8 = x / 256 :=
    fun x => Nat.shiftRight_eq_div_pow x 8
  have h1 : (j >>> 8) &&& 0xff = ((j % 65536) >>> 8) &&& 0xff := by
    rw [hmask, hmask, hdivd, hdivd]
    omega
  have h2 : j &&& 0xff = (j % 65536) &&& 0xff := by
    rw [hmask, hmask]
    omega
  rw [h1, h2]
  exact byte_roundtrip _ (Nat.mod_lt _ (by norm_num))

/-- A chunk already holding 256 constants. -/
def chunk256 : Chunk :=
  { name := none, code := [], constants := List.replicate 256 .nil, lines := [] }

set_option maxRecDepth 8192 in
/-- C5 counterexample: adding the 257th constant is not rejected — there is
no error path at all — and the returned operand index is 0 even though the
constant was appended at index 256: the index silently wraps. -/
theorem c5_counterexample :
    (chunk256.add_constant .vtrue).1 = 0 ∧
    (chunk256.add_constant .vtrue).2.constants.length = 257 ∧
    (chunk256.add_constant .vtrue).2.constants[256]? = some .vtrue ∧
    (0 : Nat) ≠ 256 := by
  refine ⟨rfl, by simp [chunk256, ChunkG.add_constant], ?_, by decide⟩
  show (List.replicate 256 Value.nil ++ [Value.vtrue])[256]? = some Value.vtrue
  rw [List.getElem?_append_right (by simp)]
  simp

/-- C5 amended: nothing is rejected at these limits.  `add_constant` returns
the new pool length wrapped through u8 arithmetic — correct exactly while the
pool held fewer than 256 constants — yet the operand always stays below the
pool length (the chunk indexing invariant); `add_local` appends without any
bound; `patch_jump`'s bytes decode to the jump distance modulo 2^16. -/
theorem c5_amended (ch : Chunk) (v : Value) (c : Compiler) (name : String) :
    (ch.add_constant v).1 = ((ch.constants.length + 1) % 256 + 255) % 256 ∧
    (ch.add_constant v).2.constants = ch.constants ++ [v] ∧
    (ch.constants.length < 256 → (ch.add_constant v).1 = ch.constants.length) ∧
    (ch.add_constant v).1 < (ch.add_constant v).2.constants.length ∧
    (c.add_local name).current.data.locals =
      c.current.data.locals ++ [{ name := name, depth := -1 }] ∧
    (∀ j : Nat, ((((j >>> 8) &&& 0xff) <<< 8) ||| (j &&& 0xff)) = j % 65536) := by
  refine ⟨?_, rfl, ?_, ?_, ?_, byte_roundtrip_mod⟩
  · simp [ChunkG.add_constant]
  · intro hlt
    simp only [ChunkG.add_constant, List.length_append, List.length_singleton]
    omega
  · simp only [ChunkG.add_constant, List.length_append, List.length_singleton]
    omega
  · simp [Compiler.add_local]

/-- C5 witness: with an empty pool the returned index is the true index 0. -/
theorem c5_amended_witness :
    Chunk.new.constants.length < 256 ∧
    (Chunk.new.add_constant .nil).1 = Chunk.new.constants.length := by
  exact ⟨by decide, (c5_amended Chunk.new .nil Compiler.new "x").2.2.1 (by decide)⟩

/-- The variable-resolution rule as the claim words it (modelling the spec's
"scan the Local list starting from the most-recently-declared entry
backward; the first match (with depth ≠ −1) is used"): the index of the
*last* usable entry with the name.  Declared only to compare against
`resolve_local`, which is translated from the source. -/
def resolve_local_backward : List Local → String → Option Nat
  | [], _ => none
  | l :: rest, name =>
    match resolve_local_backward rest name with
    | some i => some (i + 1)
    | none => if l.name = name ∧ l.depth ≠ -1 then some 0 else none

def c4_locals : List Local :=
  [{ name := "", depth := 0 }, { name := "x", depth := 1 },
   { name := "x", depth := 2 }]

def c4_compiler : Compiler :=
  { current := CompilerInstance.mk
      { function := GreenFunction.new
        function_type := .script
        locals := c4_locals
        scope_depth := 2 } none }

/-- C4 counterexample: with an outer local `x` (depth 1) shadowed by an inner
local `x` (depth 2), `resolve_local` scans *forward from the oldest entry*
and returns index 1 — the OUTER local — where the claimed
most-recently-declared-first scan would return index 2; `GetLocal` is
emitted with operand 1. -/
theorem c4_counterexample :
    c4_compiler.resolve_local "x" = .ok 1 ∧
    resolve_local_backward c4_locals "x" = some 2 ∧
    (1 : Int) ≠ 2 ∧
    c4_compiler.compile_get_var "x" =
      .ok ((c4_compiler.emit .getLocal).emit_byte 1) := by
  exact ⟨rfl, rfl, by decide, rfl⟩

theorem resolve_scan_ok_nat (locals : List Local) (name : String) (k i : Nat)
    (h : resolve_local_scan locals name k = .ok (Int.ofNat i)) :
    k ≤ i ∧ ∃ l, locals[i - k]? = some l ∧ l.name = name ∧ l.depth ≠ -1 ∧
      ∀ j, j < i - k → ∀ l2, locals[j]? = some l2 → l2.name ≠ name := by
  induction locals generalizing k with
  | nil =>
    simp only [resolve_local_scan] at h
    have hinj := Except.ok.inj h
    simp only [Int.ofNat_eq_natCast] at hinj
    omega
  | cons l rest ih =>
    simp only [resolve_local_scan] at h
    split at h
    · rename_i hname
      split at h
      · cases h
      · rename_i hdepth
        have hki : k = i := by
          have hinj := Except.ok.inj h
          simp only [Int.ofNat_eq_natCast] at hinj
          omega
        subst hki
        refine ⟨le_refl _, l, ?_, hname.symm, hdepth, ?_⟩
        · simp
        · intro j hj
          omega
    · rename_i hname
      obtain ⟨hle, l2, hl2, hn2, hd2, hprev⟩ := ih (k + 1) h
      refine ⟨by omega, l2, ?_, hn2, hd2, ?_⟩
      · rw [show i - k = (i - (k + 1)) + 1 from by omega]
        simpa using hl2
      · intro j hj l3 hl3
        cases j with
        | zero =>
          simp only [List.getElem?_cons_zero] at hl3
          cases hl3
          exact fun he => hname he.symm
        | succ m =>
          simp only [List.getElem?_cons_succ] at hl3
          exact hprev m (by omega) l3 hl3

theorem resolve_scan_global (locals : List Local) (name : String) (k : Nat)
    (h : resolve_local_scan locals name k = .ok (-1)) :
    ∀ l ∈ locals, l.name ≠ name := by
  induction locals generalizing k with
  | nil => simp
  | cons l rest ih =>
    simp only [resolve_local_scan] at h
    split at h
    · rename_i hname
      split at h
      · cases h
      · have hinj := Except.ok.inj h
        simp only [Int.ofNat_eq_natCast] at hinj
        omega
    · rename_i hname
      intro l2 hl2
      cases hl2 with
      | head => exact fun he => hname he.symm
      | tail _ hmem => exact ih (k + 1) h l2 hmem

/-- C4 amended: on a read of name N the compiler scans the Local list
*forward from the first-declared entry*; the first (oldest) match is used —
so an outer local wins over an inner local of the same name — with its index
as the `GetLocal` operand (its depth must not be −1, else the
used-in-own-initializer error); when no local matches, the name is compiled
as a global access. -/
theorem c4_amended (c : Compiler) (name : String) :
    (∀ i : Nat, c.resolve_local name = .ok (Int.ofNat i) →
      ∃ l, c.current.data.locals[i]? = some l ∧ l.name = name ∧
        l.depth ≠ -1 ∧
        ∀ j, j < i → ∀ l2, c.current.data.locals[j]? = some l2 →
          l2.name ≠ name) ∧
    (c.resolve_local name = .ok (-1) →
      ∀ l ∈ c.current.data.locals, l.name ≠ name) ∧
    (∀ r : Int, c.resolve_local name = .ok r → r ≠ -1 →
      c.compile_get_var name =
        .ok ((c.emit .getLocal).emit_byte (r.toNat % 256))) ∧
    (c.resolve_local name = .ok (-1) →
      c.compile_get_var name =
        .ok (((c.emit .getGlobal).add_constant (.string name)).2.emit_byte
          ((c.emit .getGlobal).add_constant (.string name)).1)) := by
  refine ⟨?_, ?_, ?_, ?_⟩
  · intro i h
    obtain ⟨-, l, hl, hn, hd, hprev⟩ :=
      resolve_scan_ok_nat c.current.data.locals name 0 i h
    exact ⟨l, by simpa using hl, hn, hd, fun j hj => by
      have := hprev j (by omega)
      simpa using this⟩
  · exact resolve_scan_global c.current.data.locals name 0
  · intro r hres hne
    unfold Compiler.compile_get_var
    rw [hres]
    simp only [ok_bind]
    rw [if_pos hne]
  · intro hres
    unfold Compiler.compile_get_var
    rw [hres]
    simp only [ok_bind]
    rw [if_neg (by simp)]

/-- The compiler state used by the C4 witness. -/
def c4w_compiler : Compiler :=
  { current := CompilerInstance.mk
      { function := GreenFunction.new
        function_type := .script
        locals := [{ name := "", depth := 0 }, { name := "y", depth := 1 }]
        scope_depth := 1 } none }

/-- C4 amended witness: resolving `y` against `[sentinel, y@1]` yields the
forward-scan index 1 and a `GetLocal 1` emission; `z` resolves global. -/
theorem c4_amended_witness :
    (∃ l, c4w_compiler.current.data.locals[1]? = some l ∧ l.name = "y" ∧
      l.depth ≠ -1 ∧
      ∀ j, j < 1 → ∀ l2, c4w_compiler.current.data.locals[j]? = some l2 →
        l2.name ≠ "y") ∧
    c4w_compiler.compile_get_var "y" =
      .ok ((c4w_compiler.emit .getLocal).emit_byte 1) ∧
    (∀ l ∈ c4w_compiler.current.data.locals, l.name ≠ "z") := by
  refine ⟨(c4_amended _ "y").1 1 rfl, ?_, (c4_amended _ "z").2.1 rfl⟩
  exact (c4_amended _ "y").2.2.1 1 rfl (by decide)

def c8_compiler : Compiler :=
  { current := CompilerInstance.mk
      { function := GreenFunction.new
        function_type := .script
        locals := [{ name := "", depth := 0 }, { name := "x", depth := 1 }]
        scope_depth := 1 } none }

/-- The state `compile_declare_var` actually produces in the C8 scenario: a
second Local named `x` at depth 1 has been appended, with no error. -/
def c8_result : Compiler :=
  { current := CompilerInstance.mk
      { function := GreenFunction.new
        function_type := .script
        locals := [{ name := "", depth := 0 }, { name := "x", depth := 1 },
                   { name := "x", depth := 1 }]
        scope_depth := 1 } none }

/-- C8: the duplicate-declaration check is dead code.  At scope depth 1 with
`x` already declared at depth 1, declaring `x` again succeeds and simply
appends a second Local named `x` at depth 1: the forward scan hits the
sentinel `Local("", 0)` first, whose depth (0 ≠ −1, 0 < scope depth) fires
the "break" before any real local is compared, so the source's
`panic!("Already a variable called .. in this scope.")` is unreachable. -/
theorem c8_duplicate_declaration_not_rejected :
    duplicate_scan [{ name := "", depth := 0 }, { name := "x", depth := 1 }] 1 "x" =
      .ok () ∧
    c8_compiler.compile_declare_var "x" = .ok c8_result := by
  exact ⟨rfl, rfl⟩

theorem getElem?_append_offset (A B : List Nat) (k : Nat) :
    (A ++ B)[A.length + k]? = B[k]? := by
  rw [List.getElem?_append_right (by omega)]
  congr 1
  omega

/-- `step` at a `Constant` instruction whose operand misses the pool. -/
theorem step_constant_err (ch : Chunk) (start ip : Nat) (s : List Value)
    (g : List (String × Value)) (k : Nat)
    (h1 : ch.code[ip]? = some 1) (h2 : ch.code[ip + 1]? = some k)
    (h3 : ch.constants[k]? = none) :
    (isoVM ch start ip s g).step = .error .vecIndexOutOfBounds := by
  simp [VM.step, VM.read_byte, VM.frame?, VM.setFrame, h1, Opcode.ofByte?,
    VM.constant, VM.read_constant, ChunkG.read_constant, h2, h3, isoVM]

/-- Peel the last element off a nonempty list. -/
theorem stack_split_one (l : List Value) (m : Nat) (h : l.length = m + 1) :
    ∃ init a, l = init ++ [a] ∧ init.length = m := by
  have hne : l ≠ [] := by
    intro he
    rw [he] at h
    simp at h
  refine ⟨l.dropLast, l.getLast hne, ?_, ?_⟩
  · rw [List.dropLast_append_getLast hne]
  · simp [List.length_dropLast, h]

/-- Peel the last two elements off a list of length ≥ 2. -/
theorem stack_split_two (l : List Value) (m : Nat) (h : l.length = m + 2) :
    ∃ init a b, l = (init ++ [a]) ++ [b] ∧ init.length = m := by
  obtain ⟨l1, b, hb, hl1⟩ := stack_split_one l (m + 1) h
  obtain ⟨init, a, ha, hinit⟩ := stack_split_one l1 m hl1
  exact ⟨init, a, b, by rw [hb, ha], hinit⟩

/-- Executing the `Constant idx` pair emitted by `emit_constant`: one step,
either a pool-index error or exactly one push. -/
theorem emit_constant_exec (c : Compiler) (v : Value) (ch : Chunk)
    (r : List Nat) (hr : ch.code = (c.emit_constant v).currentCode ++ r)
    (s : List Value) (start : Nat) (g : List (String × Value)) :
    ∃ n, (∃ err, VM.stepsN n (isoVM ch start c.currentCode.length s g) =
            .error err) ∨
      (∃ s2 g2, VM.stepsN n (isoVM ch start c.currentCode.length s g) =
          .ok (isoVM ch start (c.emit_constant v).currentCode.length s2 g2) ∧
        s2.length = s.length + 1) := by
  have hshape : ch.code = c.currentCode ++ ([1, (c.add_constant v).1] ++ r) := by
    rw [hr, Compiler.currentCode_emit_constant, List.append_assoc]
  have hb1 : ch.code[c.currentCode.length]? = some 1 := by
    rw [hshape]
    simpa using getElem?_append_offset c.currentCode ([1, (c.add_constant v).1] ++ r) 0
  have hb2 : ch.code[c.currentCode.length + 1]? = some (c.add_constant v).1 := by
    rw [hshape]
    simpa using getElem?_append_offset c.currentCode ([1, (c.add_constant v).1] ++ r) 1
  have hl : (c.emit_constant v).currentCode.length = c.currentCode.length + 2 := by
    rw [Compiler.currentCode_emit_constant]
    simp
  cases hk : ch.constants[(c.add_constant v).1]? with
  | none =>
    refine ⟨1, Or.inl ⟨.vecIndexOutOfBounds, ?_⟩⟩
    simp only [VM.stepsN]
    rw [step_constant_err ch start c.currentCode.length s g _ hb1 hb2 hk]
    rfl
  | some w =>
    refine ⟨1, Or.inr ⟨s ++ [w], g, ?_, by simp⟩⟩
    simp only [VM.stepsN]
    rw [step_constant ch start c.currentCode.length s g _ w hb1 hb2 hk]
    rw [hl]
    rfl

/-- Executing the one- or two-opcode sequence `compile_binary` appends for a
binary operator, with the two operand values on top of the stack: either a
runtime error, or the stack shrinks by exactly one (two pops, one push). -/
theorem binop_exec (op : BinaryOperator) (c2 : Compiler) (ch : Chunk)
    (t : List Nat)
    (hr : ch.code = c2.currentCode ++ ((binaryOpcodes op).map Opcode.toByte ++ t))
    (s3 : List Value) (m : Nat) (hlen : s3.length = m + 2)
    (start : Nat) (g : List (String × Value)) :
    ∃ n, (∃ err, VM.stepsN n (isoVM ch start c2.currentCode.length s3 g) =
            .error err) ∨
      (∃ s4, VM.stepsN n (isoVM ch start c2.currentCode.length s3 g) =
          .ok (isoVM ch start
            (c2.emitAll (binaryOpcodes op)).currentCode.length s4 g) ∧
        s4.length = m + 1) := by
  obtain ⟨init, a, b, hsplit, hinit⟩ := stack_split_two s3 m hlen
  subst hsplit
  have hlenAll : (c2.emitAll (binaryOpcodes op)).currentCode.length =
      c2.currentCode.length + (binaryOpcodes op).length := by
    rw [(Compiler.emitAll_spec _ _).1]
    simp
  have hb0 : ∀ b0 rest, (binaryOpcodes op).map Opcode.toByte = b0 :: rest →
      ch.code[c2.currentCode.length]? = some b0 := by
    intro b0 rest hmap
    rw [hr, hmap]
    simpa using getElem?_append_offset c2.currentCode ((b0 :: rest) ++ t) 0
  have hb1 : ∀ b0 b1 rest, (binaryOpcodes op).map Opcode.toByte = b0 :: b1 :: rest →
      ch.code[c2.currentCode.length + 1]? = some b1 := by
    intro b0 b1 rest hmap
    rw [hr, hmap]
    simpa using getElem?_append_offset c2.currentCode ((b0 :: b1 :: rest) ++ t) 1
  cases op with
  | add =>
    cases hv : valueAdd a b with
    | error err =>
      refine ⟨1, Or.inl ⟨err, ?_⟩⟩
      simp only [VM.stepsN]
      rw [step_add ch start _ init g a b (hb0 2 [] rfl), hv]
      rfl
    | ok v =>
      refine ⟨1, Or.inr ⟨init ++ [v], ?_, by simp; omega⟩⟩
      simp only [VM.stepsN]
      rw [step_add ch start _ init g a b (hb0 2 [] rfl), hv, hlenAll]
      rfl
  | subtract =>
    cases hv : valueSub a b with
    | error err =>
      refine ⟨1, Or.inl ⟨err, ?_⟩⟩
      simp only [VM.stepsN]
      rw [step_subtract ch start _ init g a b (hb0 3 [] rfl), hv]
      rfl
    | ok v =>
      refine ⟨1, Or.inr ⟨init ++ [v], ?_, by simp; omega⟩⟩
      simp only [VM.stepsN]
      rw [step_subtract ch start _ init g a b (hb0 3 [] rfl), hv, hlenAll]
      rfl
  | multiply =>
    cases hv : valueMul a b with
    | error err =>
      refine ⟨1, Or.inl ⟨err, ?_⟩⟩
      simp only [VM.stepsN]
      rw [step_multiply ch start _ init g a b (hb0 4 [] rfl), hv]
      rfl
    | ok v =>
      refine ⟨1, Or.inr ⟨init ++ [v], ?_, by simp; omega⟩⟩
      simp only [VM.stepsN]
      rw [step_multiply ch start _ init g a b (hb0 4 [] rfl), hv, hlenAll]
      rfl
  | divide =>
    cases hv : valueDiv a b with
    | error err =>
      refine ⟨1, Or.inl ⟨err, ?_⟩⟩
      simp only [VM.stepsN]
      rw [step_divide ch start _ init g a b (hb0 5 [] rfl), hv]
      rfl
    | ok v =>
      refine ⟨1, Or.inr ⟨init ++ [v], ?_, by simp; omega⟩⟩
      simp only [VM.stepsN]
      rw [step_divide ch start _ init g a b (hb0 5 [] rfl), hv, hlenAll]
      rfl
  | equal =>
    cases hv : valueEq a b with
    | error err =>
      refine ⟨1, Or.inl ⟨err, ?_⟩⟩
      simp only [VM.stepsN]
      rw [step_equal ch start _ init g a b (hb0 7 [] rfl), hv]
      rfl
    | ok v =>
      refine ⟨1, Or.inr ⟨init ++ [boolToValue v], ?_, by simp; omega⟩⟩
      simp only [VM.stepsN]
      rw [step_equal ch start _ init g a b (hb0 7 [] rfl), hv, hlenAll]
      rfl
  | greaterThan =>
    cases hv : valueGt a b with
    | error err =>
      refine ⟨1, Or.inl ⟨err, ?_⟩⟩
      simp only [VM.stepsN]
      rw [step_greater ch start _ init g a b (hb0 8 [] rfl), hv]
      rfl
    | ok v =>
      refine ⟨1, Or.inr ⟨init ++ [boolToValue v], ?_, by simp; omega⟩⟩
      simp only [VM.stepsN]
      rw [step_greater ch start _ init g a b (hb0 8 [] rfl), hv, hlenAll]
      rfl
  | lessThan =>
    cases hv : valueLt a b with
    | error err =>
      refine ⟨1, Or.inl ⟨err, ?_⟩⟩
      simp only [VM.stepsN]
      rw [step_less ch start _ init g a b (hb0 9 [] rfl), hv]
      rfl
    | ok v =>
      refine ⟨1, Or.inr ⟨init ++ [boolToValue v], ?_, by simp; omega⟩⟩
      simp only [VM.stepsN]
      rw [step_less ch start _ init g a b (hb0 9 [] rfl), hv, hlenAll]
      rfl
  | bangEqual =>
    cases hv : valueEq a b with
    | error err =>
      refine ⟨2, Or.inl ⟨err, ?_⟩⟩
      simp only [VM.stepsN]
      rw [step_equal ch start _ init g a b (hb0 7 [10] rfl), hv]
      rfl
    | ok v =>
      refine ⟨2, Or.inr ⟨init ++ [boolToValue (!(boolToValue v).truthy)], ?_,
        by simp; omega⟩⟩
      simp only [VM.stepsN]
      rw [step_equal ch start _ init g a b (hb0 7 [10] rfl), hv]
      simp only [Except.map, ok_bind]
      rw [step_not ch start _ init g (boolToValue v) (hb1 7 10 [] rfl), hlenAll]
      rfl
  | greaterThanEqual =>
    cases hv : valueLt a b with
    | error err =>
      refine ⟨2, Or.inl ⟨err, ?_⟩⟩
      simp only [VM.stepsN]
      rw [step_less ch start _ init g a b (hb0 9 [10] rfl), hv]
      rfl
    | ok v =>
      refine ⟨2, Or.inr ⟨init ++ [boolToValue (!(boolToValue v).truthy)], ?_,
        by simp; omega⟩⟩
      simp only [VM.stepsN]
      rw [step_less ch start _ init g a b (hb0 9 [10] rfl), hv]
      simp only [Except.map, ok_bind]
      rw [step_not ch start _ init g (boolToValue v) (hb1 9 10 [] rfl), hlenAll]
      rfl
  | lessThanEqual =>
    cases hv : valueGt a b with
    | error err =>
      refine ⟨2, Or.inl ⟨err, ?_⟩⟩
      simp only [VM.stepsN]
      rw [step_greater ch start _ init g a b (hb0 8 [10] rfl), hv]
      rfl
    | ok v =>
      refine ⟨2, Or.inr ⟨init ++ [boolToValue (!(boolToValue v).truthy)], ?_,
        by simp; omega⟩⟩
      simp only [VM.stepsN]
      rw [step_greater ch start _ init g a b (hb0 8 [10] rfl), hv]
      simp only [Except.map, ok_bind]
      rw [step_not ch start _ init g (boolToValue v) (hb1 8 10 [] rfl), hlenAll]
      rfl

/-- Executing the `GetLocal`/`GetGlobal` pair emitted by `compile_get_var`:
one step, either a runtime error or exactly one push. -/
theorem get_var_exec (c c' : Compiler) (name : String)
    (h : c.compile_get_var name = .ok c') (ch : Chunk)
    (hcode : ∃ r, ch.code = c'.currentCode ++ r)
    (s : List Value) (start : Nat) (g : List (String × Value)) :
    ∃ n, (∃ err, VM.stepsN n (isoVM ch start c.currentCode.length s g) =
            .error err) ∨
      (∃ s2 g2, VM.stepsN n (isoVM ch start c.currentCode.length s g) =
          .ok (isoVM ch start c'.currentCode.length s2 g2) ∧
        s2.length = s.length + 1) := by
  obtain ⟨r, hr⟩ := hcode
  unfold Compiler.compile_get_var at h
  cases hres : c.resolve_local name with
  | error e => rw [hres] at h; cases h
  | ok arg =>
    rw [hres] at h
    simp only [ok_bind] at h
    split at h
    · cases h
      have hshape : ch.code = c.currentCode ++ ([18, arg.toNat % 256] ++ r) := by
        rw [hr]
        simp [Opcode.toByte]
      have hb1 : ch.code[c.currentCode.length]? = some 18 := by
        rw [hshape]
        simpa using getElem?_append_offset c.currentCode ([18, arg.toNat % 256] ++ r) 0
      have hb2 : ch.code[c.currentCode.length + 1]? = some (arg.toNat % 256) := by
        rw [hshape]
        simpa using getElem?_append_offset c.currentCode ([18, arg.toNat % 256] ++ r) 1
      have hl : ((c.emit .getLocal).emit_byte (arg.toNat % 256)).currentCode.length =
          c.currentCode.length + 2 := by
        simp
      cases hv : s[start + arg.toNat % 256]? with
      | none =>
        refine ⟨1, Or.inl ⟨.badStackIndex (start + arg.toNat % 256) s.length, ?_⟩⟩
        simp only [VM.stepsN]
        rw [step_getLocal ch start c.currentCode.length s g _ hb1 hb2, hv]
        rfl
      | some v =>
        refine ⟨1, Or.inr ⟨s ++ [v], g, ?_, by simp⟩⟩
        simp only [VM.stepsN]
        rw [step_getLocal ch start c.currentCode.length s g _ hb1 hb2, hv, hl]
        rfl
    · cases h
      have hshape : ch.code = c.currentCode ++
          ([13, ((c.emit .getGlobal).add_constant (.string name)).1] ++ r) := by
        rw [hr]
        simp [Opcode.toByte]
      have hb1 : ch.code[c.currentCode.length]? = some 13 := by
        rw [hshape]
        simpa using getElem?_append_offset c.currentCode
          ([13, ((c.emit .getGlobal).add_constant (.string name)).1] ++ r) 0
      have hb2 : ch.code[c.currentCode.length + 1]? =
          some ((c.emit .getGlobal).add_constant (.string name)).1 := by
        rw [hshape]
        simpa using getElem?_append_offset c.currentCode
          ([13, ((c.emit .getGlobal).add_constant (.string name)).1] ++ r) 1
      have hl : (((c.emit .getGlobal).add_constant (.string name)).2.emit_byte
          ((c.emit .getGlobal).add_constant (.string name)).1).currentCode.length =
          c.currentCode.length + 2 := by
        simp
      cases step_getGlobal_shape ch start c.currentCode.length s g _ hb1 hb2 with
      | inl herr =>
        obtain ⟨err, herr⟩ := herr
        refine ⟨1, Or.inl ⟨err, ?_⟩⟩
        simp only [VM.stepsN]
        rw [herr]
        rfl
      | inr hok =>
        obtain ⟨v, hok⟩ := hok
        refine ⟨1, Or.inr ⟨s ++ [v], g, ?_, by simp⟩⟩
        simp only [VM.stepsN]
        rw [hok, hl]
        rfl

/-- Executing the `SetLocal`/`SetGlobal` pair emitted after a `VarSet`'s
initializer: one step, either a runtime error or the stack height is
preserved (the value is peeked, not popped). -/
theorem set_var_exec (c1 c' : Compiler) (name : String)
    (h : c1.emit_set_var name = .ok c') (ch : Chunk)
    (hcode : ∃ r, ch.code = c'.currentCode ++ r)
    (s2 : List Value) (m : Nat) (hlen : s2.length = m + 1)
    (start : Nat) (g : List (String × Value)) :
    ∃ n, (∃ err, VM.stepsN n (isoVM ch start c1.currentCode.length s2 g) =
            .error err) ∨
      (∃ s3 g3, VM.stepsN n (isoVM ch start c1.currentCode.length s2 g) =
          .ok (isoVM ch start c'.currentCode.length s3 g3) ∧
        s3.length = m + 1) := by
  obtain ⟨r, hr⟩ := hcode
  unfold Compiler.emit_set_var at h
  cases hres : c1.resolve_local name with
  | error e => rw [hres] at h; cases h
  | ok arg =>
    rw [hres] at h
    simp only [ok_bind] at h
    split at h
    · cases h
      obtain ⟨init, a, hsplit, hinit⟩ := stack_split_one s2 m hlen
      subst hsplit
      have hshape : ch.code = c1.currentCode ++ ([19, arg.toNat % 256] ++ r) := by
        rw [hr]
        simp [Opcode.toByte]
      have hb1 : ch.code[c1.currentCode.length]? = some 19 := by
        rw [hshape]
        simpa using getElem?_append_offset c1.currentCode
          ([19, arg.toNat % 256] ++ r) 0
      have hb2 : ch.code[c1.currentCode.length + 1]? = some (arg.toNat % 256) := by
        rw [hshape]
        simpa using getElem?_append_offset c1.currentCode
          ([19, arg.toNat % 256] ++ r) 1
      have hl : ((c1.emit .setLocal).emit_byte (arg.toNat % 256)).currentCode.length =
          c1.currentCode.length + 2 := by
        simp
      by_cases hin : start + arg.toNat % 256 < (init ++ [a]).length
      · refine ⟨1, Or.inr ⟨(init ++ [a]).set (start + arg.toNat % 256) a, g, ?_, by
          simp only [List.length_set, List.length_append, List.length_singleton]
          omega⟩⟩
        simp only [VM.stepsN]
        rw [step_setLocal ch start c1.currentCode.length init g a _ hb1 hb2,
          if_pos hin, hl]
        rfl
      · refine ⟨1, Or.inl ⟨.vecIndexOutOfBounds, ?_⟩⟩
        simp only [VM.stepsN]
        rw [step_setLocal ch start c1.currentCode.length init g a _ hb1 hb2,
          if_neg hin]
        rfl
    · cases h
      have hshape : ch.code = c1.currentCode ++
          ([14, ((c1.emit .setGlobal).add_constant (.string name)).1] ++ r) := by
        rw [hr]
        simp [Opcode.toByte]
      have hb1 : ch.code[c1.currentCode.length]? = some 14 := by
        rw [hshape]
        simpa using getElem?_append_offset c1.currentCode
          ([14, ((c1.emit .setGlobal).add_constant (.string name)).1] ++ r) 0
      have hb2 : ch.code[c1.currentCode.length + 1]? =
          some ((c1.emit .setGlobal).add_constant (.string name)).1 := by
        rw [hshape]
        simpa using getElem?_append_offset c1.currentCode
          ([14, ((c1.emit .setGlobal).add_constant (.string name)).1] ++ r) 1
      have hl : (((c1.emit .setGlobal).add_constant (.string name)).2.emit_byte
          ((c1.emit .setGlobal).add_constant (.string name)).1).currentCode.length =
          c1.currentCode.length + 2 := by
        simp
      cases step_setGlobal_shape ch start c1.currentCode.length s2 g _ hb1 hb2 with
      | inl herr =>
        obtain ⟨err, herr⟩ := herr
        refine ⟨1, Or.inl ⟨err, ?_⟩⟩
        simp only [VM.stepsN]
        rw [herr]
        rfl
      | inr hok =>
        obtain ⟨g3, hok⟩ := hok
        refine ⟨1, Or.inr ⟨s2, g3, ?_, hlen⟩⟩
        simp only [VM.stepsN]
        rw [hok, hl]
        rfl

/-- The value-producing expression fragment of the AST: literals, binary and
unary operators, grouping, variable reads and variable assignments. -/
inductive PureExpr : Expr → Prop where
  | literal (l : LiteralExpr) : PureExpr (.literal l)
  | binary {lhs rhs : Expr} (op : BinaryOperator) :
      PureExpr lhs → PureExpr rhs → PureExpr (.binary lhs rhs op)
  | unary {e : Expr} (op : UnaryOperator) : PureExpr e → PureExpr (.unary e op)
  | grouping {e : Expr} : PureExpr e → PureExpr (.grouping e)
  | varGet (name : String) : PureExpr (.varGet name)
  | varSet {init : Expr} (name : String) :
      PureExpr init → PureExpr (.varSet name init)

/-- C7 counterexample: the compiled *statement-like* node
`Block [Literal 5]` (a block containing a bare literal), executed in
isolation from an empty stack, terminates with stack height 1, not the
claimed 0 — no expression-statement `Pop` is ever emitted, and `end_scope`
pops only declared locals. -/
theorem c7_counterexample :
    ∃ c', compile_expr (.block [.literal (.number 5)]) Compiler.new = .ok c' ∧
      c'.currentCode = [1, 0] ∧
      VM.stepsN 1 (isoVM c'.current_chunk 0 0 [] []) =
        .ok (isoVM c'.current_chunk 0 2 [.number 5] []) ∧
      [Value.number 5].length = 1 ∧ 1 ≠ 0 := by
  exact ⟨_, rfl, rfl, rfl, rfl, by decide⟩

/-- C7 amended: for every *value-producing* expression node (literal,
binary, unary, grouping, variable get/set), executing its emitted bytecode
in isolation either aborts with a runtime error or terminates at the end of
the segment with the value-stack height exactly +1.  (The statement half of
the original claim is false — see the counterexample: no Pop is emitted for
an expression in statement position, so e.g. a block containing a bare
literal nets +1, not 0.) -/
theorem c7_amended (e : Expr) (he : PureExpr e) :
    ∀ (c c' : Compiler), compile_expr e c = .ok c' →
    ∀ (ch : Chunk), (∃ r, ch.code = c'.currentCode ++ r) →
      (∃ r, ch.constants = c'.currentConstants ++ r) →
    ∀ (s : List Value) (start : Nat) (g : List (String × Value)),
      ∃ n, (∃ err, VM.stepsN n (isoVM ch start c.currentCode.length s g) =
              .error err) ∨
        (∃ s2 g2, VM.stepsN n (isoVM ch start c.currentCode.length s g) =
            .ok (isoVM ch start c'.currentCode.length s2 g2) ∧
          s2.length = s.length + 1) := by
  induction he with
  | literal l =>
    intro c c' h ch hcode hconst s start g
    obtain ⟨r, hr⟩ := hcode
    simp only [compile_expr] at h
    cases l with
    | lnil => cases h
    | number v =>
      simp only [compile_literal] at h
      cases h
      exact emit_constant_exec c _ ch r hr s start g
    | string v =>
      simp only [compile_literal] at h
      cases h
      exact emit_constant_exec c _ ch r hr s start g
    | ltrue =>
      simp only [compile_literal] at h
      cases h
      exact emit_constant_exec c _ ch r hr s start g
    | lfalse =>
      simp only [compile_literal] at h
      cases h
      exact emit_constant_exec c _ ch r hr s start g
  | binary op hlhs hrhs ih1 ih2 =>
    intro c c' h ch hcode hconst s start g
    simp only [compile_expr] at h
    obtain ⟨c1, h1, h2⟩ := bind_ok_elim h
    obtain ⟨c2, h3, h4⟩ := bind_ok_elim h2
    cases h4
    have hx2 : CExt c2 (c2.emitAll (binaryOpcodes op)) := CExt_emitAll _ _
    have hx1 : CExt c1 c2 := compile_expr_extends _ _ _ h3
    obtain ⟨rc, hrc⟩ := hcode
    obtain ⟨rk, hrk⟩ := hconst
    obtain ⟨-, ⟨t2, ht2⟩, ⟨u2, hu2⟩⟩ := hx2
    obtain ⟨-, ⟨t1, ht1⟩, ⟨u1, hu1⟩⟩ := hx1
    obtain ⟨n1, ih1r⟩ := ih1 c c1 h1 ch
      ⟨t1 ++ (t2 ++ rc), by rw [hrc, ht2, ht1]; simp⟩
      ⟨u1 ++ (u2 ++ rk), by rw [hrk, hu2, hu1]; simp⟩ s start g
    cases ih1r with
    | inl herr =>
      obtain ⟨err, herr⟩ := herr
      exact ⟨n1, Or.inl ⟨err, herr⟩⟩
    | inr hok =>
      obtain ⟨s2, g2, hok, hlen2⟩ := hok
      obtain ⟨n2, ih2r⟩ := ih2 c1 c2 h3 ch
        ⟨t2 ++ rc, by rw [hrc, ht2, List.append_assoc]⟩
        ⟨u2 ++ rk, by rw [hrk, hu2, List.append_assoc]⟩ s2 start g2
      cases ih2r with
      | inl herr =>
        obtain ⟨err, herr⟩ := herr
        refine ⟨n1 + n2, Or.inl ⟨err, ?_⟩⟩
        rw [VM.stepsN_add, hok, ok_bind, herr]
      | inr hok2 =>
        obtain ⟨s3, g3, hok2, hlen3⟩ := hok2
        obtain ⟨nf, hfin⟩ := binop_exec op c2 ch rc
          (by rw [hrc, (Compiler.emitAll_spec c2 (binaryOpcodes op)).1,
            List.append_assoc])
          s3 (s.length) (by omega) start g3
        cases hfin with
        | inl herr =>
          obtain ⟨err, herr⟩ := herr
          refine ⟨n1 + n2 + nf, Or.inl ⟨err, ?_⟩⟩
          rw [VM.stepsN_add, VM.stepsN_add, hok, ok_bind, hok2, ok_bind, herr]
        | inr hfin =>
          obtain ⟨s4, hfin, hlen4⟩ := hfin
          refine ⟨n1 + n2 + nf, Or.inr ⟨s4, g3, ?_, by omega⟩⟩
          rw [VM.stepsN_add, VM.stepsN_add, hok, ok_bind, hok2, ok_bind, hfin]
  | unary op hpe ih =>
    intro c c' h ch hcode hconst s start g
    simp only [compile_expr] at h
    obtain ⟨c1, h1, h2⟩ := bind_ok_elim h
    cases h2
    obtain ⟨rc, hrc⟩ := hcode
    obtain ⟨rk, hrk⟩ := hconst
    have hcode1 : ch.code = c1.currentCode ++ ([(unaryOpcode op).toByte] ++ rc) := by
      rw [hrc]
      simp
    obtain ⟨n1, ih1r⟩ := ih c c1 h1 ch ⟨[(unaryOpcode op).toByte] ++ rc, hcode1⟩
      ⟨rk, by rw [hrk]; simp⟩ s start g
    cases ih1r with
    | inl herr =>
      obtain ⟨err, herr⟩ := herr
      exact ⟨n1, Or.inl ⟨err, herr⟩⟩
    | inr hok =>
      obtain ⟨s2, g2, hok, hlen2⟩ := hok
      obtain ⟨init, a, hsplit, hinit⟩ := stack_split_one s2 s.length hlen2
      have hbyte : ch.code[c1.currentCode.length]? = some (unaryOpcode op).toByte := by
        rw [hcode1]
        have := getElem?_append_offset c1.currentCode
          ([(unaryOpcode op).toByte] ++ rc) 0
        simpa using this
      cases op with
      | not =>
        refine ⟨n1 + 1, Or.inr ⟨init ++ [boolToValue (!a.truthy)], g2, ?_, by simp; omega⟩⟩
        rw [VM.stepsN_add, hok, ok_bind]
        show VM.stepsN 1 _ = _
        simp only [VM.stepsN, hsplit]
        rw [step_not ch start c1.currentCode.length init g2 a hbyte]
        simp
      | negate =>
        cases hneg : valueNeg a with
        | error err =>
          refine ⟨n1 + 1, Or.inl ⟨err, ?_⟩⟩
          rw [VM.stepsN_add, hok, ok_bind]
          show VM.stepsN 1 _ = _
          simp only [VM.stepsN, hsplit]
          rw [step_negate ch start c1.currentCode.length init g2 a hbyte, hneg]
          rfl
        | ok v =>
          refine ⟨n1 + 1, Or.inr ⟨init ++ [v], g2, ?_, by simp; omega⟩⟩
          rw [VM.stepsN_add, hok, ok_bind]
          show VM.stepsN 1 _ = _
          simp only [VM.stepsN, hsplit]
          rw [step_negate ch start c1.currentCode.length init g2 a hbyte, hneg]
          simp [Except.map]
  | grouping hpe ih =>
    intro c c' h ch hcode hconst s start g
    simp only [compile_expr] at h
    exact ih c c' h ch hcode hconst s start g
  | varGet name =>
    intro c c' h ch hcode hconst s start g
    simp only [compile_expr] at h
    exact get_var_exec c c' name h ch hcode s start g
  | varSet name hpe ih =>
    intro c c' h ch hcode hconst s start g
    simp only [compile_expr] at h
    obtain ⟨c1, h1, h2⟩ := bind_ok_elim h
    have hx2 : CExt c1 c' := CExt_set_var h2
    obtain ⟨rc, hrc⟩ := hcode
    obtain ⟨rk, hrk⟩ := hconst
    obtain ⟨-, ⟨t2, ht2⟩, ⟨u2, hu2⟩⟩ := hx2
    obtain ⟨n1, ih1r⟩ := ih c c1 h1 ch
      ⟨t2 ++ rc, by rw [hrc, ht2, List.append_assoc]⟩
      ⟨u2 ++ rk, by rw [hrk, hu2, List.append_assoc]⟩ s start g
    cases ih1r with
    | inl herr =>
      obtain ⟨err, herr⟩ := herr
      exact ⟨n1, Or.inl ⟨err, herr⟩⟩
    | inr hok =>
      obtain ⟨s2, g2, hok, hlen2⟩ := hok
      obtain ⟨nf, hfin⟩ := set_var_exec c1 c' name h2 ch
        ⟨rc, by rw [hrc, ht2]⟩ s2 s.length hlen2 start g2
      cases hfin with
      | inl herr =>
        obtain ⟨err, herr⟩ := herr
        refine ⟨n1 + nf, Or.inl ⟨err, ?_⟩⟩
        rw [VM.stepsN_add, hok, ok_bind, herr]
      | inr hfin =>
        obtain ⟨s3, g3, hfin, hlen3⟩ := hfin
        refine ⟨n1 + nf, Or.inr ⟨s3, g3, ?_, by omega⟩⟩
        rw [VM.stepsN_add, hok, ok_bind, hfin]

/-- The compiler state after compiling `1 + 2` from a fresh compiler. -/
def c7w_compiler : Compiler :=
  ((Compiler.new.emit_constant (.number 1)).emit_constant
    (.number 2)).emitAll (binaryOpcodes .add)

/-- C7 witness: the amended statement instantiated at the pure expression
`1 + 2`, compiled from a fresh compiler and run from an empty stack. -/
theorem c7_amended_witness :
    (compile_expr (.binary (.literal (.number 1)) (.literal (.number 2)) .add)
        Compiler.new = .ok c7w_compiler) ∧
    (∃ n, (∃ err, VM.stepsN n (isoVM c7w_compiler.current_chunk 0 0 [] []) =
            .error err) ∨
      (∃ s2 g2, VM.stepsN n (isoVM c7w_compiler.current_chunk 0 0 [] []) =
          .ok (isoVM c7w_compiler.current_chunk 0
            c7w_compiler.currentCode.length s2 g2) ∧
        s2.length = 0 + 1)) :=
  ⟨rfl,
    c7_amended _ (.binary .add (.literal (.number 1)) (.literal (.number 2)))
      Compiler.new c7w_compiler rfl c7w_compiler.current_chunk
      ⟨[], by simp [Compiler.currentCode]⟩
      ⟨[], by simp [Compiler.currentConstants]⟩ [] 0 []⟩

/-- C10 witness: storing 9 at index 1 of `[5, 6]` with a second copy of the
array in slot 0. -/
theorem c10_store_subscript_witness :
    (let arr : Value := .array [.number 5, .number 6]
     let vm : VM := { stack := [arr, arr, .number (1 : ℚ), .number 9],
                      frames := [], globals := [], output := [] }
     vm.store_subscript =
       .ok { vm with stack := [arr, .array [.number 5, .number 9]] }) ∧
    ([Value.array [.number 5, .number 6]][0]? =
      some (Value.array [.number 5, .number 6])) := by
  constructor
  · exact (c10_store_subscript _ [.array [.number 5, .number 6]]
      [.number 5, .number 6] 1 (.number 9) rfl (by decide)).1
  · rfl

/-! ## C1: jump patching in compiled `if` / `while` forms -/

/-- Patching the placeholder that sits immediately after prefix `p`: since
`patch_jump` writes `code.len() - offset - 2`, the written distance is
exactly the length of everything after the two placeholder bytes. -/
theorem patch_in_suffix (c : Compiler) (offset : Nat) (p : List Nat)
    (a b : Nat) (q : List Nat) (hcode : c.currentCode = p ++ a :: b :: q)
    (hoff : offset = p.length) :
    (c.patch_jump offset).currentCode =
      p ++ ((q.length >>> 8) &&& 0xff) :: (q.length &&& 0xff) :: q := by
  subst hoff
  have hlen : c.currentCode.length = p.length + (q.length + 2) := by
    rw [hcode]
    simp only [List.length_append, List.length_cons]
  have hj : c.currentCode.length - p.length - 2 = q.length := by omega
  have hp := (Compiler.patch_jump_spec c p.length).1
  rw [hp, hj, hcode,
    set_append_right _ _ _ _ (Nat.le_refl p.length),
    set_append_right _ _ _ _ (by omega : p.length ≤ p.length + 1)]
  have e1 : p.length - p.length = 0 := Nat.sub_self _
  have e2 : p.length + 1 - p.length = 1 := by omega
  rw [e1, e2]
  rfl

/-- `step` at a `JumpIfFalse` instruction in a single-frame configuration:
the condition is peeked (not popped) and the decoded offset is added to the
ip exactly when the condition is falsy. -/
theorem step_jumpIfFalse_iso (ch : Chunk) (start ip : Nat) (s : List Value)
    (g : List (String × Value)) (v : Value) (hi lo : Nat)
    (h1 : ch.code[ip]? = some 15) (h2 : ch.code[ip + 1]? = some hi)
    (h3 : ch.code[ip + 2]? = some lo) :
    (isoVM ch start ip (s ++ [v]) g).step =
      .ok (isoVM ch start
        (ip + 3 + (if v.truthy then 0 else ((hi <<< 8) ||| lo))) (s ++ [v]) g) := by
  have hv : (isoVM ch start ip (s ++ [v]) g).stack.getLast? = some v := by
    simp [isoVM]
  have := step_jumpIfFalse (isoVM ch start ip (s ++ [v]) g) _ hi lo v
    (isoVM_frame ch start ip (s ++ [v]) g) h1 h2 h3 hv
  rw [this]
  simp [isoVM, VM.setFrame]

/-- `step` at a `Jump` instruction in a single-frame configuration. -/
theorem step_jump_iso (ch : Chunk) (start ip : Nat) (s : List Value)
    (g : List (String × Value)) (hi lo : Nat)
    (h1 : ch.code[ip]? = some 16) (h2 : ch.code[ip + 1]? = some hi)
    (h3 : ch.code[ip + 2]? = some lo) :
    (isoVM ch start ip s g).step =
      .ok (isoVM ch start (ip + 3 + ((hi <<< 8) ||| lo)) s g) := by
  have := step_jump (isoVM ch start ip s g) _ hi lo
    (isoVM_frame ch start ip s g) h1 h2 h3
  rw [this]
  simp [isoVM, VM.setFrame]

/-- `step` at a `Loop` instruction in a single-frame configuration. -/
theorem step_loop_iso (ch : Chunk) (start ip : Nat) (s : List Value)
    (g : List (String × Value)) (hi lo : Nat)
    (h1 : ch.code[ip]? = some 23) (h2 : ch.code[ip + 1]? = some hi)
    (h3 : ch.code[ip + 2]? = some lo)
    (hle : ((hi <<< 8) ||| lo) ≤ ip + 3) :
    (isoVM ch start ip s g).step =
      .ok (isoVM ch start (ip + 3 - ((hi <<< 8) ||| lo)) s g) := by
  have := step_loop (isoVM ch start ip s g) _ hi lo
    (isoVM_frame ch start ip s g) h1 h2 h3 hle
  rw [this]
  simp [isoVM, VM.setFrame]

/-- Byte layout of a compiled `if` (no else): condition code, a
`JumpIfFalse` whose patched operand encodes `T.length + 4` (the then-arm
`T` plus `Pop` plus the 3-byte `Jump`), the then-side `Pop`, the arm, and
an exit `Jump` with patched operand 1 skipping the else-side `Pop`. -/
theorem if_layout (cond : Expr) (thenClause : List Expr) (c c' c1 : Compiler)
    (h1 : compile_expr cond c = .ok c1)
    (h : compile_expr (.ifE cond thenClause) c = .ok c') :
    ∃ T : List Nat,
      c'.currentCode = c1.currentCode ++
        (15 :: (((T.length + 4) >>> 8) &&& 0xff) :: ((T.length + 4) &&& 0xff) ::
          17 :: (T ++ [16, 0, 1, 17])) := by
  simp only [compile_expr, Compiler.emit_jump] at h
  obtain ⟨c1', hc1', h2⟩ := bind_ok_elim h
  rw [h1] at hc1'
  cases hc1'
  obtain ⟨c4, h3, h4⟩ := bind_ok_elim h2
  cases h4
  obtain ⟨-, ⟨T, hT⟩, -⟩ := compile_expr_list_extends _ _ _ h3
  refine ⟨T, ?_⟩
  have hc4 : c4.currentCode = c1.currentCode ++ (15 :: 255 :: 255 :: 17 :: T) := by
    rw [hT]
    simp [Opcode.toByte]
  have htj : (((c1.emit Opcode.jumpIfFalse).emit_byte 255).emit_byte
      255).currentCode.length - 2 = (c1.currentCode ++ [15]).length := by
    simp only [Compiler.currentCode_emit, Compiler.currentCode_emit_byte,
      List.length_append, List.length_cons, List.length_nil, Opcode.toByte]
    omega
  have hc5 : (((c4.emit Opcode.jump).emit_byte 255).emit_byte 255).currentCode =
      (c1.currentCode ++ [15]) ++ 255 :: 255 ::
        (17 :: (T ++ [16, 255, 255])) := by
    simp [hc4, Opcode.toByte]
  have hc6 := patch_in_suffix _ _ (c1.currentCode ++ [15]) 255 255
    (17 :: (T ++ [16, 255, 255])) hc5 htj
  have hql : (17 :: (T ++ [16, 255, 255])).length = T.length + 4 := by
    simp only [List.length_cons, List.length_append, List.length_nil]

  rw [hql] at hc6
  have ho1 : (((c1.emit Opcode.jumpIfFalse).emit_byte 255).emit_byte
      255).currentCode.length - 2 = c1.currentCode.length + 1 := by
    simp only [Compiler.currentCode_emit, Compiler.currentCode_emit_byte,
      List.length_append, List.length_cons, List.length_nil]
    omega
  rw [ho1] at hc6
  have hc7 : ((((((c4.emit Opcode.jump).emit_byte 255).emit_byte
      255).patch_jump ((((c1.emit Opcode.jumpIfFalse).emit_byte 255).emit_byte
        255).currentCode.length - 2)).emit Opcode.pop).currentCode) =
      (c1.currentCode ++ 15 :: (((T.length + 4) >>> 8) &&& 0xff) ::
        ((T.length + 4) &&& 0xff) :: 17 :: (T ++ [16])) ++
        255 :: 255 :: [17] := by
    simp [hc6, Opcode.toByte]
  have hej : (((c4.emit Opcode.jump).emit_byte 255).emit_byte
      255).currentCode.length - 2 =
      (c1.currentCode ++ 15 :: (((T.length + 4) >>> 8) &&& 0xff) ::
        ((T.length + 4) &&& 0xff) :: 17 :: (T ++ [16])).length := by
    rw [hc5]
    simp only [List.length_append, List.length_cons, List.length_nil]
    omega
  have hfin := patch_in_suffix _ _ _ 255 255 [17] hc7 hej
  rw [hfin]
  have h0 : (([17] : List Nat).length >>> 8) &&& 0xff = 0 := by decide
  have h1' : (([17] : List Nat).length) &&& 0xff = 1 := by decide
  rw [h0, h1']
  simp

/-- Byte layout of a compiled `if`/`else`: as for `if`, but the exit jump's
patched operand encodes `E.length + 1` (the else-side `Pop` plus the else
arm `E`). -/
theorem ifElse_layout (cond : Expr) (thenClause elseClause : List Expr)
    (c c' c1 : Compiler)
    (h1 : compile_expr cond c = .ok c1)
    (h : compile_expr (.ifElse cond thenClause elseClause) c = .ok c') :
    ∃ T E : List Nat,
      c'.currentCode = c1.currentCode ++
        (15 :: (((T.length + 4) >>> 8) &&& 0xff) :: ((T.length + 4) &&& 0xff) ::
          17 :: (T ++ (16 :: (((E.length + 1) >>> 8) &&& 0xff) ::
            ((E.length + 1) &&& 0xff) :: 17 :: E))) := by
  simp only [compile_expr, Compiler.emit_jump] at h
  obtain ⟨c1', hc1', h2⟩ := bind_ok_elim h
  rw [h1] at hc1'
  cases hc1'
  obtain ⟨c4, h3, h4⟩ := bind_ok_elim h2
  obtain ⟨c8, h5, h6⟩ := bind_ok_elim h4
  cases h6
  obtain ⟨-, ⟨T, hT⟩, -⟩ := compile_expr_list_extends _ _ _ h3
  obtain ⟨-, ⟨E, hE⟩, -⟩ := compile_expr_list_extends _ _ _ h5
  refine ⟨T, E, ?_⟩
  have hc4 : c4.currentCode = c1.currentCode ++ (15 :: 255 :: 255 :: 17 :: T) := by
    rw [hT]
    simp [Opcode.toByte]
  have htj : (((c1.emit Opcode.jumpIfFalse).emit_byte 255).emit_byte
      255).currentCode.length - 2 = (c1.currentCode ++ [15]).length := by
    simp only [Compiler.currentCode_emit, Compiler.currentCode_emit_byte,
      List.length_append, List.length_cons, List.length_nil, Opcode.toByte]
    omega
  have hc5 : (((c4.emit Opcode.jump).emit_byte 255).emit_byte 255).currentCode =
      (c1.currentCode ++ [15]) ++ 255 :: 255 ::
        (17 :: (T ++ [16, 255, 255])) := by
    simp [hc4, Opcode.toByte]
  have hc6 := patch_in_suffix _ _ (c1.currentCode ++ [15]) 255 255
    (17 :: (T ++ [16, 255, 255])) hc5 htj
  have hql : (17 :: (T ++ [16, 255, 255])).length = T.length + 4 := by
    simp only [List.length_cons, List.length_append, List.length_nil]
  rw [hql] at hc6
  have ho1 : (((c1.emit Opcode.jumpIfFalse).emit_byte 255).emit_byte
      255).currentCode.length - 2 = c1.currentCode.length + 1 := by
    simp only [Compiler.currentCode_emit, Compiler.currentCode_emit_byte,
      List.length_append, List.length_cons, List.length_nil]
    omega
  rw [ho1] at hc6
  have hc8 : c8.currentCode =
      (c1.currentCode ++ 15 :: (((T.length + 4) >>> 8) &&& 0xff) ::
        ((T.length + 4) &&& 0xff) :: 17 :: (T ++ [16])) ++
        255 :: 255 :: (17 :: E) := by
    rw [hE]
    simp [hc6, Opcode.toByte]
  have hej : (((c4.emit Opcode.jump).emit_byte 255).emit_byte
      255).currentCode.length - 2 =
      (c1.currentCode ++ 15 :: (((T.length + 4) >>> 8) &&& 0xff) ::
        ((T.length + 4) &&& 0xff) :: 17 :: (T ++ [16])).length := by
    rw [hc5]
    simp only [List.length_append, List.length_cons, List.length_nil]
    omega
  have hfin := patch_in_suffix _ _ _ 255 255 (17 :: E) hc8 hej
  rw [hfin]
  have hql2 : ((17 : Nat) :: E).length = E.length + 1 := by
    simp only [List.length_cons]
  rw [hql2]
  simp

/-- Byte layout of a compiled `while`: condition code, an exit
`JumpIfFalse` whose patched operand encodes `B.length + 4` (body `B` plus
`Pop` plus the 3-byte `Loop`), the loop-side `Pop`, the body, a `Loop`
whose operand is the backward distance to `loop_start`, and the exit-side
`Pop`. -/
theorem while_layout (cond body : Expr) (c c' c1 : Compiler)
    (h1 : compile_expr cond c = .ok c1)
    (h : compile_expr (.whileE cond body) c = .ok c') :
    ∃ B : List Nat,
      c.currentCode.length ≤ c1.currentCode.length ∧
      c'.currentCode = c1.currentCode ++
        (15 :: (((B.length + 4) >>> 8) &&& 0xff) :: ((B.length + 4) &&& 0xff) ::
          17 :: (B ++ [23,
            ((c1.currentCode.length + B.length + 7 - c.currentCode.length) >>> 8)
              &&& 0xff,
            (c1.currentCode.length + B.length + 7 - c.currentCode.length)
              &&& 0xff,
            17])) := by
  have hlen0 : c.currentCode.length ≤ c1.currentCode.length :=
    (compile_expr_extends _ _ _ h1).len_le
  simp only [compile_expr, Compiler.emit_jump] at h
  obtain ⟨c1', hc1', h2⟩ := bind_ok_elim h
  rw [h1] at hc1'
  cases hc1'
  obtain ⟨c4, h3, h4⟩ := bind_ok_elim h2
  cases h4
  obtain ⟨-, ⟨B, hB⟩, -⟩ := compile_expr_extends _ _ _ h3
  refine ⟨B, hlen0, ?_⟩
  have hc4 : c4.currentCode = c1.currentCode ++ (15 :: 255 :: 255 :: 17 :: B) := by
    rw [hB]
    simp [Opcode.toByte]
  have htj : (((c1.emit Opcode.jumpIfFalse).emit_byte 255).emit_byte
      255).currentCode.length - 2 = (c1.currentCode ++ [15]).length := by
    simp only [Compiler.currentCode_emit, Compiler.currentCode_emit_byte,
      List.length_append, List.length_cons, List.length_nil, Opcode.toByte]
    omega
  have hd : (c1.currentCode ++ 15 :: 255 :: 255 :: 17 :: B).length + 1 -
      c.currentCode.length + 2 =
      c1.currentCode.length + B.length + 7 - c.currentCode.length := by
    simp only [List.length_append, List.length_cons]
    omega
  have hc5 : (c4.emit_loop c.currentCode.length).currentCode =
      (c1.currentCode ++ [15]) ++ 255 :: 255 ::
        (17 :: (B ++ [23,
          ((c1.currentCode.length + B.length + 7 - c.currentCode.length) >>> 8)
            &&& 0xff,
          (c1.currentCode.length + B.length + 7 - c.currentCode.length)
            &&& 0xff])) := by
    rw [(Compiler.emit_loop_spec c4 c.currentCode.length).1, hc4, hd]
    simp
  have hc6 := patch_in_suffix _ _ (c1.currentCode ++ [15]) 255 255
    (17 :: (B ++ [23,
      ((c1.currentCode.length + B.length + 7 - c.currentCode.length) >>> 8)
        &&& 0xff,
      (c1.currentCode.length + B.length + 7 - c.currentCode.length)
        &&& 0xff])) hc5 htj
  have hql : (17 :: (B ++ [23,
      ((c1.currentCode.length + B.length + 7 - c.currentCode.length) >>> 8)
        &&& 0xff,
      (c1.currentCode.length + B.length + 7 - c.currentCode.length)
        &&& 0xff])).length = B.length + 4 := by
    simp only [List.length_cons, List.length_append, List.length_nil]
  rw [hql] at hc6
  have ho1 : (((c1.emit Opcode.jumpIfFalse).emit_byte 255).emit_byte
      255).currentCode.length - 2 = c1.currentCode.length + 1 := by
    simp only [Compiler.currentCode_emit, Compiler.currentCode_emit_byte,
      List.length_append, List.length_cons, List.length_nil]
    omega
  rw [ho1] at hc6
  simp [hc6, Opcode.toByte]

/-- C1: for every compiled `if`, `if`/`else` and `while` form, the patched
forward-jump operand encodes exactly `code length at patch time − placeholder
position − 2` (shown as the length of the bytecode between the placeholder's
end and the jump target: `T.length + 4` for the then-jump over the arm `T`,
`Pop` and exit `Jump`; `E.length + 1` for the exit jump over the else-side
`Pop` and arm `E`; `B.length + 4` for the `while` exit jump), the decoded
target is the first instruction after the skipped arm (an instruction
boundary holding the compiler's own `Pop`, or the end of the form), and at
runtime `JumpIfFalse` leaves the condition value on the stack and skips the
arm exactly when that value is falsy — provided the distance fits in the 16
bits `patch_jump` writes. The `Loop` instruction of a `while` jumps back
exactly to `loop_start`. -/
theorem c1_jump_patching :
    (∀ (cond : Expr) (thenClause : List Expr) (c c' c1 : Compiler),
      compile_expr cond c = .ok c1 →
      compile_expr (.ifE cond thenClause) c = .ok c' →
      ∃ T : List Nat,
        c'.currentCode = c1.currentCode ++
          (15 :: (((T.length + 4) >>> 8) &&& 0xff) :: ((T.length + 4) &&& 0xff) ::
            17 :: (T ++ [16, 0, 1, 17])) ∧
        c'.currentCode[c1.currentCode.length + 3 + (T.length + 4)]? = some 17 ∧
        c'.currentCode.length = c1.currentCode.length + T.length + 8 ∧
        (T.length + 4 < 65536 →
          ∀ (ch : Chunk), (∃ r, ch.code = c'.currentCode ++ r) →
          ∀ (start : Nat) (s : List Value) (g : List (String × Value)) (v : Value),
            (isoVM ch start c1.currentCode.length (s ++ [v]) g).step =
              .ok (isoVM ch start
                (c1.currentCode.length + 3 +
                  (if v.truthy then 0 else T.length + 4)) (s ++ [v]) g))) ∧
    (∀ (cond : Expr) (thenClause elseClause : List Expr) (c c' c1 : Compiler),
      compile_expr cond c = .ok c1 →
      compile_expr (.ifElse cond thenClause elseClause) c = .ok c' →
      ∃ T E : List Nat,
        c'.currentCode = c1.currentCode ++
          (15 :: (((T.length + 4) >>> 8) &&& 0xff) :: ((T.length + 4) &&& 0xff) ::
            17 :: (T ++ (16 :: (((E.length + 1) >>> 8) &&& 0xff) ::
              ((E.length + 1) &&& 0xff) :: 17 :: E))) ∧
        c'.currentCode[c1.currentCode.length + 3 + (T.length + 4)]? = some 17 ∧
        c'.currentCode.length =
          c1.currentCode.length + T.length + E.length + 8 ∧
        c1.currentCode.length + T.length + 4 + 3 + (E.length + 1) =
          c'.currentCode.length ∧
        (T.length + 4 < 65536 →
          ∀ (ch : Chunk), (∃ r, ch.code = c'.currentCode ++ r) →
          ∀ (start : Nat) (s : List Value) (g : List (String × Value)) (v : Value),
            (isoVM ch start c1.currentCode.length (s ++ [v]) g).step =
              .ok (isoVM ch start
                (c1.currentCode.length + 3 +
                  (if v.truthy then 0 else T.length + 4)) (s ++ [v]) g)) ∧
        (E.length + 1 < 65536 →
          ∀ (ch : Chunk), (∃ r, ch.code = c'.currentCode ++ r) →
          ∀ (start : Nat) (s : List Value) (g : List (String × Value)),
            (isoVM ch start (c1.currentCode.length + T.length + 4) s g).step =
              .ok (isoVM ch start
                (c1.currentCode.length + T.length + 4 + 3 + (E.length + 1))
                s g))) ∧
    (∀ (cond body : Expr) (c c' c1 : Compiler),
      compile_expr cond c = .ok c1 →
      compile_expr (.whileE cond body) c = .ok c' →
      ∃ B : List Nat,
        c.currentCode.length ≤ c1.currentCode.length ∧
        c'.currentCode = c1.currentCode ++
          (15 :: (((B.length + 4) >>> 8) &&& 0xff) :: ((B.length + 4) &&& 0xff) ::
            17 :: (B ++ [23,
              ((c1.currentCode.length + B.length + 7 - c.currentCode.length) >>> 8)
                &&& 0xff,
              (c1.currentCode.length + B.length + 7 - c.currentCode.length)
                &&& 0xff,
              17])) ∧
        c'.currentCode[c1.currentCode.length + 3 + (B.length + 4)]? = some 17 ∧
        c'.currentCode.length = c1.currentCode.length + B.length + 8 ∧
        (B.length + 4 < 65536 →
          ∀ (ch : Chunk), (∃ r, ch.code = c'.currentCode ++ r) →
          ∀ (start : Nat) (s : List Value) (g : List (String × Value)) (v : Value),
            (isoVM ch start c1.currentCode.length (s ++ [v]) g).step =
              .ok (isoVM ch start
                (c1.currentCode.length + 3 +
                  (if v.truthy then 0 else B.length + 4)) (s ++ [v]) g)) ∧
        (c1.currentCode.length + B.length + 7 - c.currentCode.length < 65536 →
          ∀ (ch : Chunk), (∃ r, ch.code = c'.currentCode ++ r) →
          ∀ (start : Nat) (s : List Value) (g : List (String × Value)),
            (isoVM ch start (c1.currentCode.length + B.length + 4) s g).step =
              .ok (isoVM ch start c.currentCode.length s g))) := by
  refine ⟨?_, ?_, ?_⟩
  · intro cond thenClause c c' c1 h1 h
    obtain ⟨T, hlay⟩ := if_layout cond thenClause c c' c1 h1 h
    refine ⟨T, hlay, ?_, ?_, ?_⟩
    · have hsplit : c'.currentCode =
          (c1.currentCode ++ 15 :: (((T.length + 4) >>> 8) &&& 0xff) ::
            ((T.length + 4) &&& 0xff) :: 17 :: T) ++ [16, 0, 1, 17] := by
        rw [hlay]
        simp
      have hplen : (c1.currentCode ++ 15 :: (((T.length + 4) >>> 8) &&& 0xff) ::
          ((T.length + 4) &&& 0xff) :: 17 :: T).length =
          c1.currentCode.length + T.length + 4 := by
        simp only [List.length_append, List.length_cons]
        omega
      have hidx : c1.currentCode.length + 3 + (T.length + 4) =
          (c1.currentCode ++ 15 :: (((T.length + 4) >>> 8) &&& 0xff) ::
            ((T.length + 4) &&& 0xff) :: 17 :: T).length + 3 := by
        rw [hplen]
        omega
      rw [hsplit, hidx]
      simpa using getElem?_append_offset
        (c1.currentCode ++ 15 :: (((T.length + 4) >>> 8) &&& 0xff) ::
          ((T.length + 4) &&& 0xff) :: 17 :: T) [16, 0, 1, 17] 3
    · rw [hlay]
      simp only [List.length_append, List.length_cons, List.length_nil]
      omega
    · intro hlt ch hch start s g v
      obtain ⟨r, hr⟩ := hch
      have hsh : ch.code = c1.currentCode ++
          (15 :: (((T.length + 4) >>> 8) &&& 0xff) :: ((T.length + 4) &&& 0xff) ::
            17 :: (T ++ 16 :: 0 :: 1 :: 17 :: r)) := by
        rw [hr, hlay]
        simp
      have hb0 : ch.code[c1.currentCode.length]? = some 15 := by
        rw [hsh]
        simpa using getElem?_append_offset c1.currentCode
          (15 :: (((T.length + 4) >>> 8) &&& 0xff) :: ((T.length + 4) &&& 0xff) ::
            17 :: (T ++ 16 :: 0 :: 1 :: 17 :: r)) 0
      have hb1 : ch.code[c1.currentCode.length + 1]? =
          some (((T.length + 4) >>> 8) &&& 0xff) := by
        rw [hsh]
        simpa using getElem?_append_offset c1.currentCode
          (15 :: (((T.length + 4) >>> 8) &&& 0xff) :: ((T.length + 4) &&& 0xff) ::
            17 :: (T ++ 16 :: 0 :: 1 :: 17 :: r)) 1
      have hb2 : ch.code[c1.currentCode.length + 2]? =
          some ((T.length + 4) &&& 0xff) := by
        rw [hsh]
        simpa using getElem?_append_offset c1.currentCode
          (15 :: (((T.length + 4) >>> 8) &&& 0xff) :: ((T.length + 4) &&& 0xff) ::
            17 :: (T ++ 16 :: 0 :: 1 :: 17 :: r)) 2
      rw [step_jumpIfFalse_iso ch start c1.currentCode.length s g v _ _
        hb0 hb1 hb2, byte_roundtrip _ hlt]
  · intro cond thenClause elseClause c c' c1 h1 h
    obtain ⟨T, E, hlay⟩ := ifElse_layout cond thenClause elseClause c c' c1 h1 h
    have hlen : c'.currentCode.length =
        c1.currentCode.length + T.length + E.length + 8 := by
      rw [hlay]
      simp only [List.length_append, List.length_cons]
      omega
    refine ⟨T, E, hlay, ?_, hlen, by omega, ?_, ?_⟩
    · have hsplit : c'.currentCode =
          (c1.currentCode ++ 15 :: (((T.length + 4) >>> 8) &&& 0xff) ::
            ((T.length + 4) &&& 0xff) :: 17 :: T) ++
            (16 :: (((E.length + 1) >>> 8) &&& 0xff) ::
              ((E.length + 1) &&& 0xff) :: 17 :: E) := by
        rw [hlay]
        simp
      have hplen : (c1.currentCode ++ 15 :: (((T.length + 4) >>> 8) &&& 0xff) ::
          ((T.length + 4) &&& 0xff) :: 17 :: T).length =
          c1.currentCode.length + T.length + 4 := by
        simp only [List.length_append, List.length_cons]
        omega
      have hidx : c1.currentCode.length + 3 + (T.length + 4) =
          (c1.currentCode ++ 15 :: (((T.length + 4) >>> 8) &&& 0xff) ::
            ((T.length + 4) &&& 0xff) :: 17 :: T).length + 3 := by
        rw [hplen]
        omega
      rw [hsplit, hidx]
      simpa using getElem?_append_offset
        (c1.currentCode ++ 15 :: (((T.length + 4) >>> 8) &&& 0xff) ::
          ((T.length + 4) &&& 0xff) :: 17 :: T)
        (16 :: (((E.length + 1) >>> 8) &&& 0xff) ::
          ((E.length + 1) &&& 0xff) :: 17 :: E) 3
    · intro hlt ch hch start s g v
      obtain ⟨r, hr⟩ := hch
      have hsh : ch.code = c1.currentCode ++
          (15 :: (((T.length + 4) >>> 8) &&& 0xff) :: ((T.length + 4) &&& 0xff) ::
            17 :: (T ++ 16 :: (((E.length + 1) >>> 8) &&& 0xff) ::
              ((E.length + 1) &&& 0xff) :: 17 :: (E ++ r))) := by
        rw [hr, hlay]
        simp
      have hb0 : ch.code[c1.currentCode.length]? = some 15 := by
        rw [hsh]
        simpa using getElem?_append_offset c1.currentCode
          (15 :: (((T.length + 4) >>> 8) &&& 0xff) :: ((T.length + 4) &&& 0xff) ::
            17 :: (T ++ 16 :: (((E.length + 1) >>> 8) &&& 0xff) ::
              ((E.length + 1) &&& 0xff) :: 17 :: (E ++ r))) 0
      have hb1 : ch.code[c1.currentCode.length + 1]? =
          some (((T.length + 4) >>> 8) &&& 0xff) := by
        rw [hsh]
        simpa using getElem?_append_offset c1.currentCode
          (15 :: (((T.length + 4) >>> 8) &&& 0xff) :: ((T.length + 4) &&& 0xff) ::
            17 :: (T ++ 16 :: (((E.length + 1) >>> 8) &&& 0xff) ::
              ((E.length + 1) &&& 0xff) :: 17 :: (E ++ r))) 1
      have hb2 : ch.code[c1.currentCode.length + 2]? =
          some ((T.length + 4) &&& 0xff) := by
        rw [hsh]
        simpa using getElem?_append_offset c1.currentCode
          (15 :: (((T.length + 4) >>> 8) &&& 0xff) :: ((T.length + 4) &&& 0xff) ::
            17 :: (T ++ 16 :: (((E.length + 1) >>> 8) &&& 0xff) ::
              ((E.length + 1) &&& 0xff) :: 17 :: (E ++ r))) 2
      rw [step_jumpIfFalse_iso ch start c1.currentCode.length s g v _ _
        hb0 hb1 hb2, byte_roundtrip _ hlt]
    · intro hlt ch hch start s g
      obtain ⟨r, hr⟩ := hch
      have hsh : ch.code =
          (c1.currentCode ++ 15 :: (((T.length + 4) >>> 8) &&& 0xff) ::
            ((T.length + 4) &&& 0xff) :: 17 :: T) ++
            (16 :: (((E.length + 1) >>> 8) &&& 0xff) ::
              ((E.length + 1) &&& 0xff) :: 17 :: (E ++ r)) := by
        rw [hr, hlay]
        simp
      have hplen : (c1.currentCode ++ 15 :: (((T.length + 4) >>> 8) &&& 0xff) ::
          ((T.length + 4) &&& 0xff) :: 17 :: T).length =
          c1.currentCode.length + T.length + 4 := by
        simp only [List.length_append, List.length_cons]
        omega
      have hb0 : ch.code[c1.currentCode.length + T.length + 4]? = some 16 := by
        have := getElem?_append_offset
          (c1.currentCode ++ 15 :: (((T.length + 4) >>> 8) &&& 0xff) ::
            ((T.length + 4) &&& 0xff) :: 17 :: T)
          (16 :: (((E.length + 1) >>> 8) &&& 0xff) ::
            ((E.length + 1) &&& 0xff) :: 17 :: (E ++ r)) 0
        rw [hplen] at this
        rw [hsh]
        simpa using this
      have hb1 : ch.code[c1.currentCode.length + T.length + 4 + 1]? =
          some (((E.length + 1) >>> 8) &&& 0xff) := by
        have := getElem?_append_offset
          (c1.currentCode ++ 15 :: (((T.length + 4) >>> 8) &&& 0xff) ::
            ((T.length + 4) &&& 0xff) :: 17 :: T)
          (16 :: (((E.length + 1) >>> 8) &&& 0xff) ::
            ((E.length + 1) &&& 0xff) :: 17 :: (E ++ r)) 1
        rw [hplen] at this
        rw [hsh]
        simpa using this
      have hb2 : ch.code[c1.currentCode.length + T.length + 4 + 2]? =
          some ((E.length + 1) &&& 0xff) := by
        have := getElem?_append_offset
          (c1.currentCode ++ 15 :: (((T.length + 4) >>> 8) &&& 0xff) ::
            ((T.length + 4) &&& 0xff) :: 17 :: T)
          (16 :: (((E.length + 1) >>> 8) &&& 0xff) ::
            ((E.length + 1) &&& 0xff) :: 17 :: (E ++ r)) 2
        rw [hplen] at this
        rw [hsh]
        simpa using this
      rw [step_jump_iso ch start (c1.currentCode.length + T.length + 4) s g _ _
        hb0 hb1 hb2, byte_roundtrip _ hlt]
  · intro cond body c c' c1 h1 h
    obtain ⟨B, hlen0, hlay⟩ := while_layout cond body c c' c1 h1 h
    refine ⟨B, hlen0, hlay, ?_, ?_, ?_, ?_⟩
    · have hsplit : c'.currentCode =
          (c1.currentCode ++ 15 :: (((B.length + 4) >>> 8) &&& 0xff) ::
            ((B.length + 4) &&& 0xff) :: 17 :: B) ++
            [23,
              ((c1.currentCode.length + B.length + 7 - c.currentCode.length) >>> 8)
                &&& 0xff,
              (c1.currentCode.length + B.length + 7 - c.currentCode.length)
                &&& 0xff,
              17] := by
        rw [hlay]
        simp
      have hplen : (c1.currentCode ++ 15 :: (((B.length + 4) >>> 8) &&& 0xff) ::
          ((B.length + 4) &&& 0xff) :: 17 :: B).length =
          c1.currentCode.length + B.length + 4 := by
        simp only [List.length_append, List.length_cons]
        omega
      have hidx : c1.currentCode.length + 3 + (B.length + 4) =
          (c1.currentCode ++ 15 :: (((B.length + 4) >>> 8) &&& 0xff) ::
            ((B.length + 4) &&& 0xff) :: 17 :: B).length + 3 := by
        rw [hplen]
        omega
      rw [hsplit, hidx]
      simpa using getElem?_append_offset
        (c1.currentCode ++ 15 :: (((B.length + 4) >>> 8) &&& 0xff) ::
          ((B.length + 4) &&& 0xff) :: 17 :: B)
        [23,
          ((c1.currentCode.length + B.length + 7 - c.currentCode.length) >>> 8)
            &&& 0xff,
          (c1.currentCode.length + B.length + 7 - c.currentCode.length)
            &&& 0xff,
          17] 3
    · rw [hlay]
      simp only [List.length_append, List.length_cons, List.length_nil]
      omega
    · intro hlt ch hch start s g v
      obtain ⟨r, hr⟩ := hch
      have hsh : ch.code = c1.currentCode ++
          (15 :: (((B.length + 4) >>> 8) &&& 0xff) :: ((B.length + 4) &&& 0xff) ::
            17 :: (B ++ 23 ::
              (((c1.currentCode.length + B.length + 7 - c.currentCode.length) >>> 8)
                &&& 0xff) ::
              ((c1.currentCode.length + B.length + 7 - c.currentCode.length)
                &&& 0xff) ::
              17 :: r)) := by
        rw [hr, hlay]
        simp
      have hb0 : ch.code[c1.currentCode.length]? = some 15 := by
        rw [hsh]
        simpa using getElem?_append_offset c1.currentCode
          (15 :: (((B.length + 4) >>> 8) &&& 0xff) :: ((B.length + 4) &&& 0xff) ::
            17 :: (B ++ 23 ::
              (((c1.currentCode.length + B.length + 7 - c.currentCode.length) >>> 8)
                &&& 0xff) ::
              ((c1.currentCode.length + B.length + 7 - c.currentCode.length)
                &&& 0xff) ::
              17 :: r)) 0
      have hb1 : ch.code[c1.currentCode.length + 1]? =
          some (((B.length + 4) >>> 8) &&& 0xff) := by
        rw [hsh]
        simpa using getElem?_append_offset c1.currentCode
          (15 :: (((B.length + 4) >>> 8) &&& 0xff) :: ((B.length + 4) &&& 0xff) ::
            17 :: (B ++ 23 ::
              (((c1.currentCode.length + B.length + 7 - c.currentCode.length) >>> 8)
                &&& 0xff) ::
              ((c1.currentCode.length + B.length + 7 - c.currentCode.length)
                &&& 0xff) ::
              17 :: r)) 1
      have hb2 : ch.code[c1.currentCode.length + 2]? =
          some ((B.length + 4) &&& 0xff) := by
        rw [hsh]
        simpa using getElem?_append_offset c1.currentCode
          (15 :: (((B.length + 4) >>> 8) &&& 0xff) :: ((B.length + 4) &&& 0xff) ::
            17 :: (B ++ 23 ::
              (((c1.currentCode.length + B.length + 7 - c.currentCode.length) >>> 8)
                &&& 0xff) ::
              ((c1.currentCode.length + B.length + 7 - c.currentCode.length)
                &&& 0xff) ::
              17 :: r)) 2
      rw [step_jumpIfFalse_iso ch start c1.currentCode.length s g v _ _
        hb0 hb1 hb2, byte_roundtrip _ hlt]
    · intro hlt ch hch start s g
      obtain ⟨r, hr⟩ := hch
      have hsh : ch.code =
          (c1.currentCode ++ 15 :: (((B.length + 4) >>> 8) &&& 0xff) ::
            ((B.length + 4) &&& 0xff) :: 17 :: B) ++
            (23 ::
              (((c1.currentCode.length + B.length + 7 - c.currentCode.length) >>> 8)
                &&& 0xff) ::
              ((c1.currentCode.length + B.length + 7 - c.currentCode.length)
                &&& 0xff) ::
              17 :: r) := by
        rw [hr, hlay]
        simp
      have hplen : (c1.currentCode ++ 15 :: (((B.length + 4) >>> 8) &&& 0xff) ::
          ((B.length + 4) &&& 0xff) :: 17 :: B).length =
          c1.currentCode.length + B.length + 4 := by
        simp only [List.length_append, List.length_cons]
        omega
      have hb0 : ch.code[c1.currentCode.length + B.length + 4]? = some 23 := by
        have := getElem?_append_offset
          (c1.currentCode ++ 15 :: (((B.length + 4) >>> 8) &&& 0xff) ::
            ((B.length + 4) &&& 0xff) :: 17 :: B)
          (23 ::
            (((c1.currentCode.length + B.length + 7 - c.currentCode.length) >>> 8)
              &&& 0xff) ::
            ((c1.currentCode.length + B.length + 7 - c.currentCode.length)
              &&& 0xff) ::
            17 :: r) 0
        rw [hplen] at this
        rw [hsh]
        simpa using this
      have hb1 : ch.code[c1.currentCode.length + B.length + 4 + 1]? =
          some (((c1.currentCode.length + B.length + 7 - c.currentCode.length)
            >>> 8) &&& 0xff) := by
        have := getElem?_append_offset
          (c1.currentCode ++ 15 :: (((B.length + 4) >>> 8) &&& 0xff) ::
            ((B.length + 4) &&& 0xff) :: 17 :: B)
          (23 ::
            (((c1.currentCode.length + B.length + 7 - c.currentCode.length) >>> 8)
              &&& 0xff) ::
            ((c1.currentCode.length + B.length + 7 - c.currentCode.length)
              &&& 0xff) ::
            17 :: r) 1
        rw [hplen] at this
        rw [hsh]
        simpa using this
      have hb2 : ch.code[c1.currentCode.length + B.length + 4 + 2]? =
          some ((c1.currentCode.length + B.length + 7 - c.currentCode.length)
            &&& 0xff) := by
        have := getElem?_append_offset
          (c1.currentCode ++ 15 :: (((B.length + 4) >>> 8) &&& 0xff) ::
            ((B.length + 4) &&& 0xff) :: 17 :: B)
          (23 ::
            (((c1.currentCode.length + B.length + 7 - c.currentCode.length) >>> 8)
              &&& 0xff) ::
            ((c1.currentCode.length + B.length + 7 - c.currentCode.length)
              &&& 0xff) ::
            17 :: r) 2
        rw [hplen] at this
        rw [hsh]
        simpa using this
      have hdec : ((((c1.currentCode.length + B.length + 7 -
          c.currentCode.length) >>> 8) &&& 0xff) <<< 8) |||
          ((c1.currentCode.length + B.length + 7 - c.currentCode.length)
            &&& 0xff) =
          c1.currentCode.length + B.length + 7 - c.currentCode.length :=
        byte_roundtrip _ hlt
      rw [step_loop_iso ch start (c1.currentCode.length + B.length + 4) s g _ _
        hb0 hb1 hb2 (by rw [hdec]; omega), hdec]
      have harith : c1.currentCode.length + B.length + 4 + 3 -
          (c1.currentCode.length + B.length + 7 - c.currentCode.length) =
          c.currentCode.length := by omega
      rw [harith]

/-- The compiler state after compiling the condition `true` from a fresh
compiler. -/
def c1w_cond : Compiler :=
  (compile_expr (.literal .ltrue) Compiler.new).toOption.getD Compiler.new

/-- The compiler state after compiling `if true { 1 }` from a fresh
compiler. -/
def c1w_if : Compiler :=
  (compile_expr (.ifE (.literal .ltrue) [.literal (.number 1)])
    Compiler.new).toOption.getD Compiler.new

/-- The compiler state after compiling `while true { 1 }` from a fresh
compiler. -/
def c1w_while : Compiler :=
  (compile_expr (.whileE (.literal .ltrue) (.literal (.number 1)))
    Compiler.new).toOption.getD Compiler.new

/-- C1 witness: on `if true { 1 }` the `JumpIfFalse` at the end of the
condition skips 6 bytes (then-arm 2, `Pop` 1, `Jump` 3) when the condition
value is falsy and falls through when it is truthy; on `while true { 1 }`
the `Loop` instruction jumps back to `loop_start` 0. -/
theorem c1_jump_patching_witness :
    compile_expr (.ifE (.literal .ltrue) [.literal (.number 1)])
      Compiler.new = .ok c1w_if ∧
    compile_expr (.whileE (.literal .ltrue) (.literal (.number 1)))
      Compiler.new = .ok c1w_while ∧
    (isoVM c1w_if.current_chunk 0 c1w_cond.currentCode.length
        [Value.nil] []).step =
      .ok (isoVM c1w_if.current_chunk 0 (c1w_cond.currentCode.length + 3 + 6)
        [Value.nil] []) ∧
    (isoVM c1w_if.current_chunk 0 c1w_cond.currentCode.length
        [Value.vtrue] []).step =
      .ok (isoVM c1w_if.current_chunk 0 (c1w_cond.currentCode.length + 3)
        [Value.vtrue] []) ∧
    (isoVM c1w_while.current_chunk 0 (c1w_cond.currentCode.length + 2 + 4)
        [] []).step =
      .ok (isoVM c1w_while.current_chunk 0 0 [] []) := by
  obtain ⟨T, hlayI, hbI, hlenI, hrtI⟩ := c1_jump_patching.1 (.literal .ltrue)
    [.literal (.number 1)] Compiler.new c1w_if c1w_cond rfl rfl
  obtain ⟨B, hle0, hlayW, hbW, hlenW, hrtW, hloopW⟩ :=
    c1_jump_patching.2.2 (.literal .ltrue) (.literal (.number 1))
      Compiler.new c1w_while c1w_cond rfl rfl
  have e1 : c1w_if.currentCode.length = 12 := by rfl
  have e2 : c1w_cond.currentCode.length = 2 := by rfl
  have e3 : c1w_while.currentCode.length = 12 := by rfl
  have e4 : Compiler.new.currentCode.length = 0 := by rfl
  have hT : T.length = 2 := by omega
  have hB : B.length = 2 := by omega
  refine ⟨rfl, rfl, ?_, ?_, ?_⟩
  · have := hrtI (by omega) c1w_if.current_chunk
      ⟨[], by simp [Compiler.currentCode]⟩ 0 [] [] .nil
    rw [hT] at this
    simpa [Value.truthy] using this
  · have := hrtI (by omega) c1w_if.current_chunk
      ⟨[], by simp [Compiler.currentCode]⟩ 0 [] [] .vtrue
    simpa [Value.truthy] using this
  · have := hloopW (by omega) c1w_while.current_chunk
      ⟨[], by simp [Compiler.currentCode]⟩ 0 [] []
    rw [hB, e4] at this
    simpa using this

end Green
